import Mathlib

/-!
# DFG stack layout phase and heap-location keys

A shallow embedding of `dfg/DFGStackLayoutPhase.cpp` (`StackLayoutPhase::run`,
`StackLayoutPhase::assign`) and of `dfg/DFGHeapLocation.h` (`HeapLocation`,
`HeapLocationHash`), followed by the properties proved about them.

Conventions of the embedding:

* machine integers are `Nat`/`Int` with explicit wrap-around (`% 2^32`, `toInt32`, `toSizeT`);
* pointers into the graph's tables are indices into the corresponding lists, a null pointer is
  `none` (or address `0` for the untyped pointers of `HeapLocation`);
* a run that stops on an assertion, on an out-of-bounds access or in a loop that never ends
  yields `Except.error`.
-/

namespace JSC

/-! ## Machine integers -/

/-- Value of `UINT_MAX`, the "unassigned" sentinel of the allocation table. -/
def UINT_MAX : Nat := 4294967295

/-- Conversion to `int` (32 bits, two's complement). -/
def toInt32 (x : Int) : Int := (x + 2147483648) % 4294967296 - 2147483648

/-- Conversion to `size_t` (64 bits). -/
def toSizeT (x : Int) : Nat := (x % 18446744073709551616).toNat

/-! ## The assign loop of `StackLayoutPhase::run` (lines 121-130) -/

/-- The loop `for (unsigned i = 0; i < usedOperands.size(); ++i)` of `run`, started with
`m_graph.m_nextMachineLocal = next` on the remaining entries of the used-operands table.
It returns the remaining entries of `allocation` and the final `m_nextMachineLocal`:
an unused entry gets `UINT_MAX`, a used one gets `m_nextMachineLocal++` (an `unsigned`). -/
def allocateFrom : List Bool → Nat → List Nat × Nat
  | [], next => ([], next)
  | false :: rest, next =>
      let r := allocateFrom rest next
      (UINT_MAX :: r.1, r.2)
  | true :: rest, next =>
      let r := allocateFrom rest ((next + 1) % 4294967296)
      (next :: r.1, r.2)

/-- The table `allocation` built by `run` from the used-operands table, where
`calleeSaveSpace` is the value of
`CodeBlock::calleeSaveSpaceAsVirtualRegisters(RegisterAtOffsetList::dfgCalleeSaveRegisters())`
(a `size_t` stored into the `unsigned` counter). -/
def allocation (calleeSaveSpace : Nat) (usedOperands : List Bool) : List Nat :=
  (allocateFrom usedOperands (calleeSaveSpace % 4294967296)).1

/-- The value of `m_graph.m_nextMachineLocal` when the assign loop is over. -/
def nextMachineLocal (calleeSaveSpace : Nat) (usedOperands : List Bool) : Nat :=
  (allocateFrom usedOperands (calleeSaveSpace % 4294967296)).2

/-- Number of entries marked used among the first `i` entries of the table. -/
def usedBefore (usedOperands : List Bool) (i : Nat) : Nat :=
  (usedOperands.take i).count true

/-- Number of entries of the table that are marked used. -/
def usedCount (usedOperands : List Bool) : Nat :=
  usedOperands.count true

/-! ## Virtual registers, operands and the used-operands table -/

/-- Modelled from the spec: `VirtualRegister` (bytecode/VirtualRegister.h) is not embedded from
source. The spec fixes that locals and arguments are disjoint address spaces; the encoding is
JavaScriptCore's: a register is an `int` offset, the offsets below zero are the locals
(`localToOperand(k) = -1 - k`), the offsets from zero on are the arguments and header slots. -/
structure VirtualRegister where
  /-- Field `m_virtualRegister`, returned by `offset()`. -/
  offset : Int
  deriving DecidableEq, Repr

namespace VirtualRegister

/-- Default-constructed `VirtualRegister()`: the invalid register, "no machine location". -/
def invalid : VirtualRegister := ⟨1073741823⟩

/-- Method `isValid()`. -/
def isValid (r : VirtualRegister) : Bool := decide (r.offset ≠ 1073741823)

/-- Method `isLocal()`. -/
def isLocal (r : VirtualRegister) : Bool := decide (r.offset < 0)

/-- Method `isArgument()`. -/
def isArgument (r : VirtualRegister) : Bool := decide (0 ≤ r.offset)

/-- Method `toLocal()`: the local index of a local register. -/
def toLocal (r : VirtualRegister) : Int := -1 - r.offset

/-- Method `toArgument()`, with `CallFrame::thisArgumentOffset()` passed in. -/
def toArgument (thisArgumentOffset : Int) (r : VirtualRegister) : Int :=
  r.offset - thisArgumentOffset

end VirtualRegister

/-- Function `virtualRegisterForLocal(int)`; the argument is converted to `int` first. -/
def virtualRegisterForLocal (localIndex : Int) : VirtualRegister :=
  ⟨toInt32 (-1 - toInt32 localIndex)⟩

/-- Enumeration `OperandKind`. -/
inductive OperandKind
  | Argument
  | Local
  | Tmp
  deriving DecidableEq, Repr

/-- Modelled from the spec: `Operand` (bytecode/Operands.h) is not embedded from source: "an
abstract reference to either an argument slot or a local-variable slot", or to a temporary. It
is a kind and an `int` value, the register offset for the first two kinds and the index of the
temporary for the third. -/
structure Operand where
  /-- Field `m_kind`. -/
  kind : OperandKind
  /-- Field `m_operand`, returned by `value()`. -/
  value : Int
  deriving DecidableEq, Repr

namespace Operand

/-- Converting constructor `Operand(VirtualRegister)`. -/
def ofVirtualRegister (r : VirtualRegister) : Operand :=
  ⟨if r.isLocal then OperandKind.Local else OperandKind.Argument, r.offset⟩

/-- Operand of the local with the given index. -/
def ofLocal (localIndex : Int) : Operand :=
  ofVirtualRegister (virtualRegisterForLocal localIndex)

/-- Method `isTmp()`. -/
def isTmp (o : Operand) : Bool := decide (o.kind = OperandKind.Tmp)

/-- Method `isArgument()`. -/
def isArgument (o : Operand) : Bool := decide (o.kind = OperandKind.Argument)

/-- Method `virtualRegister()`. -/
def virtualRegister (o : Operand) : VirtualRegister := ⟨o.value⟩

/-- Method `isLocal()`. -/
def isLocal (o : Operand) : Bool :=
  decide (o.kind = OperandKind.Local) && o.virtualRegister.isLocal

/-- Method `toLocal()`. -/
def toLocal (o : Operand) : Int := o.virtualRegister.toLocal

end Operand

/-- Modelled from the spec: the "fixed, target-specific count" of callee-save slots and the
two call-frame constants `run` reads (interpreter/CallFrame.h); they are parameters of the
phase. -/
structure Target where
  /-- Value of
  `CodeBlock::calleeSaveSpaceAsVirtualRegisters(RegisterAtOffsetList::dfgCalleeSaveRegisters())`. -/
  calleeSaveSpace : Nat
  /-- Constant `CallFrameSlot::argumentCountIncludingThis`. -/
  argumentCountIncludingThis : Int
  /-- Value of `CallFrame::thisArgumentOffset()`. -/
  thisArgumentOffset : Int
  deriving DecidableEq, Repr

/-- Modelled from the spec: `Operands<bool>` (bytecode/Operands.h) is not embedded from source:
"a dense boolean table, one entry per possible local-variable operand (and per extra temporary
slot class)". Arguments come first, then locals, then temporaries. -/
structure Operands where
  /-- Field `m_numArguments`. -/
  numArguments : Nat
  /-- Field `m_numLocals`. -/
  numLocals : Nat
  /-- Field `m_values`. -/
  values : List Bool
  deriving DecidableEq, Repr

namespace Operands

/-- Constructor `Operands(numArguments, numLocals, numTmps, initialValue)`. -/
def create (numArguments numLocals numTmps : Nat) (initialValue : Bool) : Operands :=
  ⟨numArguments, numLocals, List.replicate (numArguments + numLocals + numTmps) initialValue⟩

/-- Method `size()`. -/
def size (ops : Operands) : Nat := ops.values.length

/-- Method `operandIndex(Operand)`: `tmpIndex(value)` for a temporary, `argumentIndex(toArgument)`
for an argument register, `localIndex(toLocal)` for a local one; the index is a `size_t`. -/
def operandIndex (t : Target) (ops : Operands) (o : Operand) : Nat :=
  if o.isTmp then ops.numArguments + ops.numLocals + toSizeT o.value
  else if o.virtualRegister.isArgument then toSizeT (o.virtualRegister.toArgument t.thisArgumentOffset)
  else ops.numArguments + toSizeT o.virtualRegister.toLocal

/-- Method `getForOperandIndex(i)`; reading past the end is reported as `none`. -/
def getForOperandIndex (ops : Operands) (i : Nat) : Option Bool := ops.values[i]?

end Operands

/-- Ways in which `run` stops without returning. -/
inductive Fault
  /-- An `ASSERT` of the source fails. -/
  | assertion
  /-- A `RELEASE_ASSERT` of the source fails. -/
  | releaseAssert
  /-- An access past the end of a vector or table. -/
  | outOfBounds
  /-- A union-find chain that never reaches a root. -/
  | endlessLoop
  deriving DecidableEq, Repr

/-- Method `Operands<bool>::setOperand(operand, true)`. -/
def Operands.setOperand (t : Target) (ops : Operands) (o : Operand) : Except Fault Operands :=
  if ops.operandIndex t o < ops.values.length then
    .ok { ops with values := ops.values.set (ops.operandIndex t o) true }
  else .error Fault.outOfBounds

/-! ## The graph -/

/-- Modelled from the spec: enumeration `FlushFormat` (dfg/DFGFlushFormat.h), the "required
value-format / flush representation" of a variable. -/
inductive FlushFormat
  | DeadFlush
  | FlushedInt32
  | FlushedInt52
  | FlushedDouble
  | FlushedCell
  | FlushedBoolean
  | FlushedJSValue
  | ConflictingFlush
  deriving DecidableEq, Repr

/-- Modelled from the spec: `ValueSource` (dfg/DFGValueSource.h) is not embedded from source:
either the explicit "value is dead" source or a "value source" made of a machine location and
its flush representation. -/
inductive ValueSource
  /-- The source `ValueSource(SourceIsDead)`. -/
  | sourceIsDead
  /-- The source `ValueSource::forFlushFormat(machineLocal, flushFormat)`. -/
  | forFlushFormat (machineLocal : VirtualRegister) (format : FlushFormat)
  deriving DecidableEq, Repr

/-- Modelled from the spec: `ValueRecovery` (bytecode/ValueRecovery.h) is not embedded from
source: a compile-time constant, or the recovery `source.valueRecovery()` of a value source. -/
inductive ValueRecovery
  /-- A compile-time constant. -/
  | constant (value : Nat)
  /-- The result of `source.valueRecovery()`. -/
  | ofSource (source : ValueSource)
  deriving DecidableEq, Repr

/-- Method `ValueRecovery::isConstant()`. -/
def ValueRecovery.isConstant : ValueRecovery → Bool
  | .constant _ => true
  | .ofSource _ => false

/-- Modelled from the spec: `VariableAccessData` (dfg/DFGVariableAccessData.h) is not embedded
from source: "one per source-level variable; carries a machine local field", "grouped into
union-find style equivalence classes". The parent pointer is an index into
`Graph::m_variableAccessData`; a root has none. -/
structure VariableAccessData where
  /-- Field `m_parent` of `UnionFind<VariableAccessData>`. -/
  m_parent : Option Nat
  /-- Field `m_operand`, returned by `operand()`. -/
  m_operand : Operand
  /-- Field `m_machineLocal`, returned by `machineLocal()`. -/
  m_machineLocal : VirtualRegister
  /-- Value of `flushFormat()`. -/
  flushFormat : FlushFormat
  deriving DecidableEq, Repr

/-- Method `isRoot()`. -/
def VariableAccessData.isRoot (v : VariableAccessData) : Bool := v.m_parent.isNone

/-- Modelled from the spec: the walk of `UnionFind::find()` (wtf/UnionFind.h) along the parent
pointers, at most `fuel` entries long; path compression only shortens later walks and is left
out. -/
def findFrom (vars : List VariableAccessData) : Nat → Nat → Option Nat
  | 0, _ => none
  | fuel + 1, i =>
    match vars[i]? with
    | none => none
    | some v =>
      match v.m_parent with
      | none => some i
      | some p => findFrom vars fuel p

/-- Method `find()` of the entry with index `i`: the index of its root. A chain without a cycle
visits each entry at most once, so the size of the table is enough fuel. -/
def find (vars : List VariableAccessData) (i : Nat) : Option Nat :=
  findFrom vars vars.length i

/-- Relation "the parent chain of entry `i` ends on the root `r` after `k` steps". -/
inductive Reaches (vars : List VariableAccessData) : Nat → Nat → Nat → Prop
  | root (i : Nat) (v : VariableAccessData) (hv : vars[i]? = some v) (hp : v.m_parent = none) :
      Reaches vars i i 0
  | step (i p r k : Nat) (v : VariableAccessData) (hv : vars[i]? = some v)
      (hp : v.m_parent = some p) (h : Reaches vars p r k) : Reaches vars i r (k + 1)

/-- The entry reached from `i` after `m` steps along the parent pointers (the last entry of the
chain when it is shorter). -/
def nodeAt (vars : List VariableAccessData) : Nat → Nat → Nat
  | 0, i => i
  | m + 1, i =>
    match vars[i]? with
    | none => i
    | some v =>
      match v.m_parent with
      | none => i
      | some p => nodeAt vars m p

/-- Modelled from the spec: record `StackAccessData` (dfg/DFGNode.h), an auxiliary record whose
operand is resolved with the same table. -/
structure StackAccessData where
  /-- Field `operand`. -/
  operand : Operand
  /-- Field `machineLocal`. -/
  machineLocal : VirtualRegister
  /-- Field `format`. -/
  format : FlushFormat
  deriving DecidableEq, Repr

/-- Modelled from the spec: record `LoadVarargsData` (dfg/DFGNode.h), the vararg count, start
and limit descriptors with their resolved machine locations. -/
structure LoadVarargsData where
  /-- Field `start`. -/
  start : VirtualRegister
  /-- Field `count`. -/
  count : VirtualRegister
  /-- Field `machineStart`. -/
  machineStart : VirtualRegister
  /-- Field `machineCount`. -/
  machineCount : VirtualRegister
  /-- Field `limit`, an `unsigned`. -/
  limit : Nat
  deriving DecidableEq, Repr

/-- Modelled from the spec: the node types (dfg/DFGNodeType.h) that `run` tells apart; `Other`
stands for every other `NodeType`. -/
inductive NodeType
  | GetLocal
  | SetLocal
  | Flush
  | PhantomLocal
  | LoadVarargs
  | ForwardVarargs
  | PutStack
  | GetStack
  | Other
  deriving DecidableEq, Repr

/-- Modelled from the spec: a node (dfg/DFGNode.h) is its `op()` and its `m_opInfo`, which
according to the op is read as a `VariableAccessData*`, a `LoadVarargsData*` or a
`StackAccessData*`: an index into the table of the graph that owns the record. -/
structure Node where
  /-- Value of `op()`. -/
  op : NodeType
  /-- Field `m_opInfo`. -/
  opInfo : Nat
  deriving DecidableEq, Repr

/-- Modelled from the spec: record `InlineCallFrame` (bytecode/InlineCallFrame.h), reduced to the
members `run` reads or writes. -/
structure InlineCallFrame where
  /-- Value of `isVarargs()`. -/
  isVarargs : Bool
  /-- Field `stackOffset`. -/
  stackOffset : Int
  /-- Field `m_argumentsWithFixup`. -/
  m_argumentsWithFixup : List ValueRecovery
  /-- Field `argumentCountRegister`. -/
  argumentCountRegister : VirtualRegister
  /-- Field `isClosureCall`. -/
  isClosureCall : Bool
  /-- Field `calleeRecovery`. -/
  calleeRecovery : ValueRecovery
  deriving DecidableEq, Repr

/-- Modelled from the spec: record `InlineVariableData` (dfg/DFGGraph.h); the frame and the
callee variable are indices into `inlineCallFrames` and `m_variableAccessData`. -/
structure InlineVariableData where
  /-- Field `inlineCallFrame`. -/
  inlineCallFrame : Nat
  /-- Field `argumentPositionStart`. -/
  argumentPositionStart : Nat
  /-- Field `calleeVariable`, `none` for a null pointer. -/
  calleeVariable : Option Nat
  deriving DecidableEq, Repr

/-- Modelled from the spec: record `ArgumentPosition` (dfg/DFGArgumentPosition.h): the first of
its variables, if it has any; `someVariable()` is the root of that variable. -/
structure ArgumentPosition where
  /-- First element of `m_variables`, `none` when the list is empty. -/
  firstVariable : Option Nat
  deriving DecidableEq, Repr

/-- Modelled from the spec: the part of `Graph` (dfg/DFGGraph.h), of its plan and of its code
block that `run` reads or writes. -/
structure Graph where
  /-- Field `m_localVars`. -/
  m_localVars : Nat
  /-- Field `m_tmps`. -/
  m_tmps : Nat
  /-- The blocks `block(0)`, ..., `block(numBlocks() - 1)`; `none` is a null block. -/
  blocks : List (Option (List Node))
  /-- Field `m_variableAccessData`. -/
  m_variableAccessData : List VariableAccessData
  /-- Field `m_stackAccessData`. -/
  m_stackAccessData : List StackAccessData
  /-- The `LoadVarargsData` records owned by the graph. -/
  m_loadVarargsData : List LoadVarargsData
  /-- The set `m_plan.inlineCallFrames()`. -/
  inlineCallFrames : List InlineCallFrame
  /-- Field `m_inlineVariableData`. -/
  m_inlineVariableData : List InlineVariableData
  /-- Field `m_argumentPositions`. -/
  m_argumentPositions : List ArgumentPosition
  /-- Field `m_nextMachineLocal`. -/
  m_nextMachineLocal : Nat
  /-- Value of `needsScopeRegister()`. -/
  needsScopeRegister : Bool
  /-- Value of `codeBlock()->scopeRegister()`. -/
  scopeRegister : VirtualRegister
  deriving DecidableEq, Repr

/-- Method `Node::variableAccessData()`: the root of the variable stored in `m_opInfo`. -/
def variableAccessData (vars : List VariableAccessData) (i : Nat) :
    Except Fault VariableAccessData :=
  match find vars i with
  | none => .error Fault.endlessLoop
  | some r =>
    match vars[r]? with
    | none => .error Fault.outOfBounds
    | some v => .ok v

/-! ## `StackLayoutPhase::run`, mark phase (lines 54-119) -/

/-- Two used-operands tables of the same shape: same number of arguments, locals and entries. -/
def Operands.SameShape (a b : Operands) : Prop :=
  b.numArguments = a.numArguments ∧ b.numLocals = a.numLocals
    ∧ b.values.length = a.values.length

/-- The loop `for (unsigned i = data->limit; i--;)` of the `LoadVarargs` case, with `i` entries
still to go: it marks `VirtualRegister(data->start.offset() + i)` for `i - 1`, ..., `0`. -/
def markVarargsRange (t : Target) (start : VirtualRegister) :
    Nat → Operands → Except Fault Operands
  | 0, used => .ok used
  | i + 1, used =>
    match used.setOperand t (Operand.ofVirtualRegister ⟨toInt32 (start.offset + i)⟩) with
    | .error e => .error e
    | .ok used1 => markVarargsRange t start i used1

/-- The `LoadVarargs`/`ForwardVarargs` case of the mark loop for one record. -/
def markLoadVarargs (t : Target) (data : LoadVarargsData) (used : Operands) :
    Except Fault Operands :=
  match used.setOperand t (Operand.ofVirtualRegister data.count) with
  | .error e => .error e
  | .ok used1 =>
    if data.start.isLocal then
      if (VirtualRegister.mk (toInt32 (data.start.offset + data.limit - 1))).isLocal then
        markVarargsRange t data.start data.limit used1
      else .error Fault.assertion
    else .ok used1

/-- Marking of a variable's or stack access's operand (lines 70-72 and 94-96): an argument is
skipped, any other operand is set in the table. -/
def markOperand (t : Target) (operand : Operand) (st : Operands × Bool) :
    Except Fault (Operands × Bool) :=
  if operand.isArgument then .ok st
  else
    match st.1.setOperand t operand with
    | .error e => .error e
    | .ok used => .ok (used, st.2)

/-- The `GetLocal`/`SetLocal`/`Flush`/`PhantomLocal` case of the mark loop (lines 65-74). -/
def markLocalAccess (t : Target) (g : Graph) (node : Node) (st : Operands × Bool) :
    Except Fault (Operands × Bool) :=
  match variableAccessData g.m_variableAccessData node.opInfo with
  | .error e => .error e
  | .ok root => markOperand t root.m_operand st

/-- The `LoadVarargs`/`ForwardVarargs` case of the mark loop (lines 76-89). -/
def markVarargsNode (t : Target) (g : Graph) (node : Node) (st : Operands × Bool) :
    Except Fault (Operands × Bool) :=
  match g.m_loadVarargsData[node.opInfo]? with
  | none => .error Fault.outOfBounds
  | some data =>
    match markLoadVarargs t data st.1 with
    | .error e => .error e
    | .ok used => .ok (used, true)

/-- The `PutStack`/`GetStack` case of the mark loop (lines 91-98). -/
def markStackAccess (t : Target) (g : Graph) (node : Node) (st : Operands × Bool) :
    Except Fault (Operands × Bool) :=
  match g.m_stackAccessData[node.opInfo]? with
  | none => .error Fault.outOfBounds
  | some stack => markOperand t stack.operand st

/-- Body of the inner loop of the mark phase: one node; the state is the used-operands table
and the flag `hasNodesThatNeedFixup`. -/
def markNode (t : Target) (g : Graph) (node : Node) (st : Operands × Bool) :
    Except Fault (Operands × Bool) :=
  match node.op with
  | .GetLocal | .SetLocal | .Flush | .PhantomLocal => markLocalAccess t g node st
  | .LoadVarargs | .ForwardVarargs => markVarargsNode t g node st
  | .PutStack | .GetStack => markStackAccess t g node st
  | .Other => .ok st

/-- The loop `for (unsigned nodeIndex = block->size(); nodeIndex--;)`: last node first. -/
def markNodes (t : Target) (g : Graph) : List Node → Operands × Bool →
    Except Fault (Operands × Bool)
  | [], st => .ok st
  | node :: rest, st =>
    match markNodes t g rest st with
    | .error e => .error e
    | .ok st1 => markNode t g node st1

/-- The loop `for (BlockIndex blockIndex = m_graph.numBlocks(); blockIndex--;)`: last block
first, null blocks skipped. -/
def markBlocks (t : Target) (g : Graph) : List (Option (List Node)) → Operands × Bool →
    Except Fault (Operands × Bool)
  | [], st => .ok st
  | block :: rest, st =>
    match markBlocks t g rest st with
    | .error e => .error e
    | .ok st1 =>
      match block with
      | none => .ok st1
      | some nodes => markNodes t g nodes st1

/-- The loop `for (unsigned argument = m_argumentsWithFixup.size(); argument--;)` of the mark
phase, with `argument` positions still to go. -/
def markFrameArguments (t : Target) (stackOffset : Int) : Nat → Operands → Except Fault Operands
  | 0, used => .ok used
  | argument + 1, used =>
    match used.setOperand t (Operand.ofVirtualRegister
        ⟨toInt32 (toInt32 (argument + t.thisArgumentOffset) + stackOffset)⟩) with
    | .error e => .error e
    | .ok used1 => markFrameArguments t stackOffset argument used1

/-- Body of the loop over `m_plan.inlineCallFrames()` in the mark phase. -/
def markInlineCallFrame (t : Target) (frame : InlineCallFrame) (used : Operands) :
    Except Fault Operands :=
  match (if frame.isVarargs then
      used.setOperand t (Operand.ofVirtualRegister
        ⟨toInt32 (t.argumentCountIncludingThis + frame.stackOffset)⟩)
    else .ok used) with
  | .error e => .error e
  | .ok used1 => markFrameArguments t frame.stackOffset frame.m_argumentsWithFixup.length used1

/-- The loop over `m_plan.inlineCallFrames()` in the mark phase. -/
def markInlineCallFrames (t : Target) : List InlineCallFrame → Operands → Except Fault Operands
  | [], used => .ok used
  | frame :: rest, used =>
    match markInlineCallFrame t frame used with
    | .error e => .error e
    | .ok used1 => markInlineCallFrames t rest used1

/-- The mark phase: the table `usedOperands` and the flag `hasNodesThatNeedFixup` once all
blocks and all inline call frames have been visited. -/
def markPhase (t : Target) (g : Graph) : Except Fault (Operands × Bool) :=
  match markBlocks t g g.blocks (Operands.create 0 g.m_localVars g.m_tmps false, false) with
  | .error e => .error e
  | .ok st =>
    match markInlineCallFrames t g.inlineCallFrames st.1 with
    | .error e => .error e
    | .ok used => .ok (used, st.2)

/-! ## `StackLayoutPhase::assign` and the resolve phase (lines 132-204, 234-244) -/

/-- Method `StackLayoutPhase::assign(usedOperands, allocation, operand)`. -/
def assign (t : Target) (usedOperands : Operands) (alloc : List Nat) (operand : Operand) :
    Except Fault VirtualRegister :=
  if operand.isArgument then .ok operand.virtualRegister
  else
    match alloc[usedOperands.operandIndex t operand]? with
    | none => .error Fault.outOfBounds
    | some myAllocation =>
      if myAllocation = UINT_MAX then .ok VirtualRegister.invalid
      else .ok (virtualRegisterForLocal myAllocation)

/-- Body of the loop over `m_graph.m_variableAccessData` (lines 133-150) for one entry. -/
def resolveVariable (t : Target) (usedOperands : Operands) (alloc : List Nat)
    (v : VariableAccessData) : Except Fault VariableAccessData :=
  if !v.isRoot then .ok v
  else if v.m_operand.isArgument then
    .ok { v with m_machineLocal := v.m_operand.virtualRegister }
  else if alloc.length ≤ usedOperands.operandIndex t v.m_operand then .ok v
  else
    match alloc[usedOperands.operandIndex t v.m_operand]? with
    | none => .error Fault.outOfBounds
    | some a =>
      if a = UINT_MAX then .ok v
      else
        match assign t usedOperands alloc v.m_operand with
        | .error e => .error e
        | .ok r => .ok { v with m_machineLocal := r }

/-- What one iteration of the loop over `m_variableAccessData` leaves in its entry: the closed
form of `resolveVariable`, which never stops on a fault (`resolveVariable_eq`). -/
def resolvedVariable (t : Target) (usedOperands : Operands) (alloc : List Nat)
    (v : VariableAccessData) : VariableAccessData :=
  if v.isRoot = false then v
  else if v.m_operand.isArgument then { v with m_machineLocal := v.m_operand.virtualRegister }
  else
    match alloc[usedOperands.operandIndex t v.m_operand]? with
    | none => v
    | some a =>
      if a = UINT_MAX then v else { v with m_machineLocal := virtualRegisterForLocal a }

/-- The loop `for (unsigned i = m_graph.m_variableAccessData.size(); i--;)`: last entry first;
an iteration reads and writes its own entry only. -/
def resolveVariables (t : Target) (usedOperands : Operands) (alloc : List Nat) :
    List VariableAccessData → Except Fault (List VariableAccessData)
  | [] => .ok []
  | v :: rest =>
    match resolveVariables t usedOperands alloc rest with
    | .error e => .error e
    | .ok rest1 =>
      match resolveVariable t usedOperands alloc v with
      | .error e => .error e
      | .ok v1 => .ok (v1 :: rest1)

/-- Body of the loop over `m_graph.m_stackAccessData` (lines 154-166) for one record. -/
def resolveStackAccess (t : Target) (usedOperands : Operands) (alloc : List Nat)
    (data : StackAccessData) : Except Fault StackAccessData :=
  if data.operand.isArgument then
    .ok { data with machineLocal := data.operand.virtualRegister }
  else if data.operand.isLocal && decide (alloc.length ≤ toSizeT data.operand.toLocal) then
    .ok data
  else if data.operand.isLocal && decide (alloc[toSizeT data.operand.toLocal]? = some UINT_MAX) then
    .ok data
  else
    match assign t usedOperands alloc data.operand with
    | .error e => .error e
    | .ok r => .ok { data with machineLocal := r }

/-- The loop `for (StackAccessData* data : m_graph.m_stackAccessData)`. -/
def resolveStackAccesses (t : Target) (usedOperands : Operands) (alloc : List Nat) :
    List StackAccessData → Except Fault (List StackAccessData)
  | [] => .ok []
  | data :: rest =>
    match resolveStackAccess t usedOperands alloc data with
    | .error e => .error e
    | .ok data1 =>
      match resolveStackAccesses t usedOperands alloc rest with
      | .error e => .error e
      | .ok rest1 => .ok (data1 :: rest1)

/-- Lines 169-172: the new scope register of the code block. -/
def resolveScopeRegister (t : Target) (usedOperands : Operands) (alloc : List Nat) (g : Graph) :
    Except Fault VirtualRegister :=
  if !g.needsScopeRegister then .ok VirtualRegister.invalid
  else assign t usedOperands alloc (Operand.ofVirtualRegister g.scopeRegister)

/-- Lines 182-192: the value recovery stored for the argument position with the given index of
`m_graph.m_argumentPositions`. -/
def argumentRecovery (vars : List VariableAccessData) (positions : List ArgumentPosition)
    (index : Nat) : Except Fault ValueRecovery :=
  match positions[index]? with
  | none => .error Fault.outOfBounds
  | some position =>
    match position.firstVariable with
    | none => .ok (ValueRecovery.ofSource ValueSource.sourceIsDead)
    | some first =>
      match variableAccessData vars first with
      | .error e => .error e
      | .ok root =>
        .ok (ValueRecovery.ofSource (ValueSource.forFlushFormat root.m_machineLocal root.flushFormat))

/-- The loop `for (unsigned argument = m_argumentsWithFixup.size(); argument--;)` of the resolve
phase, with `argument` positions still to go. -/
def resolveFrameArguments (vars : List VariableAccessData) (positions : List ArgumentPosition)
    (argumentPositionStart : Nat) : Nat → List ValueRecovery → Except Fault (List ValueRecovery)
  | 0, recoveries => .ok recoveries
  | argument + 1, recoveries =>
    match argumentRecovery vars positions ((argumentPositionStart + argument) % 4294967296) with
    | .error e => .error e
    | .ok r =>
      resolveFrameArguments vars positions argumentPositionStart argument
        (recoveries.set argument r)

/-- Lines 195-203: the callee recovery of a frame. -/
def resolveCallee (vars : List VariableAccessData) (data : InlineVariableData)
    (frame : InlineCallFrame) : Except Fault ValueRecovery :=
  if frame.isClosureCall ≠ data.calleeVariable.isSome then .error Fault.releaseAssert
  else if frame.isClosureCall then
    match data.calleeVariable with
    | none => .error Fault.outOfBounds
    | some callee =>
      match variableAccessData vars callee with
      | .error e => .error e
      | .ok root =>
        .ok (ValueRecovery.ofSource (ValueSource.forFlushFormat root.m_machineLocal root.flushFormat))
  else if frame.calleeRecovery.isConstant then .ok frame.calleeRecovery
  else .error Fault.releaseAssert

/-- Body of the loop over `m_graph.m_inlineVariableData` (lines 175-203): the frame the record
points to, rewritten. -/
def resolveInlineCallFrame (t : Target) (usedOperands : Operands) (alloc : List Nat)
    (vars : List VariableAccessData) (positions : List ArgumentPosition)
    (data : InlineVariableData) (frame : InlineCallFrame) : Except Fault InlineCallFrame :=
  match (if frame.isVarargs then
      assign t usedOperands alloc (Operand.ofVirtualRegister
        ⟨toInt32 (frame.stackOffset + t.argumentCountIncludingThis)⟩)
    else .ok frame.argumentCountRegister) with
  | .error e => .error e
  | .ok countRegister =>
    match resolveFrameArguments vars positions data.argumentPositionStart
        frame.m_argumentsWithFixup.length frame.m_argumentsWithFixup with
    | .error e => .error e
    | .ok recoveries =>
      match resolveCallee vars data frame with
      | .error e => .error e
      | .ok callee =>
        .ok { frame with
              argumentCountRegister := countRegister
              m_argumentsWithFixup := recoveries
              calleeRecovery := callee }

/-- The loop `for (unsigned i = m_graph.m_inlineVariableData.size(); i--;)`: last record
first; the state is the list of inline call frames. -/
def resolveInlineVariableData (t : Target) (usedOperands : Operands) (alloc : List Nat)
    (vars : List VariableAccessData) (positions : List ArgumentPosition) :
    List InlineVariableData → List InlineCallFrame → Except Fault (List InlineCallFrame)
  | [], frames => .ok frames
  | data :: rest, frames =>
    match resolveInlineVariableData t usedOperands alloc vars positions rest frames with
    | .error e => .error e
    | .ok frames1 =>
      match frames1[data.inlineCallFrame]? with
      | none => .error Fault.outOfBounds
      | some frame =>
        match resolveInlineCallFrame t usedOperands alloc vars positions data frame with
        | .error e => .error e
        | .ok frame1 => .ok (frames1.set data.inlineCallFrame frame1)

/-! ## `StackLayoutPhase::run`, fix-up of the varargs nodes (lines 206-228) -/

/-- Lines 217-219 for one record. -/
def fixupLoadVarargs (t : Target) (usedOperands : Operands) (alloc : List Nat)
    (data : LoadVarargsData) : Except Fault LoadVarargsData :=
  match assign t usedOperands alloc (Operand.ofVirtualRegister data.count) with
  | .error e => .error e
  | .ok machineCount =>
    match assign t usedOperands alloc (Operand.ofVirtualRegister data.start) with
    | .error e => .error e
    | .ok machineStart =>
      .ok { data with machineCount := machineCount, machineStart := machineStart }

/-- Body of the inner loop of the fix-up: one node; the state is the table of records. -/
def fixupNode (t : Target) (usedOperands : Operands) (alloc : List Nat) (node : Node)
    (table : List LoadVarargsData) : Except Fault (List LoadVarargsData) :=
  match node.op with
  | .LoadVarargs | .ForwardVarargs =>
    match table[node.opInfo]? with
    | none => .error Fault.outOfBounds
    | some data =>
      match fixupLoadVarargs t usedOperands alloc data with
      | .error e => .error e
      | .ok data1 => .ok (table.set node.opInfo data1)
  | _ => .ok table

/-- The loop over the nodes of a block in the fix-up: last node first. -/
def fixupNodes (t : Target) (usedOperands : Operands) (alloc : List Nat) :
    List Node → List LoadVarargsData → Except Fault (List LoadVarargsData)
  | [], table => .ok table
  | node :: rest, table =>
    match fixupNodes t usedOperands alloc rest table with
    | .error e => .error e
    | .ok table1 => fixupNode t usedOperands alloc node table1

/-- The loop over the blocks in the fix-up: last block first, null blocks skipped. -/
def fixupBlocks (t : Target) (usedOperands : Operands) (alloc : List Nat) :
    List (Option (List Node)) → List LoadVarargsData → Except Fault (List LoadVarargsData)
  | [], table => .ok table
  | block :: rest, table =>
    match fixupBlocks t usedOperands alloc rest table with
    | .error e => .error e
    | .ok table1 =>
      match block with
      | none => .ok table1
      | some nodes => fixupNodes t usedOperands alloc nodes table1

/-- Lines 207-228: the fix-up runs only when `hasNodesThatNeedFixup` is set. -/
def fixupVarargs (t : Target) (usedOperands : Operands) (alloc : List Nat) (g : Graph)
    (hasNodesThatNeedFixup : Bool) : Except Fault (List LoadVarargsData) :=
  if hasNodesThatNeedFixup then fixupBlocks t usedOperands alloc g.blocks g.m_loadVarargsData
  else .ok g.m_loadVarargsData

/-! ## `StackLayoutPhase::run` -/

/-- Everything `run` does after the mark phase, given the table `usedOperands` and the flag
`hasNodesThatNeedFixup` the mark phase produced. -/
def layOut (t : Target) (g : Graph) (usedOperands : Operands) (hasNodesThatNeedFixup : Bool) :
    Except Fault Graph :=
  match resolveVariables t usedOperands (allocation t.calleeSaveSpace usedOperands.values)
      g.m_variableAccessData with
  | .error e => .error e
  | .ok vars =>
    match resolveStackAccesses t usedOperands (allocation t.calleeSaveSpace usedOperands.values)
        g.m_stackAccessData with
    | .error e => .error e
    | .ok stack =>
      match resolveScopeRegister t usedOperands
          (allocation t.calleeSaveSpace usedOperands.values) g with
      | .error e => .error e
      | .ok scope =>
        match resolveInlineVariableData t usedOperands
            (allocation t.calleeSaveSpace usedOperands.values) vars g.m_argumentPositions
            g.m_inlineVariableData g.inlineCallFrames with
        | .error e => .error e
        | .ok frames =>
          match fixupVarargs t usedOperands (allocation t.calleeSaveSpace usedOperands.values) g
              hasNodesThatNeedFixup with
          | .error e => .error e
          | .ok varargs =>
            .ok { g with
                  m_variableAccessData := vars
                  m_stackAccessData := stack
                  scopeRegister := scope
                  inlineCallFrames := frames
                  m_loadVarargsData := varargs
                  m_nextMachineLocal := nextMachineLocal t.calleeSaveSpace usedOperands.values }

/-- Method `StackLayoutPhase::run()`: the graph it leaves behind, or the fault it stops on. -/
def run (t : Target) (g : Graph) : Except Fault Graph :=
  match markPhase t g with
  | .error e => .error e
  | .ok marked => layOut t g marked.1 marked.2

/-- The machine location a variable-access entry resolves to: the `machineLocal()` of its
union-find root (`variable->find()->machineLocal()`), `none` when the chain has no root. -/
def resolvedLocation (vars : List VariableAccessData) (i : Nat) : Option VirtualRegister :=
  match find vars i with
  | none => none
  | some r => (vars[r]?).map VariableAccessData.m_machineLocal

/-! ## A small graph -/

/-- A target without callee-save slots, with the call-frame header of a 64-bit target. -/
def exampleTarget : Target :=
  { calleeSaveSpace := 0, argumentCountIncludingThis := 4, thisArgumentOffset := 5 }

/-- A graph with eight locals in which the nodes reach the locals 1, 3, 4, 5 and 7: local 1
through a `GetLocal` on a variable unified with the root variable 0, local 3 through a
`SetLocal`, local 4 through a `PutStack`, local 5 as the count and local 7 as the one-slot
range of a `LoadVarargs`. Variable 3 is an argument, variable 4 is a local no node reaches. -/
def exampleGraph : Graph :=
  { m_localVars := 8
    m_tmps := 0
    blocks :=
      [some [⟨NodeType.GetLocal, 1⟩, ⟨NodeType.SetLocal, 2⟩, ⟨NodeType.Other, 0⟩],
       none,
       some [⟨NodeType.PutStack, 0⟩, ⟨NodeType.LoadVarargs, 0⟩]]
    m_variableAccessData :=
      [⟨none, Operand.ofLocal 1, VirtualRegister.invalid, FlushFormat.FlushedJSValue⟩,
       ⟨some 0, Operand.ofLocal 1, VirtualRegister.invalid, FlushFormat.FlushedJSValue⟩,
       ⟨none, Operand.ofLocal 3, VirtualRegister.invalid, FlushFormat.FlushedInt32⟩,
       ⟨none, Operand.ofVirtualRegister ⟨6⟩, VirtualRegister.invalid, FlushFormat.FlushedCell⟩,
       ⟨none, Operand.ofLocal 6, VirtualRegister.invalid, FlushFormat.DeadFlush⟩]
    m_stackAccessData := [⟨Operand.ofLocal 4, VirtualRegister.invalid, FlushFormat.FlushedJSValue⟩]
    m_loadVarargsData :=
      [⟨virtualRegisterForLocal 7, virtualRegisterForLocal 5, VirtualRegister.invalid,
        VirtualRegister.invalid, 1⟩]
    inlineCallFrames := []
    m_inlineVariableData := []
    m_argumentPositions := []
    m_nextMachineLocal := 0
    needsScopeRegister := false
    scopeRegister := VirtualRegister.invalid }

/-- The used-operands table the mark phase builds for `exampleGraph`. -/
def exampleUsedOperands : Operands :=
  ⟨0, 8, [false, true, false, true, true, true, false, true]⟩

/-- The graph `run` leaves behind for `exampleGraph`. -/
def exampleResult : Graph :=
  { exampleGraph with
    m_variableAccessData :=
      [⟨none, Operand.ofLocal 1, virtualRegisterForLocal 0, FlushFormat.FlushedJSValue⟩,
       ⟨some 0, Operand.ofLocal 1, VirtualRegister.invalid, FlushFormat.FlushedJSValue⟩,
       ⟨none, Operand.ofLocal 3, virtualRegisterForLocal 1, FlushFormat.FlushedInt32⟩,
       ⟨none, Operand.ofVirtualRegister ⟨6⟩, ⟨6⟩, FlushFormat.FlushedCell⟩,
       ⟨none, Operand.ofLocal 6, VirtualRegister.invalid, FlushFormat.DeadFlush⟩]
    m_stackAccessData := [⟨Operand.ofLocal 4, virtualRegisterForLocal 2, FlushFormat.FlushedJSValue⟩]
    m_loadVarargsData :=
      [⟨virtualRegisterForLocal 7, virtualRegisterForLocal 5, virtualRegisterForLocal 4,
        virtualRegisterForLocal 3, 1⟩]
    m_nextMachineLocal := 5 }

/-- A graph with eight locals whose only node is a `LoadVarargs` with start local 5, limit 3
and count local 0; no other instruction mentions a local. -/
def varargsGraph : Graph :=
  { m_localVars := 8
    m_tmps := 0
    blocks := [some [⟨NodeType.LoadVarargs, 0⟩]]
    m_variableAccessData := []
    m_stackAccessData := []
    m_loadVarargsData :=
      [⟨virtualRegisterForLocal 5, virtualRegisterForLocal 0, VirtualRegister.invalid,
        VirtualRegister.invalid, 3⟩]
    inlineCallFrames := []
    m_inlineVariableData := []
    m_argumentPositions := []
    m_nextMachineLocal := 0
    needsScopeRegister := false
    scopeRegister := VirtualRegister.invalid }

namespace DFG

/-! ## `HeapLocation` (dfg/DFGHeapLocation.h) -/

/-- Enumeration `LocationKind`, in the order of the source. -/
inductive LocationKind
  | InvalidLocationKind
  | ArrayLengthLoc
  | ArrayMaskLoc
  | VectorLengthLoc
  | ButterflyLoc
  | CheckTypeInfoFlagsLoc
  | OverridesHasInstanceLoc
  | ClosureVariableLoc
  | DirectArgumentsLoc
  | GetterLoc
  | GlobalVariableLoc
  | EnumeratorNextUpdateIndexAndModeLoc
  | HasIndexedPropertyLoc
  | IndexedPropertyDoubleLoc
  | IndexedPropertyDoubleSaneChainLoc
  | IndexedPropertyDoubleOutOfBoundsSaneChainLoc
  | IndexedPropertyDoubleOrOtherOutOfBoundsSaneChainLoc
  | IndexedPropertyInt32Loc
  | IndexedPropertyInt32OutOfBoundsSaneChainLoc
  | IndexedPropertyInt52Loc
  | IndexedPropertyInt52OutOfBoundsSaneChainLoc
  | IndexedPropertyJSLoc
  | IndexedPropertyJSOutOfBoundsSaneChainLoc
  | IndexedPropertyStorageLoc
  | InvalidationPointLoc
  | IsCallableLoc
  | IsConstructorLoc
  | TypeOfIsObjectLoc
  | TypeOfIsFunctionLoc
  | NamedPropertyLoc
  | RegExpObjectLastIndexLoc
  | SetterLoc
  | StructureLoc
  | TypedArrayByteOffsetLoc
  | TypedArrayByteOffsetInt52Loc
  | TypedArrayLengthInt52Loc
  | PrototypeLoc
  | StackLoc
  | StackPayloadLoc
  | GlobalProxyTargetLoc
  | DateFieldLoc
  | MapBucketLoc
  | MapBucketHeadLoc
  | MapBucketValueLoc
  | MapBucketKeyLoc
  | MapBucketNextLoc
  | MapIteratorNextLoc
  | MapIteratorKeyLoc
  | MapIteratorValueLoc
  | MapStorageLoc
  | MapIterationNextLoc
  | MapIterationEntryLoc
  | MapIterationEntryKeyLoc
  | MapIterationEntryValueLoc
  | MapEntryKeyLoc
  | MapEntryValueLoc
  | LoadMapValueLoc
  | WeakMapGetLoc
  | InternalFieldObjectLoc
  | DOMStateLoc
  deriving DecidableEq, Repr

/-- Modelled from the spec: `AbstractHeap` (dfg/DFGAbstractHeap.h) is not embedded from source:
"a coarse alias-analysis partition", with an empty heap and a deleted marker that "must be
distinguishable from any valid key and from a zero-initialized key". As in JavaScriptCore a
heap is a kind (`0` is `InvalidAbstractHeap`) and a payload that is either top or a value;
`AbstractHeap()` is the invalid kind with the empty payload, the deleted marker is the invalid
kind with the top payload, and `operator!` holds for the invalid kind with a payload that is
not top. -/
structure AbstractHeap where
  /-- Value of `kind()`, `0` for `InvalidAbstractHeap`. -/
  kind : Nat
  /-- Whether the payload is `Payload::top()`. -/
  payloadIsTop : Bool
  /-- Value of the payload. -/
  payloadValue : Int
  deriving DecidableEq, Repr

namespace AbstractHeap

/-- Default-constructed `AbstractHeap()`. -/
def empty : AbstractHeap := ⟨0, false, 0⟩

/-- Marker `AbstractHeap(WTF::HashTableDeletedValue)`. -/
def deleted : AbstractHeap := ⟨0, true, 0⟩

/-- Operator `!heap`. -/
def isEmpty (h : AbstractHeap) : Bool := decide (h.kind = 0) && !h.payloadIsTop

/-- Method `isHashTableDeletedValue()`. -/
def isHashTableDeletedValue (h : AbstractHeap) : Bool := decide (h.kind = 0) && h.payloadIsTop

end AbstractHeap

/-- Modelled from the spec: the operations of `LazyNode` (dfg/DFGLazyNode.h) that `HeapLocation`
uses, over a type `L` of lazy nodes, and `AbstractHeap::hash()`; they are parameters of the
key type. -/
structure External (L : Type) where
  /-- Both `LazyNode()` and `LazyNode(nullptr)`. -/
  nullLazyNode : L
  /-- Constructor `LazyNode(Node*)`. -/
  lazyNodeOfNode : Nat → L
  /-- Operator `!index`. -/
  lazyNodeIsNull : L → Bool
  /-- Operator `==` of `LazyNode`. -/
  lazyNodeEq : L → L → Bool
  /-- Method `LazyNode::hash()`, an `unsigned`. -/
  lazyNodeHash : L → Nat
  /-- Method `AbstractHeap::hash()`, an `unsigned`. -/
  heapHash : AbstractHeap → Nat

/-- Class `HeapLocation`; the pointers `m_base`, `m_descriptor` and `m_extraState` are
addresses, `0` for `nullptr`. -/
structure HeapLocation (L : Type) where
  /-- Field `m_kind`. -/
  m_kind : LocationKind
  /-- Field `m_heap`. -/
  m_heap : AbstractHeap
  /-- Field `m_base`. -/
  m_base : Nat
  /-- Field `m_index`. -/
  m_index : L
  /-- Field `m_descriptor`. -/
  m_descriptor : Nat
  /-- Field `m_extraState`. -/
  m_extraState : Nat
  deriving DecidableEq, Repr

namespace HeapLocation

variable {L : Type}

/-- The three `ASSERT`s of the main constructor (lines 116-118). -/
def assertionsPass (x : External L) (kind : LocationKind) (heap : AbstractHeap) (base : Nat)
    (index : L) (descriptor extraState : Nat) : Bool :=
  (decide (kind = LocationKind.InvalidLocationKind) == heap.isEmpty)
    && (!heap.isEmpty || decide (base = 0))
    && (decide (base ≠ 0)
        || (x.lazyNodeIsNull index && decide (descriptor = 0) && decide (extraState = 0)))

/-- The main constructor (lines 102-119): the key, or `none` when an `ASSERT` fails. -/
def create (x : External L) (kind : LocationKind) (heap : AbstractHeap) (base : Nat)
    (index : L) (descriptor extraState : Nat) : Option (HeapLocation L) :=
  if assertionsPass x kind heap base index descriptor extraState then
    some ⟨kind, heap, base, index, descriptor, extraState⟩
  else none

/-- The main constructor with every argument defaulted: `HeapLocation()`. -/
def createDefault (x : External L) : Option (HeapLocation L) :=
  create x LocationKind.InvalidLocationKind AbstractHeap.empty 0 x.nullLazyNode 0 0

/-- Constructor `HeapLocation(WTF::HashTableDeletedValueType)` (lines 136-143). -/
def deletedValue (x : External L) : HeapLocation L :=
  ⟨LocationKind.InvalidLocationKind, AbstractHeap.deleted, 0, x.nullLazyNode, 0, 0⟩

/-- Operator `!location` (line 145). -/
def isEmpty (a : HeapLocation L) : Bool := a.m_heap.isEmpty

/-- Method `kind()`. -/
def kind (a : HeapLocation L) : LocationKind := a.m_kind

/-- Method `heap()`. -/
def heap (a : HeapLocation L) : AbstractHeap := a.m_heap

/-- Method `hash()` (lines 153-161): a sum of `unsigned` values. -/
def hash (x : External L) (a : HeapLocation L) : Nat :=
  (a.m_kind.toCtorIdx + x.heapHash a.m_heap + x.lazyNodeHash a.m_index
    + a.m_base % 4294967296 + a.m_descriptor % 4294967296 + a.m_extraState % 4294967296)
    % 4294967296

/-- The defaulted `operator==` (line 163): member by member, each with its own `==`. -/
def equal (x : External L) (a b : HeapLocation L) : Bool :=
  decide (a.m_kind = b.m_kind) && decide (a.m_heap = b.m_heap) && decide (a.m_base = b.m_base)
    && x.lazyNodeEq a.m_index b.m_index && decide (a.m_descriptor = b.m_descriptor)
    && decide (a.m_extraState = b.m_extraState)

/-- Method `isHashTableDeletedValue()` (lines 165-168). -/
def isHashTableDeletedValue (a : HeapLocation L) : Bool := a.m_heap.isHashTableDeletedValue

end HeapLocation

/-- Function `HeapLocationHash::hash`. -/
def HeapLocationHash.hash {L : Type} (x : External L) (key : HeapLocation L) : Nat :=
  HeapLocation.hash x key

/-- Function `HeapLocationHash::equal`. -/
def HeapLocationHash.equal {L : Type} (x : External L) (a b : HeapLocation L) : Bool :=
  HeapLocation.equal x a b

/-- A plain instance of the external operations: a lazy node is the address of its node, equal
when the addresses are, hashed to its low 32 bits; a heap is hashed from its three parts. -/
def External.plain : External Nat where
  nullLazyNode := 0
  lazyNodeOfNode := fun node => node
  lazyNodeIsNull := fun index => decide (index = 0)
  lazyNodeEq := fun a b => decide (a = b)
  lazyNodeHash := fun index => index % 4294967296
  heapHash := fun h => (h.kind + (if h.payloadIsTop then 1 else 0) + h.payloadValue.toNat) % 4294967296

end DFG

/-! ## More small graphs -/

/-- A graph with eight locals and no block whose root variable 0 names local 9 and whose
stack-access record 0 names local 12: both operand indices lie past the end of the table. -/
def outOfRangeGraph : Graph :=
  { m_localVars := 8
    m_tmps := 0
    blocks := []
    m_variableAccessData :=
      [⟨none, Operand.ofLocal 9, VirtualRegister.invalid, FlushFormat.FlushedJSValue⟩]
    m_stackAccessData := [⟨Operand.ofLocal 12, VirtualRegister.invalid, FlushFormat.FlushedJSValue⟩]
    m_loadVarargsData := []
    inlineCallFrames := []
    m_inlineVariableData := []
    m_argumentPositions := []
    m_nextMachineLocal := 0
    needsScopeRegister := false
    scopeRegister := VirtualRegister.invalid }

/-- A graph with eight locals and one inlined varargs closure call whose frame sits at stack
offset -10 and has two arguments with fixup. Argument position 0 holds variable 1, which is
unified with the root variable 2 (local 4); argument position 1 has no variable. The callee is
the root variable 0 (local 2), which a `GetLocal` reads and which is the scope register. -/
def inlineGraph : Graph :=
  { m_localVars := 8
    m_tmps := 0
    blocks := [some [⟨NodeType.GetLocal, 0⟩]]
    m_variableAccessData :=
      [⟨none, Operand.ofLocal 2, VirtualRegister.invalid, FlushFormat.FlushedCell⟩,
       ⟨some 2, Operand.ofLocal 4, VirtualRegister.invalid, FlushFormat.FlushedInt32⟩,
       ⟨none, Operand.ofLocal 4, VirtualRegister.invalid, FlushFormat.FlushedInt32⟩]
    m_stackAccessData := []
    m_loadVarargsData := []
    inlineCallFrames :=
      [⟨true, -10, [ValueRecovery.constant 0, ValueRecovery.constant 0], VirtualRegister.invalid,
        true, ValueRecovery.constant 0⟩]
    m_inlineVariableData := [⟨0, 0, some 0⟩]
    m_argumentPositions := [⟨some 1⟩, ⟨none⟩]
    m_nextMachineLocal := 0
    needsScopeRegister := true
    scopeRegister := virtualRegisterForLocal 2 }

/-- The used-operands table the mark phase builds for `inlineGraph`: the callee (local 2), the
two arguments with fixup (locals 4 and 3) and the argument count (local 5) of the frame. -/
def inlineUsedOperands : Operands :=
  ⟨0, 8, [false, false, true, true, true, true, false, false]⟩

/-- The graph `run` leaves behind for `inlineGraph`. -/
def inlineResult : Graph :=
  { inlineGraph with
    m_variableAccessData :=
      [⟨none, Operand.ofLocal 2, virtualRegisterForLocal 0, FlushFormat.FlushedCell⟩,
       ⟨some 2, Operand.ofLocal 4, VirtualRegister.invalid, FlushFormat.FlushedInt32⟩,
       ⟨none, Operand.ofLocal 4, virtualRegisterForLocal 2, FlushFormat.FlushedInt32⟩]
    inlineCallFrames :=
      [⟨true, -10,
        [ValueRecovery.ofSource
            (ValueSource.forFlushFormat (virtualRegisterForLocal 2) FlushFormat.FlushedInt32),
          ValueRecovery.ofSource ValueSource.sourceIsDead],
        virtualRegisterForLocal 3, true,
        ValueRecovery.ofSource
          (ValueSource.forFlushFormat (virtualRegisterForLocal 0) FlushFormat.FlushedCell)⟩]
    scopeRegister := virtualRegisterForLocal 0
    m_nextMachineLocal := 4 }

/-- The blocks of `exampleGraph` in another order, the nodes of each block in another order. -/
def permutedBlocks : List (Option (List Node)) :=
  [some [⟨NodeType.LoadVarargs, 0⟩, ⟨NodeType.PutStack, 0⟩],
   some [⟨NodeType.Other, 0⟩, ⟨NodeType.GetLocal, 1⟩, ⟨NodeType.SetLocal, 2⟩],
   none]
/-! ## Specification of the mark phase -/

/-- The used-operands table the mark phase starts from (line 54). -/
def initialOperands (g : Graph) : Operands :=
  Operands.create 0 g.m_localVars g.m_tmps false

/-- Slot of an operand in the used-operands table of the graph: `operandIndex(operand)`. -/
def slotOf (t : Target) (g : Graph) (o : Operand) : Nat :=
  (initialOperands g).operandIndex t o

/-- A table with the shape the mark phase gives it: no argument entry, one entry per local and
per temporary. -/
def Shaped (g : Graph) (used : Operands) : Prop :=
  used.numArguments = 0 ∧ used.numLocals = g.m_localVars
    ∧ used.values.length = g.m_localVars + g.m_tmps

/-- Specification of a step on the table alone: the step returns exactly when `P` holds, and
then it sets the slots `T` and no other, keeping the shape. -/
def MarkSpec (g : Graph) (f : Operands → Except Fault Operands) (P : Prop) (T : Nat → Prop) :
    Prop :=
  ∀ used, Shaped g used →
    (P → ∃ used1, f used = .ok used1 ∧ Shaped g used1
      ∧ ∀ j : Nat, used1.values[j]? = some true ↔ (used.values[j]? = some true ∨ T j))
    ∧ (¬ P → ∀ used1, f used ≠ .ok used1)

/-- Specification of a step on the table and the flag `hasNodesThatNeedFixup`: the step returns
exactly when `P` holds, and then it sets the slots `T` and no other and raises the flag
if `F` is set. -/
def StepSpec (g : Graph) (f : Operands × Bool → Except Fault (Operands × Bool)) (P : Prop)
    (T : Nat → Prop) (F : Bool) : Prop :=
  ∀ st : Operands × Bool, Shaped g st.1 →
    (P → ∃ st1, f st = .ok st1 ∧ Shaped g st1.1 ∧ st1.2 = (st.2 || F)
      ∧ ∀ j : Nat, st1.1.values[j]? = some true ↔ (st.1.values[j]? = some true ∨ T j))
    ∧ (¬ P → ∀ st1, f st ≠ .ok st1)

/-- The registers a `LoadVarargs`/`ForwardVarargs` record makes the mark phase set: the count,
and for a local start the registers `start.offset() + i` for `i < limit`. -/
def VarargsUses (data : LoadVarargsData) (o : Operand) : Prop :=
  o = Operand.ofVirtualRegister data.count
    ∨ (data.start.isLocal = true
      ∧ ∃ i : Nat, i < data.limit
          ∧ o = Operand.ofVirtualRegister ⟨toInt32 (data.start.offset + i)⟩)

/-- The operands a node mentions, in the words of the claim: (a) the non-argument operand of the
variable of a `GetLocal`/`SetLocal`/`Flush`/`PhantomLocal`, (b) the non-argument operand of the
stack-access record of a `PutStack`/`GetStack`, (c) the count operand and the start/limit range
of a `LoadVarargs`/`ForwardVarargs`. -/
def NodeUses (g : Graph) (node : Node) (o : Operand) : Prop :=
  ((node.op = NodeType.GetLocal ∨ node.op = NodeType.SetLocal ∨ node.op = NodeType.Flush
        ∨ node.op = NodeType.PhantomLocal)
      ∧ ∃ root, variableAccessData g.m_variableAccessData node.opInfo = .ok root
          ∧ root.m_operand = o ∧ o.isArgument = false)
    ∨ ((node.op = NodeType.PutStack ∨ node.op = NodeType.GetStack)
      ∧ ∃ stack, g.m_stackAccessData[node.opInfo]? = some stack
          ∧ stack.operand = o ∧ o.isArgument = false)
    ∨ ((node.op = NodeType.LoadVarargs ∨ node.op = NodeType.ForwardVarargs)
      ∧ ∃ data, g.m_loadVarargsData[node.opInfo]? = some data ∧ VarargsUses data o)

/-- The operands an inline call frame makes the mark phase set, in the words of the claim: (d)
the argument-count slot of a varargs frame and the argument-with-fixup slots, offset by the
frame's `stackOffset`. -/
def FrameUses (t : Target) (frame : InlineCallFrame) (o : Operand) : Prop :=
  (frame.isVarargs = true
      ∧ o = Operand.ofVirtualRegister
          ⟨toInt32 (t.argumentCountIncludingThis + frame.stackOffset)⟩)
    ∨ ∃ argument : Nat, argument < frame.m_argumentsWithFixup.length
        ∧ o = Operand.ofVirtualRegister
            ⟨toInt32 (toInt32 (argument + t.thisArgumentOffset) + frame.stackOffset)⟩

/-- The operands the graph mentions: those of a node of a non-null block and those of an inline
call frame. -/
def SyntacticallyUsed (t : Target) (g : Graph) (o : Operand) : Prop :=
  (∃ nodes node, some nodes ∈ g.blocks ∧ node ∈ nodes ∧ NodeUses g node o)
    ∨ ∃ frame, frame ∈ g.inlineCallFrames ∧ FrameUses t frame o

/-- Whether the node is a `LoadVarargs` or a `ForwardVarargs`. -/
def Node.isVarargs (node : Node) : Bool :=
  decide (node.op = NodeType.LoadVarargs) || decide (node.op = NodeType.ForwardVarargs)

/-- The mark step of a node returns on the initial table. -/
def NodeMarkable (t : Target) (g : Graph) (node : Node) : Prop :=
  ∃ st1, markNode t g node (initialOperands g, false) = .ok st1

/-- The mark step of an inline call frame returns on the initial table. -/
def FrameMarkable (t : Target) (g : Graph) (frame : InlineCallFrame) : Prop :=
  ∃ used1, markInlineCallFrame t frame (initialOperands g) = .ok used1

/-- Whether a block holds a `LoadVarargs` or a `ForwardVarargs`; a null block holds none. -/
def blockNeedsFixup : Option (List Node) → Bool
  | none => false
  | some nodes => nodes.any Node.isVarargs

/-- Conditions under which the mark phase returns: every node of a non-null block can be marked,
and every operand an inline call frame mentions has a table entry. -/
def Markable (t : Target) (g : Graph) : Prop :=
  (∀ nodes node, some nodes ∈ g.blocks → node ∈ nodes → NodeMarkable t g node)
    ∧ ∀ frame, frame ∈ g.inlineCallFrames →
        ∀ o, FrameUses t frame o → slotOf t g o < g.m_localVars + g.m_tmps

/-- Two blocks with the same nodes in some order; a null block only matches a null block. -/
def BlockPermuted : Option (List Node) → Option (List Node) → Prop
  | none, none => True
  | some a, some b => a.Perm b
  | _, _ => False

/-- The blocks of the second list are those of the first in some order, the nodes of each block
in some order. -/
def BlocksPermuted (blocks blocks1 : List (Option (List Node))) : Prop :=
  ∃ mid, List.Forall₂ BlockPermuted blocks mid ∧ mid.Perm blocks1

/-- Two lists of blocks whose non-null blocks hold the same nodes. -/
def SameNodes (blocks blocks1 : List (Option (List Node))) : Prop :=
  ∀ node, (∃ nodes, some nodes ∈ blocks ∧ node ∈ nodes)
    ↔ ∃ nodes, some nodes ∈ blocks1 ∧ node ∈ nodes

/-- The table of `LoadVarargsData` records `table` is `table0` with the records at the indices
in `S` fixed up and the other records untouched. -/
def FixedAt (t : Target) (usedOperands : Operands) (alloc : List Nat)
    (table0 : List LoadVarargsData) (S : Nat → Prop) (table : List LoadVarargsData) : Prop :=
  table.length = table0.length
    ∧ ∀ (i : Nat) (d0 : LoadVarargsData), table0[i]? = some d0 →
        (S i → ∃ d1, fixupLoadVarargs t usedOperands alloc d0 = .ok d1 ∧ table[i]? = some d1)
          ∧ (¬ S i → table[i]? = some d0)

/-- Specification of a fix-up step `f` relative to the initial table `table0`: it returns
exactly when `P` holds, and then it has fixed up the records at the indices in `R`. -/
def FixSpec (t : Target) (usedOperands : Operands) (alloc : List Nat)
    (table0 : List LoadVarargsData)
    (f : List LoadVarargsData → Except Fault (List LoadVarargsData)) (P : Prop)
    (R : Nat → Prop) : Prop :=
  ∀ (S : Nat → Prop) (table : List LoadVarargsData),
    FixedAt t usedOperands alloc table0 S table →
      (P → ∃ table1, f table = .ok table1
        ∧ FixedAt t usedOperands alloc table0 (fun i => S i ∨ R i) table1)
      ∧ (¬ P → ∀ table1, f table ≠ .ok table1)

/-- Whether the record a `LoadVarargs`/`ForwardVarargs` node points to exists in `table0` and
can be fixed up. -/
def NodeFixable (t : Target) (usedOperands : Operands) (alloc : List Nat)
    (table0 : List LoadVarargsData) (node : Node) : Prop :=
  node.isVarargs = true →
    ∃ d0 d1, table0[node.opInfo]? = some d0
      ∧ fixupLoadVarargs t usedOperands alloc d0 = .ok d1
namespace DFG

/-! ## `HeapLocation`: the delegating constructors and the kind helpers -/

/-- Modelled from the spec: `Edge` (dfg/DFGEdge.h), a reference to a graph node; `node()` is the
address of the node, `0` for the default `Edge()`. -/
structure Edge where
  /-- Value of `node()`. -/
  node : Nat
  deriving DecidableEq, Repr

namespace HeapLocation

variable {L : Type}

/-- Constructor `HeapLocation(kind, heap, Node* base, Node* index, Node* descriptor = nullptr)`
(lines 121-124): it delegates to the main constructor with `LazyNode(index)`. -/
def createFromNodes (x : External L) (kind : LocationKind) (heap : AbstractHeap)
    (base index descriptor : Nat) : Option (HeapLocation L) :=
  create x kind heap base (x.lazyNodeOfNode index) descriptor 0

/-- Constructor `HeapLocation(kind, heap, Edge base, Edge index = Edge(), Edge descriptor =
Edge())` (lines 126-129): it delegates with the nodes of the edges. -/
def createFromEdges (x : External L) (kind : LocationKind) (heap : AbstractHeap)
    (base index descriptor : Edge) : Option (HeapLocation L) :=
  createFromNodes x kind heap base.node index.node descriptor.node

/-- Constructor `HeapLocation(kind, heap, Edge base, void* extraState)` (lines 131-134): it
delegates to the main constructor with a null index and a null descriptor. -/
def createWithExtraState (x : External L) (kind : LocationKind) (heap : AbstractHeap)
    (base : Edge) (extraState : Nat) : Option (HeapLocation L) :=
  create x kind heap base.node x.nullLazyNode 0 extraState

/-- The optional-dependency chain in the words of the spec: the kind is `Invalid` exactly when
the heap is empty; a base requires a heap; an index, a descriptor or an extra state requires a
base. -/
def DependencyChain (x : External L) (kind : LocationKind) (heap : AbstractHeap) (base : Nat)
    (index : L) (descriptor extraState : Nat) : Prop :=
  (kind = LocationKind.InvalidLocationKind ↔ heap.isEmpty = true)
    ∧ (base ≠ 0 → heap.isEmpty = false)
    ∧ ((x.lazyNodeIsNull index = false ∨ descriptor ≠ 0 ∨ extraState ≠ 0) → base ≠ 0)

/-- The optional-dependency chain on the fields of a key. -/
def SatisfiesChain (x : External L) (k : HeapLocation L) : Prop :=
  DependencyChain x k.m_kind k.m_heap k.m_base k.m_index k.m_descriptor k.m_extraState

end HeapLocation

/-- Modelled from the spec: the result representations of `NodeFlags` (dfg/DFGNodeFlags.h):
"double / int32 / 52-bit-int / tagged-JS-value / storage-only", three bits of the flags. -/
def NodeResultMask : Nat := 7

/-- Modelled from the spec: the tagged-JS-value representation. -/
def NodeResultJS : Nat := 1

/-- Modelled from the spec: the number representation, which has no indexed-property kind. -/
def NodeResultNumber : Nat := 2

/-- Modelled from the spec: the double representation. -/
def NodeResultDouble : Nat := 3

/-- Modelled from the spec: the int32 representation. -/
def NodeResultInt32 : Nat := 4

/-- Modelled from the spec: the 52-bit-int representation. -/
def NodeResultInt52 : Nat := 5

/-- Modelled from the spec: the boolean representation, which has no indexed-property kind. -/
def NodeResultBoolean : Nat := 6

/-- Modelled from the spec: the storage-only representation. -/
def NodeResultStorage : Nat := 7

/-- Function `indexedPropertyLocForResultType` (lines 188-209). The `ASSERT` of line 193 is
compiled in when `assertionsEnabled` holds and stops the function before the `switch`; both
`RELEASE_ASSERT_NOT_REACHED()` are fatal in every build. -/
def indexedPropertyLocForResultType (assertionsEnabled : Bool)
    (canonicalResultRepresentation : Nat) : Except Fault LocationKind :=
  if canonicalResultRepresentation = 0 then .ok LocationKind.IndexedPropertyJSLoc
  else if assertionsEnabled
      && decide (canonicalResultRepresentation &&& NodeResultMask ≠ canonicalResultRepresentation)
  then .error Fault.assertion
  else if canonicalResultRepresentation = NodeResultDouble then
    .ok LocationKind.IndexedPropertyDoubleLoc
  else if canonicalResultRepresentation = NodeResultInt52 then
    .ok LocationKind.IndexedPropertyInt52Loc
  else if canonicalResultRepresentation = NodeResultInt32 then
    .ok LocationKind.IndexedPropertyInt32Loc
  else if canonicalResultRepresentation = NodeResultJS then
    .ok LocationKind.IndexedPropertyJSLoc
  else if canonicalResultRepresentation = NodeResultStorage then .error Fault.releaseAssert
  else .error Fault.releaseAssert

/-- Function `indexedPropertyLocToOutOfBoundsSaneChain` (lines 211-225). -/
def indexedPropertyLocToOutOfBoundsSaneChain : LocationKind → Except Fault LocationKind
  | .IndexedPropertyInt32Loc => .ok LocationKind.IndexedPropertyInt32OutOfBoundsSaneChainLoc
  | .IndexedPropertyInt52Loc => .ok LocationKind.IndexedPropertyInt52OutOfBoundsSaneChainLoc
  | .IndexedPropertyDoubleLoc => .ok LocationKind.IndexedPropertyDoubleOutOfBoundsSaneChainLoc
  | .IndexedPropertyJSLoc => .ok LocationKind.IndexedPropertyJSOutOfBoundsSaneChainLoc
  | _ => .error Fault.releaseAssert

end DFG

/-! ## Graphs and notions for the fix-up, the callee checks and the index safety -/

/-- The graph `run` leaves behind for `varargsGraph`. -/
def varargsResult : Graph :=
  { varargsGraph with
    m_loadVarargsData :=
      [⟨virtualRegisterForLocal 5, virtualRegisterForLocal 0, virtualRegisterForLocal 3,
        virtualRegisterForLocal 0, 3⟩]
    m_nextMachineLocal := 4 }

/-- The callee checks of lines 195-203 fail for the record `data` and its frame: the frame is a
closure call and the record has no callee variable, or the other way round, or the frame is
not a closure call and its callee recovery is not a constant. -/
def CalleeMismatch (frames : List InlineCallFrame) (data : InlineVariableData) : Prop :=
  ∃ frame, frames[data.inlineCallFrame]? = some frame
    ∧ (frame.isClosureCall ≠ data.calleeVariable.isSome
      ∨ (frame.isClosureCall = false ∧ frame.calleeRecovery.isConstant = false))

/-- The graph `inlineGraph` with the callee variable of its inline-variable record removed: the
frame is a closure call, the record has no callee variable. -/
def mismatchGraph : Graph :=
  { inlineGraph with m_inlineVariableData := [⟨0, 0, none⟩] }

/-- A graph with eight locals whose only node is a `GetStack` on the argument register 6. -/
def argumentStackGraph : Graph :=
  { m_localVars := 8
    m_tmps := 0
    blocks := [some [⟨NodeType.GetStack, 0⟩]]
    m_variableAccessData := []
    m_stackAccessData :=
      [⟨Operand.ofVirtualRegister ⟨6⟩, VirtualRegister.invalid, FlushFormat.FlushedJSValue⟩]
    m_loadVarargsData := []
    inlineCallFrames := []
    m_inlineVariableData := []
    m_argumentPositions := []
    m_nextMachineLocal := 0
    needsScopeRegister := false
    scopeRegister := VirtualRegister.invalid }

/-- The graph `run` leaves behind for `argumentStackGraph`: the record holds the argument
register itself. -/
def argumentStackResult : Graph :=
  { argumentStackGraph with
    m_stackAccessData :=
      [⟨Operand.ofVirtualRegister ⟨6⟩, ⟨6⟩, FlushFormat.FlushedJSValue⟩] }

/-- The operands the resolve phase and the fix-up hand to `assign` or look up in the allocation
table: those of the variables, of the stack-access records, the scope register when it is
needed, the count and start registers of the varargs records, and the argument-count register
of the varargs inline call frames. -/
def referencedOperands (t : Target) (g : Graph) : List Operand :=
  g.m_variableAccessData.map VariableAccessData.m_operand
    ++ g.m_stackAccessData.map StackAccessData.operand
    ++ (if g.needsScopeRegister then [Operand.ofVirtualRegister g.scopeRegister] else [])
    ++ g.m_loadVarargsData.map (fun data => Operand.ofVirtualRegister data.count)
    ++ g.m_loadVarargsData.map (fun data => Operand.ofVirtualRegister data.start)
    ++ (g.inlineCallFrames.filter InlineCallFrame.isVarargs).map (fun frame =>
        Operand.ofVirtualRegister ⟨toInt32 (frame.stackOffset + t.argumentCountIncludingThis)⟩)

/-! ## `ICEvent` (jit/ICStats.h) -/

/-- Enumeration `ICEvent::Kind`, in the order of `FOR_EACH_ICEVENT_KIND`. -/
inductive ICEvent.Kind
  | InvalidKind
  | GetByAddAccessCase
  | GetByReplaceWithJump
  | GetBySelfPatch
  | InAddAccessCase
  | InReplaceWithJump
  | InReplaceWithGeneric
  | InstanceOfAddAccessCase
  | InstanceOfReplaceWithJump
  | OperationGetById
  | OperationGetByIdGeneric
  | OperationGetByIdBuildList
  | OperationGetByIdOptimize
  | OperationGetByValOptimize
  | OperationGetByIdWithThisOptimize
  | OperationGetByValWithThisOptimize
  | OperationGenericIn
  | OperationInByIdGeneric
  | OperationInByIdOptimize
  | OperationPutByIdStrict
  | OperationPutByIdSloppy
  | OperationPutByIdDirectStrict
  | OperationPutByIdDirectSloppy
  | OperationPutByIdStrictOptimize
  | OperationPutByIdSloppyOptimize
  | OperationPutByIdDirectStrictOptimize
  | OperationPutByIdDirectSloppyOptimize
  | OperationPutByIdStrictBuildList
  | OperationPutByIdSloppyBuildList
  | OperationPutByIdDefinePrivateFieldStrictOptimize
  | OperationPutByIdPutPrivateFieldStrictOptimize
  | PutByAddAccessCase
  | PutByReplaceWithJump
  | PutBySelfPatch
  | InBySelfPatch
  | DelByReplaceWithJump
  | DelByReplaceWithGeneric
  | OperationGetPrivateNameOptimize
  | OperationGetPrivateNameById
  | OperationGetPrivateNameByIdOptimize
  | OperationGetPrivateNameByIdGeneric
  | CheckPrivateBrandAddAccessCase
  | SetPrivateBrandAddAccessCase
  | CheckPrivateBrandReplaceWithJump
  | SetPrivateBrandReplaceWithJump
  | OperationPutByIdSetPrivateFieldStrictOptimize
  deriving DecidableEq, Repr

/-- Conversion `static_cast<unsigned>(m_kind)`: the position of the kind in the enumeration. -/
def ICEvent.Kind.toUnsigned (kind : ICEvent.Kind) : Nat := kind.toCtorIdx

/-- Enumeration `ICEvent::PropertyLocation`. -/
inductive ICEvent.PropertyLocation
  | Unknown
  | BaseObject
  | ProtoLookup
  deriving DecidableEq, Repr

/-- Conversion `static_cast<unsigned>(m_propertyLocation)`. -/
def ICEvent.PropertyLocation.toUnsigned : ICEvent.PropertyLocation → Nat
  | .Unknown => 0
  | .BaseObject => 1
  | .ProtoLookup => 2

/-- The hash functions `ICEvent::hash` calls, `WTF::PtrHash<const ClassInfo*>::hash` and
`StringHash::hash` (wtf/HashFunctions.h, wtf/text/StringHash.h), are not under src/ and are
parameters; their results are `unsigned`. -/
structure HashFunctions where
  /-- Function `WTF::PtrHash<const ClassInfo*>::hash`. -/
  ptrHash : Nat → Nat
  /-- Function `StringHash::hash`. -/
  stringHash : String → Nat

/-- Class `ICEvent`. A `const ClassInfo*` is its address, `0` for `nullptr`; an `Identifier`
(runtime/Identifier.h, not under src/) is its string, `none` for the null identifier:
identifiers are uniqued, so two of them are the same exactly when their strings are. -/
structure ICEvent where
  /-- Field `m_kind`. -/
  m_kind : ICEvent.Kind
  /-- Field `m_classInfo`. -/
  m_classInfo : Nat
  /-- Field `m_propertyName`. -/
  m_propertyName : Option String
  /-- Field `m_propertyLocation`. -/
  m_propertyLocation : ICEvent.PropertyLocation
  deriving DecidableEq, Repr

namespace ICEvent

/-- Constructor `ICEvent(vm, kind, classInfo, propertyName)`. -/
def create (kind : Kind) (classInfo : Nat) (propertyName : Option String) : ICEvent :=
  ⟨kind, classInfo, propertyName, PropertyLocation.Unknown⟩

/-- Constructor `ICEvent(vm, kind, classInfo, propertyName, isBaseProperty)`. -/
def createWithLocation (kind : Kind) (classInfo : Nat) (propertyName : Option String)
    (isBaseProperty : Bool) : ICEvent :=
  ⟨kind, classInfo, propertyName,
    if isBaseProperty then PropertyLocation.BaseObject else PropertyLocation.ProtoLookup⟩

/-- Method `operator==` (lines 127-132). -/
def equal (a other : ICEvent) : Bool :=
  decide (a.m_kind = other.m_kind) && decide (a.m_classInfo = other.m_classInfo)
    && decide (a.m_propertyName = other.m_propertyName)

/-- Method `hash()` (lines 148-153); the sum is an `unsigned`. -/
def hash (x : HashFunctions) (e : ICEvent) : Nat :=
  match e.m_propertyName with
  | none =>
    (e.m_kind.toUnsigned + e.m_propertyLocation.toUnsigned + x.ptrHash e.m_classInfo)
      % 4294967296
  | some name =>
    (e.m_kind.toUnsigned + e.m_propertyLocation.toUnsigned + x.ptrHash e.m_classInfo
      + x.stringHash name) % 4294967296

end ICEvent

/-- Function `ICEventHash::hash`. -/
def ICEventHash.hash (x : HashFunctions) (key : ICEvent) : Nat := key.hash x

/-- Function `ICEventHash::equal`. -/
def ICEventHash.equal (a b : ICEvent) : Bool := a.equal b

/-- Hash functions for the examples: the address and the length of the string. -/
def HashFunctions.plain : HashFunctions := ⟨fun p => p % 4294967296, fun s => s.length⟩

end JSC

namespace WebCore

/-! ## `WebSocketExtensionDeflateFrame::processResponse`
(Modules/websockets/WebSocketDeflateFramer.cpp, the branch `#if !PLATFORM(JAVA)`) -/

/-- Enumeration `WebSocketDeflater::ContextTakeOverMode`. -/
inductive ContextTakeOverMode
  | DoNotTakeOverContext
  | TakeOverContext
  deriving DecidableEq, Repr

/-- The code of other files that `processResponse` and `enableDeflate` call, as parameters:
`parseIntegerAllowingTrailingJunk<int>` (wtf/text/StringToIntegerConversion.h) on a string that
may be null, and the outcome of `WebSocketDeflater::initialize()` and
`WebSocketInflater::initialize()` (Modules/websockets/WebSocketDeflater.cpp). -/
structure External where
  /-- Function `parseIntegerAllowingTrailingJunk<int>`; `none` is `std::nullopt`. -/
  parseIntegerAllowingTrailingJunk : Option String → Option Int
  /-- Whether `WebSocketDeflater(windowBits, mode).initialize()` succeeds. -/
  deflaterInitializes : Int → ContextTakeOverMode → Bool
  /-- Whether `WebSocketInflater().initialize()` succeeds. -/
  inflaterInitializes : Bool

/-- A `HashMap<String, String>`: finitely many entries, no key twice; a value is a `String`,
`none` for the null string. -/
structure HashMap where
  /-- The entries of the map. -/
  entries : List (String × Option String)
  /-- A key occurs once. -/
  nodup : (entries.map Prod.fst).Nodup

namespace HashMap

/-- Method `find(key)`: the value of the entry with that key, `none` for `end()`. -/
def find (m : HashMap) (key : String) : Option (Option String) :=
  (m.entries.find? (fun e => e.1 == key)).map Prod.snd

/-- Method `size()`. -/
def size (m : HashMap) : Nat := m.entries.length

end HashMap

/-- Class `WebSocketDeflateFramer`, reduced to the members `enableDeflate` writes. -/
structure WebSocketDeflateFramer where
  /-- Field `m_deflater`: `none` for a null pointer, else the window bits and the mode the
  deflater was made with. -/
  m_deflater : Option (Int × ContextTakeOverMode)
  /-- Field `m_inflater`: whether the pointer is set. -/
  m_inflater : Bool
  /-- Field `m_enabled`. -/
  m_enabled : Bool
  deriving DecidableEq, Repr

/-- Method `WebSocketDeflateFramer::enableDeflate(windowBits, mode)`. -/
def WebSocketDeflateFramer.enableDeflate (x : External) (windowBits : Int)
    (mode : ContextTakeOverMode) (framer : WebSocketDeflateFramer) : WebSocketDeflateFramer :=
  if !x.deflaterInitializes windowBits mode || !x.inflaterInitializes then
    { framer with m_deflater := none, m_inflater := false }
  else
    { m_deflater := some (windowBits, mode), m_inflater := true, m_enabled := true }

/-- Class `WebSocketExtensionDeflateFrame`. -/
structure WebSocketExtensionDeflateFrame where
  /-- Field `m_framer`. -/
  m_framer : WebSocketDeflateFramer
  /-- Field `m_responseProcessed`. -/
  m_responseProcessed : Bool
  /-- Field `m_failureReason`. -/
  m_failureReason : String
  deriving DecidableEq, Repr

/-- Method `WebSocketExtensionDeflateFrame::processResponse(serverParameters)` (lines 75-118):
the value it returns and the object it leaves behind. The locals `windowBits`, `mode` and
`expectedNumParameters` are those of the source. -/
def WebSocketExtensionDeflateFrame.processResponse (x : External)
    (self : WebSocketExtensionDeflateFrame) (serverParameters : HashMap) :
    Bool × WebSocketExtensionDeflateFrame :=
  if self.m_responseProcessed then
    (false, { self with m_failureReason := "Received duplicate deflate-frame response" })
  else
    let self1 := { self with m_responseProcessed := true }
    let windowBits : Int :=
      match serverParameters.find "max_window_bits" with
      | some value => (x.parseIntegerAllowingTrailingJunk value).getD 0
      | none => 15
    if (serverParameters.find "max_window_bits").isSome ∧ (windowBits < 8 ∨ windowBits > 15) then
      (false, { self1 with m_failureReason := "Received invalid max_window_bits parameter" })
    else
      let expectedNumParameters1 : Nat :=
        if (serverParameters.find "max_window_bits").isSome then 1 else 0
      match serverParameters.find "no_context_takeover" with
      | some value =>
        if value.isSome then
          (false, { self1 with
                    m_failureReason := "Received invalid no_context_takeover parameter" })
        else if expectedNumParameters1 + 1 ≠ serverParameters.size then
          (false, { self1 with
                    m_failureReason := "Received unexpected deflate-frame parameter" })
        else
          (true, { self1 with
                   m_framer := self1.m_framer.enableDeflate x windowBits
                     ContextTakeOverMode.DoNotTakeOverContext })
      | none =>
        if expectedNumParameters1 ≠ serverParameters.size then
          (false, { self1 with
                    m_failureReason := "Received unexpected deflate-frame parameter" })
        else
          (true, { self1 with
                   m_framer := self1.m_framer.enableDeflate x windowBits
                     ContextTakeOverMode.TakeOverContext })

/-- The window bits a response asks for: the value of `max_window_bits`, 15 without it. -/
def negotiatedWindowBits (x : External) (serverParameters : HashMap) : Int :=
  match serverParameters.find "max_window_bits" with
  | some value => (x.parseIntegerAllowingTrailingJunk value).getD 0
  | none => 15

/-- The take-over mode a response asks for: `DoNotTakeOverContext` with `no_context_takeover`,
`TakeOverContext` without it. -/
def negotiatedMode (serverParameters : HashMap) : ContextTakeOverMode :=
  match serverParameters.find "no_context_takeover" with
  | some _ => ContextTakeOverMode.DoNotTakeOverContext
  | none => ContextTakeOverMode.TakeOverContext

/-- The conditions of the claim under which a response is accepted: it is the first response,
`max_window_bits` is absent or parses to an integer in 8..15, `no_context_takeover` is absent
or present with a null value, and the map has no other entry. -/
def Accepted (x : External) (self : WebSocketExtensionDeflateFrame)
    (serverParameters : HashMap) : Prop :=
  self.m_responseProcessed = false
    ∧ (∀ value, serverParameters.find "max_window_bits" = some value →
        ∃ n, x.parseIntegerAllowingTrailingJunk value = some n ∧ 8 ≤ n ∧ n ≤ 15)
    ∧ (∀ value, serverParameters.find "no_context_takeover" = some value → value = none)
    ∧ ∀ e, e ∈ serverParameters.entries →
        e.1 = "max_window_bits" ∨ e.1 = "no_context_takeover"

/-- Parsing for the examples: the strings `8` to `15` are read as their number. -/
def External.plain : External :=
  { parseIntegerAllowingTrailingJunk := fun s =>
      match s with
      | some "8" => some 8
      | some "9" => some 9
      | some "10" => some 10
      | some "11" => some 11
      | some "12" => some 12
      | some "13" => some 13
      | some "14" => some 14
      | some "15" => some 15
      | _ => none
    deflaterInitializes := fun _ _ => true
    inflaterInitializes := true }

/-- The response `max_window_bits=10; no_context_takeover`. -/
def exampleResponse : HashMap :=
  ⟨[("max_window_bits", some "10"), ("no_context_takeover", none)], by decide⟩

end WebCore

namespace JSC

/-! ## Properties of the assign loop -/

theorem allocateFrom_length (l : List Bool) (next : Nat) :
    (allocateFrom l next).1.length = l.length := by
  induction l generalizing next with
  | nil => rfl
  | cons b rest ih => cases b <;> simp [allocateFrom, ih]

/-- Closed form of the assign loop when the counter cannot wrap around. -/
theorem allocateFrom_getElem? (l : List Bool) (next : Nat) (h : next + l.length ≤ UINT_MAX)
    (i : Nat) :
    (allocateFrom l next).1[i]? =
      (l[i]?).map (fun b => if b = true then next + usedBefore l i else UINT_MAX) := by
  induction l generalizing next i with
  | nil => simp [allocateFrom]
  | cons b rest ih =>
    have hlen : next + (rest.length + 1) ≤ UINT_MAX := by simpa using h
    cases i with
    | zero => cases b <;> simp [allocateFrom, usedBefore]
    | succ j =>
      cases b with
      | false =>
        have := ih next (by omega) j
        simp [allocateFrom, usedBefore] at this ⊢
        exact this
      | true =>
        have hmod : (next + 1) % 4294967296 = next + 1 := by
          apply Nat.mod_eq_of_lt
          simp [UINT_MAX] at hlen
          omega
        have := ih (next + 1) (by omega) j
        simp only [allocateFrom, hmod, usedBefore] at this ⊢
        simp only [List.getElem?_cons_succ, List.take_succ_cons, List.count_cons_self, this]
        cases rest[j]? with
        | none => rfl
        | some b =>
          cases b
          · simp
          · simp; omega

theorem allocateFrom_next (l : List Bool) (next : Nat) (h : next + l.length ≤ UINT_MAX) :
    (allocateFrom l next).2 = next + usedCount l := by
  induction l generalizing next with
  | nil => simp [allocateFrom, usedCount]
  | cons b rest ih =>
    have hlen : next + (rest.length + 1) ≤ UINT_MAX := by simpa using h
    cases b with
    | false =>
      have := ih next (by omega)
      simp [allocateFrom, usedCount] at this ⊢
      exact this
    | true =>
      have hmod : (next + 1) % 4294967296 = next + 1 := by
        apply Nat.mod_eq_of_lt
        simp [UINT_MAX] at hlen
        omega
      have := ih (next + 1) (by omega)
      simp only [allocateFrom, hmod, usedCount] at this ⊢
      simp only [List.count_cons_self, this]
      omega

theorem usedBefore_mono (l : List Bool) {i j : Nat} (hij : i ≤ j) :
    usedBefore l i ≤ usedBefore l j := by
  unfold usedBefore
  have h : l.take i = (l.take j).take i := by
    rw [List.take_take, Nat.min_eq_left hij]
  rw [h]
  exact (List.take_sublist i (l.take j)).count_le true

theorem usedBefore_succ (l : List Bool) (i : Nat) (h : l[i]? = some true) :
    usedBefore l (i + 1) = usedBefore l i + 1 := by
  unfold usedBefore
  induction l generalizing i with
  | nil => simp at h
  | cons b rest ih =>
    cases i with
    | zero =>
      simp at h
      simp [h]
    | succ k =>
      have hk : rest[k]? = some true := by simpa using h
      have := ih k hk
      simp only [List.take_succ_cons, List.count_cons]
      omega

theorem usedBefore_le_length (l : List Bool) (i : Nat) : usedBefore l i ≤ i := by
  unfold usedBefore
  calc (l.take i).count true ≤ (l.take i).length := List.count_le_length _ _
    _ ≤ i := by simp

theorem usedBefore_lt_usedCount (l : List Bool) (i : Nat) (h : l[i]? = some true) :
    usedBefore l i < usedCount l := by
  have h1 := usedBefore_succ l i h
  have h2 : usedBefore l (i + 1) ≤ usedCount l := by
    unfold usedBefore usedCount
    exact (List.take_sublist (i + 1) l).count_le true
  omega

/-- Entry `i` of the allocation table, for a counter that does not wrap around. -/
theorem allocation_getElem? (c : Nat) (l : List Bool) (h : c + l.length ≤ UINT_MAX) (i : Nat) :
    (allocation c l)[i]? =
      (l[i]?).map (fun b => if b = true then c + usedBefore l i else UINT_MAX) := by
  have hc : c % 4294967296 = c := by
    apply Nat.mod_eq_of_lt
    simp [UINT_MAX] at h
    omega
  unfold allocation
  rw [hc]
  exact allocateFrom_getElem? l c h i

theorem allocation_length (c : Nat) (l : List Bool) : (allocation c l).length = l.length :=
  allocateFrom_length l _

theorem nextMachineLocal_eq (c : Nat) (l : List Bool) (h : c + l.length ≤ UINT_MAX) :
    nextMachineLocal c l = c + usedCount l := by
  have hc : c % 4294967296 = c := by
    apply Nat.mod_eq_of_lt
    simp [UINT_MAX] at h
    omega
  unfold nextMachineLocal
  rw [hc]
  exact allocateFrom_next l c h

/-- A used entry gets a physical index below `UINT_MAX`. -/
theorem allocation_used (c : Nat) (l : List Bool) (h : c + l.length ≤ UINT_MAX) (i : Nat)
    (hi : l[i]? = some true) :
    (allocation c l)[i]? = some (c + usedBefore l i) ∧ c + usedBefore l i < UINT_MAX := by
  constructor
  · rw [allocation_getElem? c l h i, hi]; simp
  · have h1 := usedBefore_le_length l i
    have h2 : i < l.length := by
      rcases Nat.lt_or_ge i l.length with h2 | h2
      · exact h2
      · have hn : l[i]? = none := List.getElem?_eq_none h2
        rw [hn] at hi; simp at hi
    omega

theorem allocation_unused (c : Nat) (l : List Bool) (h : c + l.length ≤ UINT_MAX) (i : Nat)
    (hi : l[i]? = some false) : (allocation c l)[i]? = some UINT_MAX := by
  rw [allocation_getElem? c l h i, hi]; simp

/-- Every physical index of `[next, next + count)` is handed out by the loop. -/
theorem allocateFrom_surjective (l : List Bool) (next : Nat) (h : next + l.length ≤ UINT_MAX)
    (p : Nat) (h1 : next ≤ p) (h2 : p < next + usedCount l) :
    ∃ i : Nat, (allocateFrom l next).1[i]? = some p ∧ l[i]? = some true := by
  induction l generalizing next with
  | nil => simp [usedCount] at h2; omega
  | cons b rest ih =>
    have hlen : next + (rest.length + 1) ≤ UINT_MAX := by simpa using h
    cases b with
    | false =>
      have hc : usedCount (false :: rest) = usedCount rest := by simp [usedCount]
      obtain ⟨i, hi, hu⟩ := ih next (by omega) h1 (by omega)
      exact ⟨i + 1, by simpa [allocateFrom] using hi, by simpa using hu⟩
    | true =>
      have hc : usedCount (true :: rest) = usedCount rest + 1 := by simp [usedCount]
      have hmod : (next + 1) % 4294967296 = next + 1 := by
        apply Nat.mod_eq_of_lt
        simp [UINT_MAX] at hlen
        omega
      rcases Nat.eq_or_lt_of_le h1 with heq | hlt
      · exact ⟨0, by simp [allocateFrom, heq], by simp⟩
      · obtain ⟨i, hi, hu⟩ := ih (next + 1) (by omega) (by omega) (by omega)
        exact ⟨i + 1, by simpa [allocateFrom, hmod] using hi, by simpa using hu⟩

/-! ## Properties of the union-find walk -/

/-- The walk ends on a root. -/
theorem findFrom_isRoot (vars : List VariableAccessData) (fuel i r : Nat)
    (h : findFrom vars fuel i = some r) :
    ∃ v, vars[r]? = some v ∧ v.m_parent = none := by
  induction fuel generalizing i with
  | zero => simp [findFrom] at h
  | succ n ih =>
    unfold findFrom at h
    split at h
    · simp at h
    · rename_i v hv
      split at h
      · rename_i hp
        simp at h
        subst h
        exact ⟨v, hv, hp⟩
      · exact ih _ h

/-- The root of a root is the root itself. -/
theorem find_of_isRoot (vars : List VariableAccessData) (r : Nat) (v : VariableAccessData)
    (hv : vars[r]? = some v) (hp : v.m_parent = none) : find vars r = some r := by
  have hr : r < vars.length := by
    rcases Nat.lt_or_ge r vars.length with h | h
    · exact h
    · have hn : vars[r]? = none := List.getElem?_eq_none h
      rw [hn] at hv; simp at hv
  unfold find
  obtain ⟨n, hn⟩ : ∃ n, vars.length = n + 1 := ⟨vars.length - 1, by omega⟩
  rw [hn]
  simp [findFrom, hv, hp]

/-- The walk only reads the parent pointers. -/
theorem findFrom_congr (vars vars1 : List VariableAccessData)
    (h : ∀ i : Nat, (vars1[i]?).map VariableAccessData.m_parent
      = (vars[i]?).map VariableAccessData.m_parent)
    (fuel i : Nat) : findFrom vars1 fuel i = findFrom vars fuel i := by
  induction fuel generalizing i with
  | zero => rfl
  | succ n ih =>
    have hi := h i
    unfold findFrom
    cases h1 : vars1[i]? with
    | none =>
      cases h2 : vars[i]? with
      | none => rfl
      | some v => rw [h1, h2] at hi; simp at hi
    | some v1 =>
      cases h2 : vars[i]? with
      | none => rw [h1, h2] at hi; simp at hi
      | some v =>
        rw [h1, h2] at hi
        simp at hi
        simp only [hi]
        cases v.m_parent with
        | none => rfl
        | some p => exact ih p

theorem findFrom_iff_reaches (vars : List VariableAccessData) (fuel i r : Nat) :
    findFrom vars fuel i = some r ↔ ∃ k, k < fuel ∧ Reaches vars i r k := by
  induction fuel generalizing i with
  | zero => simp [findFrom]
  | succ n ih =>
    cases hv : vars[i]? with
    | none =>
      simp only [findFrom, hv]
      constructor
      · intro h
        simp at h
      · rintro ⟨k, _, hk⟩
        cases hk with
        | root _ v hv1 _ => rw [hv] at hv1; simp at hv1
        | step _ _ _ _ v hv1 _ _ => rw [hv] at hv1; simp at hv1
    | some v =>
      cases hp : v.m_parent with
      | none =>
        simp only [findFrom, hv, hp, Option.some.injEq]
        constructor
        · intro h
          subst h
          exact ⟨0, Nat.succ_pos n, Reaches.root i v hv hp⟩
        · rintro ⟨k, _, hk⟩
          cases hk with
          | root _ _ _ _ => rfl
          | step _ _ _ _ v1 hv1 hp1 _ =>
            rw [hv] at hv1
            simp only [Option.some.injEq] at hv1
            subst hv1
            rw [hp] at hp1
            simp at hp1
      | some p =>
        simp only [findFrom, hv, hp]
        rw [ih p]
        constructor
        · rintro ⟨k, hk1, hk2⟩
          exact ⟨k + 1, by omega, Reaches.step i p r k v hv hp hk2⟩
        · rintro ⟨k, hk1, hk2⟩
          cases hk2 with
          | root _ v1 hv1 hp1 =>
            rw [hv] at hv1
            simp only [Option.some.injEq] at hv1
            subst hv1
            rw [hp] at hp1
            simp at hp1
          | step _ p1 _ k1 v1 hv1 hp1 h1 =>
            rw [hv] at hv1
            simp only [Option.some.injEq] at hv1
            subst hv1
            rw [hp] at hp1
            simp only [Option.some.injEq] at hp1
            subst hp1
            exact ⟨k1, by omega, h1⟩

theorem Reaches.lt_length {vars : List VariableAccessData} {i r k : Nat}
    (h : Reaches vars i r k) : i < vars.length := by
  have hv : ∃ v, vars[i]? = some v := by
    cases h with
    | root _ v hv _ => exact ⟨v, hv⟩
    | step _ _ _ _ v hv _ _ => exact ⟨v, hv⟩
  obtain ⟨v, hv⟩ := hv
  rcases Nat.lt_or_ge i vars.length with h1 | h1
  · exact h1
  · have hn : vars[i]? = none := List.getElem?_eq_none h1
    rw [hn] at hv; simp at hv

theorem Reaches.steps_unique {vars : List VariableAccessData} {i r r1 k k1 : Nat}
    (h : Reaches vars i r k) (h1 : Reaches vars i r1 k1) : k = k1 := by
  induction h generalizing k1 r1 with
  | root i v hv hp =>
    cases h1 with
    | root _ _ _ _ => rfl
    | step _ _ _ _ v1 hv1 hp1 _ =>
      rw [hv] at hv1
      simp only [Option.some.injEq] at hv1
      subst hv1
      rw [hp] at hp1
      simp at hp1
  | step i p r k v hv hp _ ih =>
    cases h1 with
    | root _ v1 hv1 hp1 =>
      rw [hv] at hv1
      simp only [Option.some.injEq] at hv1
      subst hv1
      rw [hp] at hp1
      simp at hp1
    | step _ p1 _ k2 v1 hv1 hp1 h2 =>
      rw [hv] at hv1
      simp only [Option.some.injEq] at hv1
      subst hv1
      rw [hp] at hp1
      simp only [Option.some.injEq] at hp1
      subst hp1
      rw [ih h2]

theorem Reaches.nodeAt {vars : List VariableAccessData} {i r k : Nat}
    (h : Reaches vars i r k) (m : Nat) (hm : m ≤ k) :
    Reaches vars (JSC.nodeAt vars m i) r (k - m) := by
  induction h generalizing m with
  | root i v hv hp =>
    have : m = 0 := by omega
    subst this
    exact Reaches.root i v hv hp
  | step i p r k v hv hp h ih =>
    cases m with
    | zero => exact Reaches.step i p r k v hv hp h
    | succ n =>
      have := ih n (by omega)
      simp only [JSC.nodeAt, hv, hp]
      have he : k + 1 - (n + 1) = k - n := by omega
      rw [he]
      exact this

/-- A chain that ends on a root visits fewer entries than the table has. -/
theorem Reaches.steps_lt_length {vars : List VariableAccessData} {i r k : Nat}
    (h : Reaches vars i r k) : k < vars.length := by
  have hinj : Function.Injective
      (fun m : Fin (k + 1) =>
        (⟨JSC.nodeAt vars m.1 i, (h.nodeAt m.1 (by omega)).lt_length⟩ : Fin vars.length)) := by
    intro a b hab
    simp only [Fin.mk.injEq] at hab
    have ha := h.nodeAt a.1 (by omega)
    have hb := h.nodeAt b.1 (by omega)
    rw [hab] at ha
    have := ha.steps_unique hb
    apply Fin.ext
    omega
  have := Fintype.card_le_of_injective _ hinj
  simp only [Fintype.card_fin] at this
  omega

/-- The size of the table is enough fuel: whenever the walk reaches a root with some fuel,
`find` returns that root. -/
theorem find_complete (vars : List VariableAccessData) (fuel i r : Nat)
    (h : findFrom vars fuel i = some r) : find vars i = some r := by
  obtain ⟨k, _, hk⟩ := (findFrom_iff_reaches vars fuel i r).1 h
  exact (findFrom_iff_reaches vars vars.length i r).2 ⟨k, hk.steps_lt_length, hk⟩

/-! ## Properties of the resolve loop over the variables -/

/-- The body of the loop over the variables never stops on a fault. -/
theorem resolveVariable_eq (t : Target) (usedOperands : Operands) (alloc : List Nat)
    (v : VariableAccessData) :
    resolveVariable t usedOperands alloc v = .ok (resolvedVariable t usedOperands alloc v) := by
  unfold resolveVariable resolvedVariable
  cases hroot : v.isRoot with
  | false => simp
  | true =>
    cases harg : v.m_operand.isArgument with
    | true => simp
    | false =>
      simp only [Bool.not_true, Bool.false_eq_true, if_false]
      by_cases hlen : alloc.length ≤ usedOperands.operandIndex t v.m_operand
      · have hn : alloc[usedOperands.operandIndex t v.m_operand]? = none :=
          List.getElem?_eq_none hlen
        simp [hlen, hn]
      · simp only [hlen, if_false]
        cases ha : alloc[usedOperands.operandIndex t v.m_operand]? with
        | none => simp at ha; omega
        | some a =>
          by_cases hmax : a = UINT_MAX
          · simp [hmax]
          · simp [hmax, assign, harg, ha]

theorem resolveVariables_eq (t : Target) (usedOperands : Operands) (alloc : List Nat)
    (vars : List VariableAccessData) :
    resolveVariables t usedOperands alloc vars
      = .ok (vars.map (resolvedVariable t usedOperands alloc)) := by
  induction vars with
  | nil => rfl
  | cons v rest ih => simp [resolveVariables, ih, resolveVariable_eq]

theorem resolvedVariable_parent (t : Target) (usedOperands : Operands) (alloc : List Nat)
    (v : VariableAccessData) :
    (resolvedVariable t usedOperands alloc v).m_parent = v.m_parent := by
  unfold resolvedVariable
  split
  · rfl
  · split
    · rfl
    · split
      · rfl
      · split <;> rfl

/-- What `run` leaves in the table of variables and in `m_nextMachineLocal`. -/
theorem run_variables (t : Target) (g g1 : Graph) (marked : Operands × Bool)
    (hm : markPhase t g = .ok marked) (hr : run t g = .ok g1) :
    g1.m_variableAccessData
        = g.m_variableAccessData.map
            (resolvedVariable t marked.1 (allocation t.calleeSaveSpace marked.1.values))
      ∧ g1.m_nextMachineLocal = nextMachineLocal t.calleeSaveSpace marked.1.values := by
  unfold run at hr
  rw [hm] at hr
  simp only [layOut, resolveVariables_eq] at hr
  split at hr
  · simp at hr
  · split at hr
    · simp at hr
    · split at hr
      · simp at hr
      · split at hr
        · simp at hr
        · simp only [Except.ok.injEq] at hr
          subst hr
          exact ⟨rfl, rfl⟩

/-! ## The mark phase keeps the shape of the used-operands table -/

theorem Operands.SameShape.refl (a : Operands) : Operands.SameShape a a := ⟨rfl, rfl, rfl⟩

theorem Operands.SameShape.trans {a b c : Operands} (h1 : Operands.SameShape a b)
    (h2 : Operands.SameShape b c) : Operands.SameShape a c :=
  ⟨h2.1.trans h1.1, h2.2.1.trans h1.2.1, h2.2.2.trans h1.2.2⟩

theorem setOperand_sameShape (t : Target) (ops ops1 : Operands) (o : Operand)
    (h : ops.setOperand t o = .ok ops1) : Operands.SameShape ops ops1 := by
  unfold Operands.setOperand at h
  split at h
  · simp only [Except.ok.injEq] at h
    subst h
    exact ⟨rfl, rfl, by simp⟩
  · simp at h

theorem markVarargsRange_sameShape (t : Target) (start : VirtualRegister) (n : Nat)
    (ops ops1 : Operands) (h : markVarargsRange t start n ops = .ok ops1) :
    Operands.SameShape ops ops1 := by
  induction n generalizing ops with
  | zero =>
    simp only [markVarargsRange, Except.ok.injEq] at h
    subst h
    exact Operands.SameShape.refl _
  | succ k ih =>
    unfold markVarargsRange at h
    split at h
    · simp at h
    · rename_i used1 h1
      exact (setOperand_sameShape t _ _ _ h1).trans (ih _ h)

theorem markLoadVarargs_sameShape (t : Target) (data : LoadVarargsData) (ops ops1 : Operands)
    (h : markLoadVarargs t data ops = .ok ops1) : Operands.SameShape ops ops1 := by
  unfold markLoadVarargs at h
  split at h
  · simp at h
  · rename_i used1 h1
    have s1 := setOperand_sameShape t _ _ _ h1
    split at h
    · split at h
      · exact s1.trans (markVarargsRange_sameShape t _ _ _ _ h)
      · simp at h
    · simp only [Except.ok.injEq] at h
      subst h
      exact s1

theorem markOperand_sameShape (t : Target) (operand : Operand) (st st1 : Operands × Bool)
    (h : markOperand t operand st = .ok st1) : Operands.SameShape st.1 st1.1 := by
  unfold markOperand at h
  split at h
  · simp only [Except.ok.injEq] at h
    subst h
    exact Operands.SameShape.refl _
  · split at h
    · simp at h
    · rename_i used h1
      simp only [Except.ok.injEq] at h
      subst h
      exact setOperand_sameShape t _ _ _ h1

theorem markLocalAccess_sameShape (t : Target) (g : Graph) (node : Node)
    (st st1 : Operands × Bool) (h : markLocalAccess t g node st = .ok st1) :
    Operands.SameShape st.1 st1.1 := by
  unfold markLocalAccess at h
  split at h
  · simp at h
  · exact markOperand_sameShape t _ _ _ h

theorem markVarargsNode_sameShape (t : Target) (g : Graph) (node : Node)
    (st st1 : Operands × Bool) (h : markVarargsNode t g node st = .ok st1) :
    Operands.SameShape st.1 st1.1 := by
  unfold markVarargsNode at h
  split at h
  · simp at h
  · split at h
    · simp at h
    · rename_i used h1
      simp only [Except.ok.injEq] at h
      subst h
      exact markLoadVarargs_sameShape t _ _ _ h1

theorem markStackAccess_sameShape (t : Target) (g : Graph) (node : Node)
    (st st1 : Operands × Bool) (h : markStackAccess t g node st = .ok st1) :
    Operands.SameShape st.1 st1.1 := by
  unfold markStackAccess at h
  split at h
  · simp at h
  · exact markOperand_sameShape t _ _ _ h

theorem markNode_sameShape (t : Target) (g : Graph) (node : Node) (st st1 : Operands × Bool)
    (h : markNode t g node st = .ok st1) : Operands.SameShape st.1 st1.1 := by
  unfold markNode at h
  split at h
  all_goals first
    | exact markLocalAccess_sameShape t g node _ _ h
    | exact markVarargsNode_sameShape t g node _ _ h
    | exact markStackAccess_sameShape t g node _ _ h
    | (simp only [Except.ok.injEq] at h; subst h; exact Operands.SameShape.refl _)

theorem markNodes_sameShape (t : Target) (g : Graph) (nodes : List Node)
    (st st1 : Operands × Bool) (h : markNodes t g nodes st = .ok st1) :
    Operands.SameShape st.1 st1.1 := by
  induction nodes generalizing st1 with
  | nil =>
    simp only [markNodes, Except.ok.injEq] at h
    subst h
    exact Operands.SameShape.refl _
  | cons node rest ih =>
    unfold markNodes at h
    split at h
    · simp at h
    · rename_i st2 h2
      exact (ih _ h2).trans (markNode_sameShape t g node _ _ h)

theorem markBlocks_sameShape (t : Target) (g : Graph) (blocks : List (Option (List Node)))
    (st st1 : Operands × Bool) (h : markBlocks t g blocks st = .ok st1) :
    Operands.SameShape st.1 st1.1 := by
  induction blocks generalizing st1 with
  | nil =>
    simp only [markBlocks, Except.ok.injEq] at h
    subst h
    exact Operands.SameShape.refl _
  | cons block rest ih =>
    unfold markBlocks at h
    split at h
    · simp at h
    · rename_i st2 h2
      split at h
      · simp only [Except.ok.injEq] at h
        subst h
        exact ih _ h2
      · exact (ih _ h2).trans (markNodes_sameShape t g _ _ _ h)

theorem markFrameArguments_sameShape (t : Target) (stackOffset : Int) (n : Nat)
    (ops ops1 : Operands) (h : markFrameArguments t stackOffset n ops = .ok ops1) :
    Operands.SameShape ops ops1 := by
  induction n generalizing ops with
  | zero =>
    simp only [markFrameArguments, Except.ok.injEq] at h
    subst h
    exact Operands.SameShape.refl _
  | succ k ih =>
    unfold markFrameArguments at h
    split at h
    · simp at h
    · rename_i used1 h1
      exact (setOperand_sameShape t _ _ _ h1).trans (ih _ h)

theorem markInlineCallFrame_sameShape (t : Target) (frame : InlineCallFrame)
    (ops ops1 : Operands) (h : markInlineCallFrame t frame ops = .ok ops1) :
    Operands.SameShape ops ops1 := by
  unfold markInlineCallFrame at h
  split at h
  · simp at h
  · rename_i used1 h1
    have s1 : Operands.SameShape ops used1 := by
      split at h1
      · exact setOperand_sameShape t _ _ _ h1
      · simp only [Except.ok.injEq] at h1
        subst h1
        exact Operands.SameShape.refl _
    exact s1.trans (markFrameArguments_sameShape t _ _ _ _ h)

theorem markInlineCallFrames_sameShape (t : Target) (frames : List InlineCallFrame)
    (ops ops1 : Operands) (h : markInlineCallFrames t frames ops = .ok ops1) :
    Operands.SameShape ops ops1 := by
  induction frames generalizing ops with
  | nil =>
    simp only [markInlineCallFrames, Except.ok.injEq] at h
    subst h
    exact Operands.SameShape.refl _
  | cons frame rest ih =>
    unfold markInlineCallFrames at h
    split at h
    · simp at h
    · rename_i used1 h1
      exact (markInlineCallFrame_sameShape t _ _ _ h1).trans (ih _ h)

/-- The table the mark phase returns has one entry per local and per temporary, and none for
arguments. -/
theorem markPhase_shape (t : Target) (g : Graph) (marked : Operands × Bool)
    (h : markPhase t g = .ok marked) :
    marked.1.numArguments = 0 ∧ marked.1.numLocals = g.m_localVars
      ∧ marked.1.values.length = g.m_localVars + g.m_tmps := by
  unfold markPhase at h
  split at h
  · simp at h
  · rename_i st h1
    split at h
    · simp at h
    · rename_i used h2
      simp only [Except.ok.injEq] at h
      subst h
      have s1 := markBlocks_sameShape t g _ _ _ h1
      have s2 := markInlineCallFrames_sameShape t _ _ _ h2
      have s := s1.trans s2
      obtain ⟨a, b, c⟩ := s
      simp only [Operands.create] at a b c
      refine ⟨a, b, ?_⟩
      rw [c]
      simp

/-! ## The varargs case of the mark phase: claim C5 -/

theorem virtualRegisterForLocal_offset (s : Nat) (h : s < 2147483648) :
    (virtualRegisterForLocal s).offset = -1 - (s : Int) := by
  simp only [virtualRegisterForLocal, toInt32]
  omega

theorem operandIndex_local (t : Target) (used : Operands) (k : Nat) (h0 : used.numArguments = 0)
    (h : k < 2147483648) :
    used.operandIndex t (Operand.ofVirtualRegister ⟨-1 - (k : Int)⟩) = k := by
  have hneg : (-1 - (k : Int)) < 0 := by omega
  have hnn : ¬ (0 ≤ -1 - (k : Int)) := by omega
  simp [Operands.operandIndex, Operand.ofVirtualRegister, VirtualRegister.isLocal, hneg,
    Operand.isTmp, Operand.virtualRegister, VirtualRegister.isArgument, hnn,
    VirtualRegister.toLocal, toSizeT, h0]
  omega

theorem setOperand_local (t : Target) (used : Operands) (k : Nat) (h0 : used.numArguments = 0)
    (hk : k < used.values.length) (h31 : k < 2147483648) :
    used.setOperand t (Operand.ofVirtualRegister ⟨-1 - (k : Int)⟩)
      = .ok { used with values := used.values.set k true } := by
  unfold Operands.setOperand
  rw [operandIndex_local t used k h0 h31]
  simp [hk]

theorem getElem?_set_true (l : List Bool) (k j : Nat) (hk : k < l.length) :
    (l.set k true)[j]? = some true ↔ (l[j]? = some true ∨ j = k) := by
  by_cases hjk : k = j
  · subst hjk
    simp [hk]
  · rw [List.getElem?_set_ne hjk]
    constructor
    · intro h; exact Or.inl h
    · rintro (h | h)
      · exact h
      · exact absurd h.symm hjk

/-- The range loop of the `LoadVarargs` case started on local `s` with `n` registers to go:
it sets the table entries of the locals `s - n + 1`, ..., `s` and no other. -/
theorem markVarargsRange_spec (t : Target) (s n : Nat) (used : Operands)
    (h0 : used.numArguments = 0) (hn : n ≤ s + 1) (hs : s < used.values.length)
    (h31 : s < 2147483648) :
    ∃ used1, markVarargsRange t ⟨-1 - (s : Int)⟩ n used = .ok used1
      ∧ Operands.SameShape used used1
      ∧ ∀ j : Nat, used1.values[j]? = some true ↔
          (used.values[j]? = some true ∨ (s + 1 - n ≤ j ∧ j ≤ s)) := by
  induction n generalizing used with
  | zero =>
    refine ⟨used, rfl, Operands.SameShape.refl _, ?_⟩
    intro j
    constructor
    · intro h; exact Or.inl h
    · rintro (h | ⟨h1, h2⟩)
      · exact h
      · omega
  | succ k ih =>
    have hreg : toInt32 (-1 - (s : Int) + (k : Int)) = -1 - ((s - k : Nat) : Int) := by
      simp only [toInt32]
      omega
    have hset := setOperand_local t used (s - k) h0 (by omega) (by omega)
    obtain ⟨used1, hrun, hshape, hspec⟩ :=
      ih { used with values := used.values.set (s - k) true } h0 (by omega)
        (by simp; exact hs)
    refine ⟨used1, ?_, ?_, ?_⟩
    · simp only [markVarargsRange, hreg, hset]
      exact hrun
    · have hstep : Operands.SameShape used
          { used with values := used.values.set (s - k) true } := ⟨rfl, rfl, by simp⟩
      exact hstep.trans hshape
    · intro j
      rw [hspec j]
      simp only []
      rw [getElem?_set_true used.values (s - k) j (by omega)]
      constructor
      · rintro ((h | h) | ⟨h1, h2⟩)
        · exact Or.inl h
        · exact Or.inr ⟨by omega, by omega⟩
        · exact Or.inr ⟨by omega, h2⟩
      · rintro (h | ⟨h1, h2⟩)
        · exact Or.inl (Or.inl h)
        · by_cases hj : j = s - k
          · exact Or.inl (Or.inr hj)
          · exact Or.inr ⟨by omega, h2⟩

/-! ## The assign phase: claims C1 to C4 -/

/-- C1: in `StackLayoutPhase::run`, for every index `i` of the used-operands table the entry
`allocation[i]` differs from the unassigned sentinel `UINT_MAX` if and only if
`usedOperands[i]` was marked true: no slot is assigned without being used and no used slot is
left unassigned. The `unsigned` counter is assumed not to wrap around, that is, the callee-save
count plus the size of the table does not exceed `UINT_MAX`. -/
theorem C1_assigned_iff_used (c : Nat) (usedOperands : List Bool)
    (h : c + usedOperands.length ≤ UINT_MAX) (i : Nat) (hi : i < usedOperands.length) :
    ∃ a, (allocation c usedOperands)[i]? = some a
      ∧ (a ≠ UINT_MAX ↔ usedOperands[i]? = some true) := by
  have hget : usedOperands[i]? = some usedOperands[i] := List.getElem?_eq_getElem hi
  cases hb : usedOperands[i] with
  | true =>
    rw [hb] at hget
    obtain ⟨h1, h2⟩ := allocation_used c usedOperands h i hget
    exact ⟨_, h1, by simp [hget]; omega⟩
  | false =>
    rw [hb] at hget
    exact ⟨_, allocation_unused c usedOperands h i hget, by simp [hget]⟩

/-- Witness of C1 on the table of the locals 1 and 3 of four, at index 3. -/
theorem C1_assigned_iff_used_witness :
    (0 + [false, true, false, true].length ≤ UINT_MAX ∧ 3 < [false, true, false, true].length)
      ∧ ∃ a, (allocation 0 [false, true, false, true])[3]? = some a
        ∧ (a ≠ UINT_MAX ↔ [false, true, false, true][3]? = some true) :=
  ⟨⟨by decide, by decide⟩,
    C1_assigned_iff_used 0 [false, true, false, true] (by decide) 3 (by decide)⟩

/-- C2: the physical slot assignment computed by `StackLayoutPhase::run` is strictly
order-preserving: for table indices `i < j` that are both marked used,
`allocation[i] < allocation[j]`; so distinct used logical slots never share a physical slot.
The `unsigned` counter is assumed not to wrap around. -/
theorem C2_order_preserving (c : Nat) (usedOperands : List Bool)
    (h : c + usedOperands.length ≤ UINT_MAX) (i j : Nat) (hij : i < j)
    (hi : usedOperands[i]? = some true) (hj : usedOperands[j]? = some true) :
    ∃ a b, (allocation c usedOperands)[i]? = some a
      ∧ (allocation c usedOperands)[j]? = some b ∧ a < b := by
  refine ⟨_, _, (allocation_used c usedOperands h i hi).1,
    (allocation_used c usedOperands h j hj).1, ?_⟩
  have h1 := usedBefore_succ usedOperands i hi
  have h2 : usedBefore usedOperands (i + 1) ≤ usedBefore usedOperands j :=
    usedBefore_mono usedOperands hij
  omega

/-- Witness of C2 on the table of the locals 1, 3, 4, 5 and 7 of eight, at the indices 3 and 7. -/
theorem C2_order_preserving_witness :
    (0 + [false, true, false, true, true, true, false, true].length ≤ UINT_MAX ∧ 3 < 7
        ∧ [false, true, false, true, true, true, false, true][3]? = some true
        ∧ [false, true, false, true, true, true, false, true][7]? = some true)
      ∧ ∃ a b, (allocation 0 [false, true, false, true, true, true, false, true])[3]? = some a
        ∧ (allocation 0 [false, true, false, true, true, true, false, true])[7]? = some b
        ∧ a < b :=
  ⟨⟨by decide, by decide, by decide, by decide⟩,
    C2_order_preserving 0 [false, true, false, true, true, true, false, true] (by decide) 3 7
      (by decide) (by decide) (by decide)⟩

/-- C3: the allocation table is a function of the used-set and of the callee-save count `c`
alone: for every used index `i`, `allocation[i] = c + (number of used indices below i)`, and
for every unused index it is the unassigned sentinel. With the locals 1, 3, 4, 5 and 7 used
and `c = 0` the result is 1 -> 0, 3 -> 1, 4 -> 2, 5 -> 3, 7 -> 4, and the locals 0, 2 and 6 stay
unassigned. The `unsigned` counter is assumed not to wrap around. -/
theorem C3_allocation_closed_form (c : Nat) (usedOperands : List Bool)
    (h : c + usedOperands.length ≤ UINT_MAX) :
    (∀ i : Nat, usedOperands[i]? = some true →
        (allocation c usedOperands)[i]? = some (c + usedBefore usedOperands i))
      ∧ (∀ i : Nat, usedOperands[i]? = some false →
        (allocation c usedOperands)[i]? = some UINT_MAX)
      ∧ (allocation c usedOperands).length = usedOperands.length
      ∧ allocation 0 [false, true, false, true, true, true, false, true]
        = [UINT_MAX, 0, UINT_MAX, 1, 2, 3, UINT_MAX, 4] :=
  ⟨fun i hi => (allocation_used c usedOperands h i hi).1,
    fun i hi => allocation_unused c usedOperands h i hi,
    allocation_length c usedOperands, by decide⟩

/-- Witness of C3 with two callee-save slots and the locals 0 and 2 of three used. -/
theorem C3_allocation_closed_form_witness :
    2 + [true, false, true].length ≤ UINT_MAX
      ∧ (allocation 2 [true, false, true])[2]? = some (2 + usedBefore [true, false, true] 2)
      ∧ (allocation 2 [true, false, true])[1]? = some UINT_MAX :=
  ⟨by decide,
    (C3_allocation_closed_form 2 [true, false, true] (by decide)).1 2 (by decide),
    (C3_allocation_closed_form 2 [true, false, true] (by decide)).2.1 1 (by decide)⟩

/-- An entry of the allocation table is the sentinel or the index handed to a used slot. -/
theorem allocation_cases (c : Nat) (l : List Bool) (h : c + l.length ≤ UINT_MAX) (i a : Nat)
    (hi : (allocation c l)[i]? = some a) :
    (l[i]? = some false ∧ a = UINT_MAX)
      ∨ (l[i]? = some true ∧ a = c + usedBefore l i ∧ a < UINT_MAX) := by
  rw [allocation_getElem? c l h i] at hi
  cases hb : l[i]? with
  | none => rw [hb] at hi; simp at hi
  | some b =>
    rw [hb] at hi
    cases b with
    | false => left; simp at hi; exact ⟨rfl, hi.symm⟩
    | true =>
      right
      simp at hi
      have := (allocation_used c l h i hb).2
      exact ⟨rfl, hi.symm, by omega⟩

/-- Two used slots with the same physical index are the same slot. -/
theorem allocation_injective (l : List Bool) (i j : Nat)
    (hi : l[i]? = some true) (hj : l[j]? = some true)
    (he : usedBefore l i = usedBefore l j) : i = j := by
  rcases Nat.lt_trichotomy i j with hlt | heq | hgt
  · have h1 := usedBefore_succ l i hi
    have h2 : usedBefore l (i + 1) ≤ usedBefore l j := usedBefore_mono l hlt
    omega
  · exact heq
  · have h1 := usedBefore_succ l j hj
    have h2 : usedBefore l (j + 1) ≤ usedBefore l i := usedBefore_mono l hgt
    omega

/-- C4: after `StackLayoutPhase::run` the graph's `m_nextMachineLocal` equals `c + n`, where `c`
is the callee-save slot count and `n` the number of slots marked used; every assigned physical
index lies in `[c, c + n)`, every index of that range is assigned to exactly one logical slot,
and no entry of the table lies below `c`, the reserved callee-save range. The `unsigned`
counter is assumed not to wrap around. -/
theorem C4_next_machine_local (t : Target) (g g1 : Graph) (marked : Operands × Bool)
    (hm : markPhase t g = .ok marked) (hr : run t g = .ok g1)
    (h : t.calleeSaveSpace + (g.m_localVars + g.m_tmps) ≤ UINT_MAX) :
    g1.m_nextMachineLocal = t.calleeSaveSpace + usedCount marked.1.values
      ∧ (∀ i a : Nat, (allocation t.calleeSaveSpace marked.1.values)[i]? = some a →
          a ≠ UINT_MAX →
          t.calleeSaveSpace ≤ a ∧ a < t.calleeSaveSpace + usedCount marked.1.values)
      ∧ (∀ p : Nat, t.calleeSaveSpace ≤ p →
          p < t.calleeSaveSpace + usedCount marked.1.values →
          ∃! i : Nat, (allocation t.calleeSaveSpace marked.1.values)[i]? = some p)
      ∧ (∀ i a : Nat, (allocation t.calleeSaveSpace marked.1.values)[i]? = some a →
          t.calleeSaveSpace ≤ a) := by
  have hlen : t.calleeSaveSpace + marked.1.values.length ≤ UINT_MAX := by
    rw [(markPhase_shape t g marked hm).2.2]; exact h
  have hc : t.calleeSaveSpace % 4294967296 = t.calleeSaveSpace := by
    apply Nat.mod_eq_of_lt
    simp [UINT_MAX] at hlen
    omega
  refine ⟨?_, ?_, ?_, ?_⟩
  · rw [(run_variables t g g1 marked hm hr).2]
    exact nextMachineLocal_eq _ _ hlen
  · intro i a hi hne
    rcases allocation_cases _ _ hlen i a hi with ⟨_, h2⟩ | ⟨h1, h2, _⟩
    · exact absurd h2 hne
    · have := usedBefore_lt_usedCount _ i h1
      omega
  · intro p hp1 hp2
    have hcount : usedCount marked.1.values ≤ marked.1.values.length :=
      List.count_le_length _ _
    obtain ⟨i, hi, hu⟩ := allocateFrom_surjective marked.1.values t.calleeSaveSpace hlen p hp1 hp2
    have hi1 : (allocation t.calleeSaveSpace marked.1.values)[i]? = some p := by
      unfold allocation; rw [hc]; exact hi
    refine ⟨i, hi1, ?_⟩
    intro j hj
    rcases allocation_cases _ _ hlen j p hj with ⟨_, h2⟩ | ⟨h1, h2, _⟩
    · omega
    · rcases allocation_cases _ _ hlen i p hi1 with ⟨h3, _⟩ | ⟨_, h4, _⟩
      · rw [hu] at h3; simp at h3
      · exact allocation_injective _ j i h1 hu (by omega)
  · intro i a hi
    rcases allocation_cases _ _ hlen i a hi with ⟨_, h2⟩ | ⟨_, h2, _⟩
    · have hcount : 0 ≤ marked.1.values.length := Nat.zero_le _
      omega
    · omega

/-- Witness of C4 on `exampleGraph`: five slots are used, and the physical index 3 belongs to
exactly one logical slot. -/
theorem C4_next_machine_local_witness :
    (markPhase exampleTarget exampleGraph = .ok (exampleUsedOperands, true)
        ∧ run exampleTarget exampleGraph = .ok exampleResult
        ∧ exampleTarget.calleeSaveSpace + (exampleGraph.m_localVars + exampleGraph.m_tmps)
          ≤ UINT_MAX)
      ∧ exampleResult.m_nextMachineLocal = 0 + usedCount exampleUsedOperands.values
      ∧ ∃! i : Nat, (allocation 0 exampleUsedOperands.values)[i]? = some 3 :=
  ⟨⟨rfl, rfl, by decide⟩,
    (C4_next_machine_local exampleTarget exampleGraph exampleResult (exampleUsedOperands, true)
      rfl rfl (by decide)).1,
    (C4_next_machine_local exampleTarget exampleGraph exampleResult (exampleUsedOperands, true)
      rfl rfl (by decide)).2.2.1 3 (by decide) (by decide)⟩

/-- C5, as the code has it: for a `LoadVarargs`/`ForwardVarargs` record whose start operand is
the local `s` and whose limit `L` is at most `s + 1` (so that the assertion on the last
register holds), the mark phase marks the count operand and the registers
`VirtualRegister(start.offset() + i)` for `i < L`, which are the locals `s`, `s - 1`, ...,
`s - L + 1`: the local index falls as the offset rises. Exactly these entries become true on
top of those that were. -/
theorem C5_varargs_marks_locals_below_start (t : Target) (used : Operands)
    (data : LoadVarargsData) (s cnt : Nat) (h0 : used.numArguments = 0)
    (hstart : data.start = virtualRegisterForLocal s)
    (hcount : data.count = virtualRegisterForLocal cnt)
    (hL : data.limit ≤ s + 1) (hs : s < used.values.length) (hc : cnt < used.values.length)
    (h31 : used.values.length ≤ 2147483647) :
    ∃ used1, markLoadVarargs t data used = .ok used1
      ∧ Operands.SameShape used used1
      ∧ (∀ j : Nat, used1.values[j]? = some true ↔
          (used.values[j]? = some true ∨ j = cnt ∨ (s + 1 - data.limit ≤ j ∧ j ≤ s)))
      ∧ (∀ i : Nat, i < data.limit →
          VirtualRegister.mk (toInt32 (data.start.offset + i)) = virtualRegisterForLocal (s - i)
            ∧ used1.values[s - i]? = some true) := by
  have hso : data.start.offset = -1 - (s : Int) := by
    rw [hstart]; exact virtualRegisterForLocal_offset s (by omega)
  have hco : data.count = ⟨-1 - (cnt : Int)⟩ := by
    rw [hcount]
    have := virtualRegisterForLocal_offset cnt (by omega)
    cases hv : virtualRegisterForLocal cnt with
    | mk o => rw [hv] at this; simp at this; rw [this]
  have hset := setOperand_local t used cnt h0 hc (by omega)
  obtain ⟨used1, hrun, hshape, hspec⟩ :=
    markVarargsRange_spec t s data.limit { used with values := used.values.set cnt true } h0 hL
      (by simp; exact hs) (by omega)
  have hlocal : data.start.isLocal = true := by
    simp [VirtualRegister.isLocal, hso]; omega
  have hlast : (VirtualRegister.mk (toInt32 (data.start.offset + data.limit - 1))).isLocal
      = true := by
    simp only [VirtualRegister.isLocal, toInt32, hso, decide_eq_true_eq]
    omega
  have hstep : Operands.SameShape used { used with values := used.values.set cnt true } :=
    ⟨rfl, rfl, by simp⟩
  have hmarks : ∀ j : Nat, used1.values[j]? = some true ↔
      (used.values[j]? = some true ∨ j = cnt ∨ (s + 1 - data.limit ≤ j ∧ j ≤ s)) := by
    intro j
    rw [hspec j]
    simp only []
    rw [getElem?_set_true used.values cnt j hc]
    constructor
    · rintro ((h | h) | h)
      · exact Or.inl h
      · exact Or.inr (Or.inl h)
      · exact Or.inr (Or.inr h)
    · rintro (h | h | h)
      · exact Or.inl (Or.inl h)
      · exact Or.inl (Or.inr h)
      · exact Or.inr h
  refine ⟨used1, ?_, hstep.trans hshape, hmarks, ?_⟩
  · have hstart1 : data.start = ⟨-1 - (s : Int)⟩ := by
      cases hd : data.start with
      | mk o => rw [hd] at hso; simp at hso; rw [hso]
    simp only [markLoadVarargs, hco, hset, hlocal, hlast, if_true]
    rw [hstart1]
    exact hrun
  · intro i hi
    constructor
    · rw [hso]
      simp only [virtualRegisterForLocal, toInt32, VirtualRegister.mk.injEq]
      omega
    · exact (hmarks (s - i)).2 (Or.inr (Or.inr ⟨by omega, by omega⟩))

/-- Witness of C5 as the code has it: start local 5, limit 3 and count local 0 on an empty table
of eight locals mark the locals 0, 3, 4 and 5. -/
theorem C5_varargs_marks_locals_below_start_witness :
    ((Operands.create 0 8 0 false).numArguments = 0
        ∧ (3 : Nat) ≤ 5 + 1 ∧ 5 < (Operands.create 0 8 0 false).values.length
        ∧ 0 < (Operands.create 0 8 0 false).values.length
        ∧ (Operands.create 0 8 0 false).values.length ≤ 2147483647)
      ∧ ∃ used1, markLoadVarargs exampleTarget
          ⟨virtualRegisterForLocal 5, virtualRegisterForLocal 0, VirtualRegister.invalid,
            VirtualRegister.invalid, 3⟩ (Operands.create 0 8 0 false) = .ok used1
        ∧ used1.values[3]? = some true ∧ used1.values[4]? = some true
        ∧ used1.values[5]? = some true := by
  refine ⟨⟨rfl, by decide, by decide, by decide, by decide⟩, ?_⟩
  obtain ⟨used1, h1, _, _, h4⟩ := C5_varargs_marks_locals_below_start exampleTarget
    (Operands.create 0 8 0 false)
    ⟨virtualRegisterForLocal 5, virtualRegisterForLocal 0, VirtualRegister.invalid,
      VirtualRegister.invalid, 3⟩ 5 0 rfl rfl rfl (by decide) (by decide) (by decide) (by decide)
  exact ⟨used1, h1, (h4 2 (by decide)).2, (h4 1 (by decide)).2, (h4 0 (by decide)).2⟩

/-- Counterexample to C5 as stated: on `varargsGraph`, whose only instruction is a `LoadVarargs`
with start local 5 and limit 3, the mark phase marks the locals 5, 4 and 3 (and the count,
local 0); the locals 6 and 7 stay unmarked. -/
theorem C5_counterexample :
    markPhase exampleTarget varargsGraph
        = .ok (⟨0, 8, [true, false, false, true, true, true, false, false]⟩, true)
      ∧ ¬ ∃ marked, markPhase exampleTarget varargsGraph = .ok marked
          ∧ marked.1.values[5]? = some true ∧ marked.1.values[6]? = some true
          ∧ marked.1.values[7]? = some true := by
  have h : markPhase exampleTarget varargsGraph
      = .ok (⟨0, 8, [true, false, false, true, true, true, false, false]⟩, true) := rfl
  refine ⟨h, ?_⟩
  rintro ⟨marked, hm, _, h6, _⟩
  rw [h] at hm
  simp only [Except.ok.injEq] at hm
  subst hm
  simp at h6

/-! ## The resolve phase: claims C6 and C7 -/

theorem run_ok_marked (t : Target) (g g1 : Graph) (hr : run t g = .ok g1) :
    ∃ marked, markPhase t g = .ok marked := by
  unfold run at hr
  split at hr
  · simp at hr
  · rename_i marked hm
    exact ⟨marked, hm⟩

/-- The phase `run` leaves the union-find structure of the variables as it found it. -/
theorem run_find (t : Target) (g g1 : Graph) (hr : run t g = .ok g1) (i : Nat) :
    find g1.m_variableAccessData i = find g.m_variableAccessData i := by
  obtain ⟨marked, hm⟩ := run_ok_marked t g g1 hr
  have hvars := (run_variables t g g1 marked hm hr).1
  have hlen : g1.m_variableAccessData.length = g.m_variableAccessData.length := by
    rw [hvars]; simp
  have hpar : ∀ k : Nat, (g1.m_variableAccessData[k]?).map VariableAccessData.m_parent
      = (g.m_variableAccessData[k]?).map VariableAccessData.m_parent := by
    intro k
    rw [hvars, List.getElem?_map]
    cases g.m_variableAccessData[k]? with
    | none => rfl
    | some v => simp [resolvedVariable_parent]
  unfold find
  rw [hlen]
  exact findFrom_congr _ _ hpar _ i

/-- C6: after `StackLayoutPhase::run`, for every variable-access entry that is not a union-find
root, its resolved machine location (the `machineLocal()` reached through `find()`) equals the
resolved machine location of its union-find root. For an entry whose parent chain ends on the
root `r`: `find()` returns `r` before and after the phase, `r` is a root that resolves to
itself, and the location of the entry is the `m_machineLocal` of `r`. -/
theorem C6_nonroot_resolves_to_root (t : Target) (g g1 : Graph) (hr : run t g = .ok g1)
    (i r k : Nat) (v : VariableAccessData) (hv : g.m_variableAccessData[i]? = some v)
    (hnr : v.isRoot = false) (hreach : Reaches g.m_variableAccessData i r k) :
    find g.m_variableAccessData i = some r
      ∧ find g1.m_variableAccessData i = some r
      ∧ find g1.m_variableAccessData r = some r
      ∧ resolvedLocation g1.m_variableAccessData i = resolvedLocation g1.m_variableAccessData r
      ∧ ∃ v1 w1, g1.m_variableAccessData[i]? = some v1 ∧ v1.isRoot = false
          ∧ g1.m_variableAccessData[r]? = some w1 ∧ w1.isRoot = true
          ∧ resolvedLocation g1.m_variableAccessData i = some w1.m_machineLocal := by
  have hf : find g.m_variableAccessData i = some r :=
    (findFrom_iff_reaches _ _ i r).2 ⟨k, hreach.steps_lt_length, hreach⟩
  have hfi : find g1.m_variableAccessData i = some r := by rw [run_find t g g1 hr i]; exact hf
  obtain ⟨w1, hw1, hp1⟩ := findFrom_isRoot _ _ _ _ hfi
  have hfr : find g1.m_variableAccessData r = some r := find_of_isRoot _ r w1 hw1 hp1
  obtain ⟨marked, hm⟩ := run_ok_marked t g g1 hr
  have hvars := (run_variables t g g1 marked hm hr).1
  have hv1 : g1.m_variableAccessData[i]?
      = some (resolvedVariable t marked.1 (allocation t.calleeSaveSpace marked.1.values) v) := by
    rw [hvars, List.getElem?_map, hv]; rfl
  refine ⟨hf, hfi, hfr, ?_, _, w1, hv1, ?_, hw1, ?_, ?_⟩
  · simp [resolvedLocation, hfi, hfr]
  · have := resolvedVariable_parent t marked.1 (allocation t.calleeSaveSpace marked.1.values) v
    simp only [VariableAccessData.isRoot] at hnr ⊢
    rw [this]; exact hnr
  · simp [VariableAccessData.isRoot, hp1]
  · simp [resolvedLocation, hfi, hw1]

/-- Witness of C6 on `exampleGraph`: variable 1 is unified with the root variable 0, and after
the phase it resolves to the physical slot 0 handed to that root. -/
theorem C6_nonroot_resolves_to_root_witness :
    (run exampleTarget exampleGraph = .ok exampleResult
        ∧ exampleGraph.m_variableAccessData[1]?
          = some ⟨some 0, Operand.ofLocal 1, VirtualRegister.invalid, FlushFormat.FlushedJSValue⟩
        ∧ Reaches exampleGraph.m_variableAccessData 1 0 1)
      ∧ resolvedLocation exampleResult.m_variableAccessData 1
        = resolvedLocation exampleResult.m_variableAccessData 0
      ∧ resolvedLocation exampleResult.m_variableAccessData 1 = some (virtualRegisterForLocal 0) :=
  ⟨⟨rfl, rfl,
      Reaches.step 1 0 0 0 _ rfl rfl
        (Reaches.root 0
          ⟨none, Operand.ofLocal 1, VirtualRegister.invalid, FlushFormat.FlushedJSValue⟩ rfl rfl)⟩,
    (C6_nonroot_resolves_to_root exampleTarget exampleGraph exampleResult rfl 1 0 1
      ⟨some 0, Operand.ofLocal 1, VirtualRegister.invalid, FlushFormat.FlushedJSValue⟩
      rfl rfl
      (Reaches.step 1 0 0 0 _ rfl rfl
        (Reaches.root 0
          ⟨none, Operand.ofLocal 1, VirtualRegister.invalid, FlushFormat.FlushedJSValue⟩
          rfl rfl))).2.2.2.1,
    rfl⟩

/-- C7: after `StackLayoutPhase::run`, for every root entry `v` of the graph's variable-access
table: if `v`'s operand is an argument, `v.machineLocal` is that argument's own virtual
register; otherwise, if `v`'s operand index is in the table and marked used, `v.machineLocal`
is `virtualRegisterForLocal(allocation[index])`; otherwise (index outside the table, or slot
never marked used) the phase does not write `v.machineLocal`: the entry keeps the value it had,
the invalid register of a variable without machine location. The `unsigned` counter is assumed
not to wrap around. -/
theorem C7_root_machine_local (t : Target) (g g1 : Graph) (marked : Operands × Bool)
    (hm : markPhase t g = .ok marked) (hr : run t g = .ok g1)
    (h : t.calleeSaveSpace + (g.m_localVars + g.m_tmps) ≤ UINT_MAX)
    (i : Nat) (v : VariableAccessData) (hv : g.m_variableAccessData[i]? = some v)
    (hroot : v.isRoot = true) :
    ∃ v1, g1.m_variableAccessData[i]? = some v1
      ∧ v1.m_operand = v.m_operand ∧ v1.isRoot = true
      ∧ (v.m_operand.isArgument = true → v1.m_machineLocal = v.m_operand.virtualRegister)
      ∧ (v.m_operand.isArgument = false →
          marked.1.values[marked.1.operandIndex t v.m_operand]? = some true →
          ∃ a, (allocation t.calleeSaveSpace marked.1.values)[marked.1.operandIndex t v.m_operand]?
              = some a
            ∧ a ≠ UINT_MAX ∧ v1.m_machineLocal = virtualRegisterForLocal a)
      ∧ (v.m_operand.isArgument = false →
          marked.1.values[marked.1.operandIndex t v.m_operand]? ≠ some true →
          v1.m_machineLocal = v.m_machineLocal
            ∧ (v.m_machineLocal = VirtualRegister.invalid →
              v1.m_machineLocal = VirtualRegister.invalid)) := by
  have hlen : t.calleeSaveSpace + marked.1.values.length ≤ UINT_MAX := by
    rw [(markPhase_shape t g marked hm).2.2]; exact h
  have hvars := (run_variables t g g1 marked hm hr).1
  have hv1 : g1.m_variableAccessData[i]?
      = some (resolvedVariable t marked.1 (allocation t.calleeSaveSpace marked.1.values) v) := by
    rw [hvars, List.getElem?_map, hv]; rfl
  refine ⟨_, hv1, ?_, ?_, ?_, ?_, ?_⟩
  · unfold resolvedVariable
    split
    · rfl
    · split
      · rfl
      · split
        · rfl
        · split <;> rfl
  · have := resolvedVariable_parent t marked.1 (allocation t.calleeSaveSpace marked.1.values) v
    simp only [VariableAccessData.isRoot] at hroot ⊢
    rw [this]; exact hroot
  · intro harg
    simp [resolvedVariable, hroot, harg]
  · intro harg hused
    obtain ⟨h1, h2⟩ := allocation_used _ _ hlen _ hused
    refine ⟨_, h1, by omega, ?_⟩
    have hne : t.calleeSaveSpace + usedBefore marked.1.values (marked.1.operandIndex t v.m_operand)
        ≠ UINT_MAX := by omega
    simp [resolvedVariable, hroot, harg, h1, hne]
  · intro harg hunused
    have hkeep : (resolvedVariable t marked.1 (allocation t.calleeSaveSpace marked.1.values)
        v).m_machineLocal = v.m_machineLocal := by
      cases ha : (allocation t.calleeSaveSpace marked.1.values)[marked.1.operandIndex t
          v.m_operand]? with
      | none => simp [resolvedVariable, hroot, harg, ha]
      | some a =>
        rcases allocation_cases _ _ hlen _ a ha with ⟨_, h2⟩ | ⟨h1, _, _⟩
        · simp [resolvedVariable, hroot, harg, ha, h2]
        · exact absurd h1 hunused
    exact ⟨hkeep, fun hinv => by rw [hkeep, hinv]⟩

/-- Witness of C7 on `exampleGraph`: the root variable 2 is the used local 3, which gets the
physical slot 1. -/
theorem C7_root_machine_local_witness :
    (markPhase exampleTarget exampleGraph = .ok (exampleUsedOperands, true)
        ∧ run exampleTarget exampleGraph = .ok exampleResult
        ∧ exampleTarget.calleeSaveSpace + (exampleGraph.m_localVars + exampleGraph.m_tmps)
          ≤ UINT_MAX
        ∧ exampleGraph.m_variableAccessData[2]?
          = some ⟨none, Operand.ofLocal 3, VirtualRegister.invalid, FlushFormat.FlushedInt32⟩)
      ∧ ∃ v1, exampleResult.m_variableAccessData[2]? = some v1
        ∧ v1.m_machineLocal = virtualRegisterForLocal 1 := by
  refine ⟨⟨rfl, rfl, by decide, rfl⟩, ?_⟩
  obtain ⟨v1, h1, _, _, _, _, _⟩ := C7_root_machine_local exampleTarget exampleGraph
    exampleResult (exampleUsedOperands, true) rfl rfl (by decide) 2
    ⟨none, Operand.ofLocal 3, VirtualRegister.invalid, FlushFormat.FlushedInt32⟩ rfl rfl
  refine ⟨v1, h1, ?_⟩
  have h2 : exampleResult.m_variableAccessData[2]?
      = some ⟨none, Operand.ofLocal 3, virtualRegisterForLocal 1, FlushFormat.FlushedInt32⟩ := rfl
  rw [h2] at h1
  simp only [Option.some.injEq] at h1
  rw [← h1]

namespace DFG

/-! ## Heap-location keys: claims C8 to C10 -/

/-- The defaulted `operator==` holds exactly when the six members agree. -/
theorem HeapLocation.equal_iff {L : Type} (x : External L) (a b : HeapLocation L) :
    HeapLocation.equal x a b = true ↔
      (a.m_kind = b.m_kind ∧ a.m_heap = b.m_heap ∧ a.m_base = b.m_base
        ∧ x.lazyNodeEq a.m_index b.m_index = true ∧ a.m_descriptor = b.m_descriptor
        ∧ a.m_extraState = b.m_extraState) := by
  simp only [HeapLocation.equal, Bool.and_eq_true, decide_eq_true_eq]
  constructor
  · rintro ⟨⟨⟨⟨⟨h1, h2⟩, h3⟩, h4⟩, h5⟩, h6⟩
    exact ⟨h1, h2, h3, h4, h5, h6⟩
  · rintro ⟨h1, h2, h3, h4, h5, h6⟩
    exact ⟨⟨⟨⟨⟨h1, h2⟩, h3⟩, h4⟩, h5⟩, h6⟩

/-- C8: two `HeapLocation` values compare equal (`operator==` and `HeapLocationHash::equal`) if
and only if all six fields are equal: kind, abstract heap, base node identity, index (under the
`==` of `LazyNode`), descriptor node identity and the raw `extraState` pointer; changing any
single field while the others stay as they are yields an unequal key; and when the `==` of
`LazyNode` is equality of lazy nodes, keys compare equal exactly when they are the same value. -/
theorem C8_equal_iff_fields {L : Type} (x : External L) (a b : HeapLocation L) :
    (HeapLocation.equal x a b = true ↔
        (a.m_kind = b.m_kind ∧ a.m_heap = b.m_heap ∧ a.m_base = b.m_base
          ∧ x.lazyNodeEq a.m_index b.m_index = true ∧ a.m_descriptor = b.m_descriptor
          ∧ a.m_extraState = b.m_extraState))
      ∧ HeapLocationHash.equal x a b = HeapLocation.equal x a b
      ∧ (∀ kind, kind ≠ a.m_kind → HeapLocation.equal x a { a with m_kind := kind } = false)
      ∧ (∀ heap, heap ≠ a.m_heap → HeapLocation.equal x a { a with m_heap := heap } = false)
      ∧ (∀ base, base ≠ a.m_base → HeapLocation.equal x a { a with m_base := base } = false)
      ∧ (∀ index, x.lazyNodeEq a.m_index index = false →
          HeapLocation.equal x a { a with m_index := index } = false)
      ∧ (∀ descriptor, descriptor ≠ a.m_descriptor →
          HeapLocation.equal x a { a with m_descriptor := descriptor } = false)
      ∧ (∀ extraState, extraState ≠ a.m_extraState →
          HeapLocation.equal x a { a with m_extraState := extraState } = false)
      ∧ ((∀ p q, x.lazyNodeEq p q = true ↔ p = q) →
          (HeapLocation.equal x a b = true ↔ a = b)) := by
  refine ⟨HeapLocation.equal_iff x a b, rfl, ?_, ?_, ?_, ?_, ?_, ?_, ?_⟩
  · intro kind h
    rw [← Bool.not_eq_true, HeapLocation.equal_iff]
    rintro ⟨h1, _⟩
    exact h h1.symm
  · intro heap h
    rw [← Bool.not_eq_true, HeapLocation.equal_iff]
    rintro ⟨_, h1, _⟩
    exact h h1.symm
  · intro base h
    rw [← Bool.not_eq_true, HeapLocation.equal_iff]
    rintro ⟨_, _, h1, _⟩
    exact h h1.symm
  · intro index h
    rw [← Bool.not_eq_true, HeapLocation.equal_iff]
    rintro ⟨_, _, _, h1, _⟩
    simp only at h1
    rw [h] at h1
    exact Bool.false_ne_true h1
  · intro descriptor h
    rw [← Bool.not_eq_true, HeapLocation.equal_iff]
    rintro ⟨_, _, _, _, h1, _⟩
    exact h h1.symm
  · intro extraState h
    rw [← Bool.not_eq_true, HeapLocation.equal_iff]
    rintro ⟨_, _, _, _, _, h1⟩
    exact h h1.symm
  · intro hlawful
    rw [HeapLocation.equal_iff, hlawful]
    constructor
    · rintro ⟨h1, h2, h3, h4, h5, h6⟩
      cases a
      cases b
      simp only at h1 h2 h3 h4 h5 h6
      subst h1 h2 h3 h4 h5 h6
      rfl
    · intro h
      subst h
      exact ⟨rfl, rfl, rfl, rfl, rfl, rfl⟩

/-- Witness of C8: two keys that differ in the base only compare unequal, and a key compares
equal to itself. -/
theorem C8_equal_iff_fields_witness :
    HeapLocation.equal External.plain
        ⟨LocationKind.NamedPropertyLoc, ⟨3, true, 0⟩, 4096, 0, 0, 0⟩
        { (⟨LocationKind.NamedPropertyLoc, ⟨3, true, 0⟩, 4096, 0, 0, 0⟩ : HeapLocation Nat) with
          m_base := 8192 } = false
      ∧ (HeapLocation.equal External.plain
          ⟨LocationKind.NamedPropertyLoc, ⟨3, true, 0⟩, 4096, 0, 0, 0⟩
          ⟨LocationKind.NamedPropertyLoc, ⟨3, true, 0⟩, 4096, 0, 0, 0⟩ = true ↔
        (⟨LocationKind.NamedPropertyLoc, ⟨3, true, 0⟩, 4096, 0, 0, 0⟩ : HeapLocation Nat)
          = ⟨LocationKind.NamedPropertyLoc, ⟨3, true, 0⟩, 4096, 0, 0, 0⟩) :=
  ⟨(C8_equal_iff_fields External.plain
      ⟨LocationKind.NamedPropertyLoc, ⟨3, true, 0⟩, 4096, 0, 0, 0⟩
      ⟨LocationKind.NamedPropertyLoc, ⟨3, true, 0⟩, 4096, 0, 0, 0⟩).2.2.2.2.1 8192 (by decide),
    (C8_equal_iff_fields External.plain
      ⟨LocationKind.NamedPropertyLoc, ⟨3, true, 0⟩, 4096, 0, 0, 0⟩
      ⟨LocationKind.NamedPropertyLoc, ⟨3, true, 0⟩, 4096, 0, 0, 0⟩).2.2.2.2.2.2.2.2
      (fun p q => by simp [External.plain])⟩

/-- C9: `HeapLocation` hashing is consistent with equality: given that `LazyNode::hash` is
consistent with the `==` of `LazyNode` (for `AbstractHeap`, whose `==` is equality of heaps,
any hash is), `a == b` implies `a.hash() == b.hash()`, for the member functions and for
`HeapLocationHash`; in particular two keys constructed from identical (kind, heap, base, index,
descriptor, extraState), with an index equal to itself, compare equal and hash equal. -/
theorem C9_hash_consistent {L : Type} (x : External L)
    (hlazy : ∀ p q, x.lazyNodeEq p q = true → x.lazyNodeHash p = x.lazyNodeHash q) :
    (∀ a b : HeapLocation L, HeapLocation.equal x a b = true →
        HeapLocation.hash x a = HeapLocation.hash x b)
      ∧ (∀ a b : HeapLocation L, HeapLocationHash.equal x a b = true →
        HeapLocationHash.hash x a = HeapLocationHash.hash x b)
      ∧ (∀ kind heap base index descriptor extraState k1 k2,
          x.lazyNodeEq index index = true →
          HeapLocation.create x kind heap base index descriptor extraState = some k1 →
          HeapLocation.create x kind heap base index descriptor extraState = some k2 →
          HeapLocation.equal x k1 k2 = true ∧ HeapLocation.hash x k1 = HeapLocation.hash x k2) := by
  have hmain : ∀ a b : HeapLocation L, HeapLocation.equal x a b = true →
      HeapLocation.hash x a = HeapLocation.hash x b := by
    intro a b h
    obtain ⟨h1, h2, h3, h4, h5, h6⟩ := (HeapLocation.equal_iff x a b).1 h
    simp only [HeapLocation.hash, h1, h2, h3, hlazy _ _ h4, h5, h6]
  refine ⟨hmain, hmain, ?_⟩
  intro kind heap base index descriptor extraState k1 k2 hrefl h1 h2
  have he : HeapLocation.equal x k1 k2 = true := by
    unfold HeapLocation.create at h1 h2
    split at h1
    · rename_i hpass
      rw [if_pos hpass] at h2
      simp only [Option.some.injEq] at h1 h2
      subst h1 h2
      exact (HeapLocation.equal_iff x _ _).2 ⟨rfl, rfl, rfl, hrefl, rfl, rfl⟩
    · simp at h1
  exact ⟨he, hmain k1 k2 he⟩

/-- Witness of C9 with the plain external operations: a key built twice from the same arguments
compares equal and hashes equal. -/
theorem C9_hash_consistent_witness :
    (∀ p q, External.plain.lazyNodeEq p q = true →
        External.plain.lazyNodeHash p = External.plain.lazyNodeHash q)
      ∧ HeapLocation.equal External.plain
          ⟨LocationKind.NamedPropertyLoc, ⟨3, true, 0⟩, 4096, 12, 0, 0⟩
          ⟨LocationKind.NamedPropertyLoc, ⟨3, true, 0⟩, 4096, 12, 0, 0⟩ = true
      ∧ HeapLocation.hash External.plain
          ⟨LocationKind.NamedPropertyLoc, ⟨3, true, 0⟩, 4096, 12, 0, 0⟩
        = HeapLocation.hash External.plain
          ⟨LocationKind.NamedPropertyLoc, ⟨3, true, 0⟩, 4096, 12, 0, 0⟩ :=
  ⟨fun p q h => by simp [External.plain] at h ⊢; rw [h],
    ((C9_hash_consistent External.plain
        (fun p q h => by simp [External.plain] at h ⊢; rw [h])).2.2
      LocationKind.NamedPropertyLoc ⟨3, true, 0⟩ 4096 12 0 0 _ _ (by decide) rfl rfl).1,
    ((C9_hash_consistent External.plain
        (fun p q h => by simp [External.plain] at h ⊢; rw [h])).2.2
      LocationKind.NamedPropertyLoc ⟨3, true, 0⟩ 4096 12 0 0 _ _ (by decide) rfl rfl).2⟩

/-- C10, as the code has it: for every `HeapLocation` the main constructor builds with its
assertions passing, `kind() == InvalidLocationKind` holds if and only if the heap is the empty
heap (`!heap`); the default constructor (whose assertions pass when the default `LazyNode` is
null) gives kind `Invalid` with the empty heap. The hash-table-deleted value has kind `Invalid`
too, but its heap is the deleted marker, which is not the empty heap: `!` is false for it. -/
theorem C10_invalid_kind_iff_empty_heap {L : Type} (x : External L)
    (hnull : x.lazyNodeIsNull x.nullLazyNode = true) :
    (∀ kind heap base index descriptor extraState k,
        HeapLocation.create x kind heap base index descriptor extraState = some k →
        (k.kind = LocationKind.InvalidLocationKind ↔ k.isEmpty = true))
      ∧ (∃ k, HeapLocation.createDefault x = some k
          ∧ k.kind = LocationKind.InvalidLocationKind ∧ k.isEmpty = true)
      ∧ ((HeapLocation.deletedValue x).kind = LocationKind.InvalidLocationKind
          ∧ (HeapLocation.deletedValue x).isEmpty = false
          ∧ (HeapLocation.deletedValue x).isHashTableDeletedValue = true) := by
  refine ⟨?_, ?_, rfl, rfl, rfl⟩
  · intro kind heap base index descriptor extraState k h
    unfold HeapLocation.create at h
    split at h
    · rename_i hpass
      simp only [Option.some.injEq] at h
      subst h
      simp only [HeapLocation.assertionsPass, Bool.and_eq_true, beq_iff_eq] at hpass
      obtain ⟨⟨h1, _⟩, _⟩ := hpass
      simp only [HeapLocation.kind, HeapLocation.isEmpty]
      rw [← h1]
      simp
    · simp at h
  · refine ⟨⟨LocationKind.InvalidLocationKind, AbstractHeap.empty, 0, x.nullLazyNode, 0, 0⟩,
      ?_, rfl, rfl⟩
    simp [HeapLocation.createDefault, HeapLocation.create, HeapLocation.assertionsPass,
      AbstractHeap.isEmpty, AbstractHeap.empty, hnull]

/-- Witness of C10 as the code has it, with the plain external operations: a named-property key
on a heap that is not empty. -/
theorem C10_invalid_kind_iff_empty_heap_witness :
    External.plain.lazyNodeIsNull External.plain.nullLazyNode = true
      ∧ ∃ k, HeapLocation.create External.plain LocationKind.NamedPropertyLoc ⟨3, true, 0⟩
            4096 0 0 0 = some k
          ∧ (k.kind = LocationKind.InvalidLocationKind ↔ k.isEmpty = true) :=
  ⟨rfl, ⟨LocationKind.NamedPropertyLoc, ⟨3, true, 0⟩, 4096, 0, 0, 0⟩, rfl,
    (C10_invalid_kind_iff_empty_heap External.plain rfl).1
      LocationKind.NamedPropertyLoc ⟨3, true, 0⟩ 4096 0 0 0 _ rfl⟩

/-- Counterexample to C10 as stated: the key `HeapLocation(WTF::HashTableDeletedValue)` has
kind `InvalidLocationKind`, yet its heap is not the empty heap. -/
theorem C10_counterexample :
    ¬ ((HeapLocation.deletedValue External.plain).kind = LocationKind.InvalidLocationKind ↔
        (HeapLocation.deletedValue External.plain).isEmpty = true) := by
  decide

end DFG

namespace DFG

/-! ## Heap-location keys: claims C11 to C14 -/

/-- The assertions of the main constructor are the optional-dependency chain. -/
theorem HeapLocation.assertionsPass_iff {L : Type} (x : External L) (kind : LocationKind)
    (heap : AbstractHeap) (base : Nat) (index : L) (descriptor extraState : Nat) :
    HeapLocation.assertionsPass x kind heap base index descriptor extraState = true ↔
      HeapLocation.DependencyChain x kind heap base index descriptor extraState := by
  unfold HeapLocation.assertionsPass HeapLocation.DependencyChain
  cases hh : heap.isEmpty <;> cases hi : x.lazyNodeIsNull index <;>
    by_cases hk : kind = LocationKind.InvalidLocationKind <;>
    by_cases hb : base = 0 <;> by_cases hd : descriptor = 0 <;>
    by_cases he : extraState = 0 <;> simp [hk, hb, hd, he]

/-- A key the main constructor returns carries the arguments it was given, which pass the
assertions. -/
theorem HeapLocation.create_some {L : Type} (x : External L) (kind : LocationKind)
    (heap : AbstractHeap) (base : Nat) (index : L) (descriptor extraState : Nat)
    (k : HeapLocation L)
    (h : HeapLocation.create x kind heap base index descriptor extraState = some k) :
    k = ⟨kind, heap, base, index, descriptor, extraState⟩
      ∧ HeapLocation.assertionsPass x kind heap base index descriptor extraState = true := by
  unfold HeapLocation.create at h
  split at h
  · rename_i hpass
    simp only [Option.some.injEq] at h
    exact ⟨h.symm, hpass⟩
  · simp at h

/-- Masking with `NodeResultMask` keeps exactly the values below eight. -/
theorem and_NodeResultMask (n : Nat) : (n &&& NodeResultMask = n) ↔ n < 8 := by
  have h : n &&& NodeResultMask = n % 8 := by
    have := Nat.and_pow_two_sub_one_eq_mod n 3
    simpa [NodeResultMask] using this
  rw [h]
  omega

end DFG

namespace DFG

/-- C11: the assertions of the main `HeapLocation` constructor pass if and only if the arguments
satisfy the optional-dependency chain: `(kind == InvalidLocationKind)` equals heap-is-empty, a
non-null base implies a non-empty heap, and a non-empty index, a non-null descriptor or a
non-null `extraState` implies a non-null base; every `HeapLocation` constructed through any of
the four overloads satisfies the chain, and the default-constructed `HeapLocation` (with a
default `LazyNode` that is null) satisfies it with all fields empty. -/
theorem C11_constructor_enforces_chain {L : Type} (x : External L)
    (hnull : x.lazyNodeIsNull x.nullLazyNode = true) :
    (∀ kind heap base index descriptor extraState,
        (HeapLocation.create x kind heap base index descriptor extraState).isSome = true ↔
          HeapLocation.DependencyChain x kind heap base index descriptor extraState)
      ∧ (∀ kind heap base index descriptor extraState k,
          HeapLocation.create x kind heap base index descriptor extraState = some k →
          HeapLocation.SatisfiesChain x k)
      ∧ (∀ kind heap base index descriptor k,
          HeapLocation.createFromNodes x kind heap base index descriptor = some k →
          HeapLocation.SatisfiesChain x k)
      ∧ (∀ kind heap base index descriptor k,
          HeapLocation.createFromEdges x kind heap base index descriptor = some k →
          HeapLocation.SatisfiesChain x k)
      ∧ (∀ kind heap base extraState k,
          HeapLocation.createWithExtraState x kind heap base extraState = some k →
          HeapLocation.SatisfiesChain x k)
      ∧ HeapLocation.createDefault x
          = some ⟨LocationKind.InvalidLocationKind, AbstractHeap.empty, 0, x.nullLazyNode, 0, 0⟩
      ∧ HeapLocation.SatisfiesChain x
          ⟨LocationKind.InvalidLocationKind, AbstractHeap.empty, 0, x.nullLazyNode, 0, 0⟩ := by
  have hmain : ∀ kind heap base index descriptor extraState k,
      HeapLocation.create x kind heap base index descriptor extraState = some k →
      HeapLocation.SatisfiesChain x k := by
    intro kind heap base index descriptor extraState k h
    obtain ⟨hk, hpass⟩ := HeapLocation.create_some x _ _ _ _ _ _ k h
    subst hk
    exact (HeapLocation.assertionsPass_iff x _ _ _ _ _ _).1 hpass
  have hpass : HeapLocation.assertionsPass x LocationKind.InvalidLocationKind AbstractHeap.empty
      0 x.nullLazyNode 0 0 = true := by
    simp [HeapLocation.assertionsPass, AbstractHeap.isEmpty, AbstractHeap.empty, hnull]
  refine ⟨?_, hmain, ?_, ?_, ?_, ?_, ?_⟩
  · intro kind heap base index descriptor extraState
    rw [← HeapLocation.assertionsPass_iff]
    unfold HeapLocation.create
    split <;> simp_all
  · intro kind heap base index descriptor k h
    exact hmain _ _ _ _ _ _ k h
  · intro kind heap base index descriptor k h
    exact hmain _ _ _ _ _ _ k h
  · intro kind heap base extraState k h
    exact hmain _ _ _ _ _ _ k h
  · simp [HeapLocation.createDefault, HeapLocation.create, hpass]
  · exact (HeapLocation.assertionsPass_iff x _ _ _ _ _ _).1 hpass

/-- Witness of C11 with the plain external operations: a named-property key with a base and an
index satisfies the chain, and a key with an index but no base is refused. -/
theorem C11_constructor_enforces_chain_witness :
    External.plain.lazyNodeIsNull External.plain.nullLazyNode = true
      ∧ HeapLocation.SatisfiesChain External.plain
          ⟨LocationKind.NamedPropertyLoc, ⟨3, true, 0⟩, 4096, 12, 0, 0⟩
      ∧ ¬ HeapLocation.DependencyChain External.plain LocationKind.NamedPropertyLoc
          ⟨3, true, 0⟩ 0 12 0 0 :=
  ⟨rfl,
    (C11_constructor_enforces_chain External.plain rfl).2.1
      LocationKind.NamedPropertyLoc ⟨3, true, 0⟩ 4096 12 0 0 _ rfl,
    fun h => by
      have := ((C11_constructor_enforces_chain External.plain rfl).1
        LocationKind.NamedPropertyLoc ⟨3, true, 0⟩ 0 12 0 0).2 h
      exact absurd this (by decide)⟩

/-- C13: `indexedPropertyLocForResultType` maps `NodeResultDouble` to `IndexedPropertyDoubleLoc`,
`NodeResultInt32` to `IndexedPropertyInt32Loc`, `NodeResultInt52` to `IndexedPropertyInt52Loc`,
`NodeResultJS` and the zero representation to `IndexedPropertyJSLoc`; it returns a kind for no
other input, and it stops on a fatal `RELEASE_ASSERT` exactly when the input is
`NodeResultStorage` or any other non-zero representation outside those four. In a build with
`ASSERT` compiled in, an input with bits outside `NodeResultMask` is stopped by the assertion
of line 193 before it reaches the `RELEASE_ASSERT`. -/
theorem C13_result_type_kind (assertionsEnabled : Bool) (rep : Nat) :
    indexedPropertyLocForResultType assertionsEnabled NodeResultDouble
        = .ok LocationKind.IndexedPropertyDoubleLoc
      ∧ indexedPropertyLocForResultType assertionsEnabled NodeResultInt32
        = .ok LocationKind.IndexedPropertyInt32Loc
      ∧ indexedPropertyLocForResultType assertionsEnabled NodeResultInt52
        = .ok LocationKind.IndexedPropertyInt52Loc
      ∧ indexedPropertyLocForResultType assertionsEnabled NodeResultJS
        = .ok LocationKind.IndexedPropertyJSLoc
      ∧ indexedPropertyLocForResultType assertionsEnabled 0
        = .ok LocationKind.IndexedPropertyJSLoc
      ∧ ((∃ kind, indexedPropertyLocForResultType assertionsEnabled rep = .ok kind) ↔
          (rep = 0 ∨ rep = NodeResultDouble ∨ rep = NodeResultInt32 ∨ rep = NodeResultInt52
            ∨ rep = NodeResultJS))
      ∧ (indexedPropertyLocForResultType false rep = .error Fault.releaseAssert ↔
          ¬ (rep = 0 ∨ rep = NodeResultDouble ∨ rep = NodeResultInt32 ∨ rep = NodeResultInt52
            ∨ rep = NodeResultJS))
      ∧ (indexedPropertyLocForResultType true rep = .error Fault.releaseAssert ↔
          (rep = NodeResultStorage ∨ rep = NodeResultNumber ∨ rep = NodeResultBoolean))
      ∧ (indexedPropertyLocForResultType true rep = .error Fault.assertion ↔ 8 ≤ rep) := by
  have hmask := and_NodeResultMask rep
  refine ⟨by cases assertionsEnabled <;> rfl, by cases assertionsEnabled <;> rfl,
    by cases assertionsEnabled <;> rfl, by cases assertionsEnabled <;> rfl,
    by cases assertionsEnabled <;> rfl, ?_, ?_, ?_, ?_⟩
  · by_cases h8 : rep < 8
    · have hm : rep &&& 7 = rep := hmask.2 h8
      interval_cases rep <;> cases assertionsEnabled <;>
        simp [indexedPropertyLocForResultType, NodeResultDouble, NodeResultInt32,
          NodeResultInt52, NodeResultJS, NodeResultStorage, NodeResultMask, hm]
    · have hm : ¬ (rep &&& NodeResultMask = rep) := fun h => h8 (hmask.1 h)
      have h0 : rep ≠ 0 := by omega
      have h1 : rep ≠ 1 := by omega
      have h3 : rep ≠ 3 := by omega
      have h4 : rep ≠ 4 := by omega
      have h5 : rep ≠ 5 := by omega
      have h7 : rep ≠ 7 := by omega
      cases assertionsEnabled <;>
        simp [indexedPropertyLocForResultType, NodeResultDouble, NodeResultInt32,
          NodeResultInt52, NodeResultJS, NodeResultStorage, hm, h0, h1, h3, h4, h5, h7]
  · by_cases h8 : rep < 8
    · interval_cases rep <;>
        simp [indexedPropertyLocForResultType, NodeResultDouble, NodeResultInt32,
          NodeResultInt52, NodeResultJS, NodeResultStorage, NodeResultMask]
    · have h0 : rep ≠ 0 := by omega
      have h1 : rep ≠ 1 := by omega
      have h3 : rep ≠ 3 := by omega
      have h4 : rep ≠ 4 := by omega
      have h5 : rep ≠ 5 := by omega
      have h7 : rep ≠ 7 := by omega
      simp [indexedPropertyLocForResultType, NodeResultDouble, NodeResultInt32,
        NodeResultInt52, NodeResultJS, NodeResultStorage, h0, h1, h3, h4, h5, h7]
  · by_cases h8 : rep < 8
    · have hm : rep &&& 7 = rep := hmask.2 h8
      interval_cases rep <;>
        simp [indexedPropertyLocForResultType, NodeResultDouble, NodeResultInt32,
          NodeResultInt52, NodeResultJS, NodeResultStorage, NodeResultNumber,
          NodeResultBoolean, NodeResultMask, hm]
    · have hm : ¬ (rep &&& NodeResultMask = rep) := fun h => h8 (hmask.1 h)
      have h0 : rep ≠ 0 := by omega
      have h2 : rep ≠ 2 := by omega
      have h6 : rep ≠ 6 := by omega
      have h7 : rep ≠ 7 := by omega
      simp [indexedPropertyLocForResultType, NodeResultStorage, NodeResultNumber,
        NodeResultBoolean, hm, h0, h2, h6, h7]
  · by_cases h8 : rep < 8
    · have hm : rep &&& 7 = rep := hmask.2 h8
      have hn : ¬ 8 ≤ rep := by omega
      interval_cases rep <;>
        simp [indexedPropertyLocForResultType, NodeResultDouble, NodeResultInt32,
          NodeResultInt52, NodeResultJS, NodeResultStorage, NodeResultMask, hm]
    · have hm : ¬ (rep &&& NodeResultMask = rep) := fun h => h8 (hmask.1 h)
      have h0 : rep ≠ 0 := by omega
      have hge : 8 ≤ rep := by omega
      simp [indexedPropertyLocForResultType, hm, h0, hge]

/-- C14: `indexedPropertyLocToOutOfBoundsSaneChain` returns the out-of-bounds sane-chain variant
for the inputs `IndexedPropertyInt32Loc`, `IndexedPropertyInt52Loc`, `IndexedPropertyDoubleLoc`
and `IndexedPropertyJSLoc`, and for every other `LocationKind` (for example `NamedPropertyLoc`)
it is a fatal internal error: it returns no fallback value. -/
theorem C14_out_of_bounds_sane_chain (location : LocationKind) :
    indexedPropertyLocToOutOfBoundsSaneChain LocationKind.IndexedPropertyInt32Loc
        = .ok LocationKind.IndexedPropertyInt32OutOfBoundsSaneChainLoc
      ∧ indexedPropertyLocToOutOfBoundsSaneChain LocationKind.IndexedPropertyInt52Loc
        = .ok LocationKind.IndexedPropertyInt52OutOfBoundsSaneChainLoc
      ∧ indexedPropertyLocToOutOfBoundsSaneChain LocationKind.IndexedPropertyDoubleLoc
        = .ok LocationKind.IndexedPropertyDoubleOutOfBoundsSaneChainLoc
      ∧ indexedPropertyLocToOutOfBoundsSaneChain LocationKind.IndexedPropertyJSLoc
        = .ok LocationKind.IndexedPropertyJSOutOfBoundsSaneChainLoc
      ∧ indexedPropertyLocToOutOfBoundsSaneChain LocationKind.NamedPropertyLoc
        = .error Fault.releaseAssert
      ∧ ((location ≠ LocationKind.IndexedPropertyInt32Loc
            ∧ location ≠ LocationKind.IndexedPropertyInt52Loc
            ∧ location ≠ LocationKind.IndexedPropertyDoubleLoc
            ∧ location ≠ LocationKind.IndexedPropertyJSLoc) ↔
          indexedPropertyLocToOutOfBoundsSaneChain location = .error Fault.releaseAssert) := by
  refine ⟨rfl, rfl, rfl, rfl, rfl, ?_⟩
  cases location <;> simp [indexedPropertyLocToOutOfBoundsSaneChain]

end DFG

/-! ## The resolve phase after the variables -/

/-- What `run` is made of: the graph it returns is the input graph with the results of the five
resolve steps and the final counter stored in it. -/
theorem run_layOut (t : Target) (g g1 : Graph) (marked : Operands × Bool)
    (hm : markPhase t g = .ok marked) (hr : run t g = .ok g1) :
    ∃ vars stack scope frames varargs,
      resolveVariables t marked.1 (allocation t.calleeSaveSpace marked.1.values)
          g.m_variableAccessData = .ok vars
        ∧ resolveStackAccesses t marked.1 (allocation t.calleeSaveSpace marked.1.values)
          g.m_stackAccessData = .ok stack
        ∧ resolveScopeRegister t marked.1 (allocation t.calleeSaveSpace marked.1.values) g
          = .ok scope
        ∧ resolveInlineVariableData t marked.1 (allocation t.calleeSaveSpace marked.1.values)
          vars g.m_argumentPositions g.m_inlineVariableData g.inlineCallFrames = .ok frames
        ∧ fixupVarargs t marked.1 (allocation t.calleeSaveSpace marked.1.values) g marked.2
          = .ok varargs
        ∧ g1 = { g with
                 m_variableAccessData := vars
                 m_stackAccessData := stack
                 scopeRegister := scope
                 inlineCallFrames := frames
                 m_loadVarargsData := varargs
                 m_nextMachineLocal := nextMachineLocal t.calleeSaveSpace marked.1.values } := by
  unfold run at hr
  rw [hm] at hr
  simp only [layOut] at hr
  split at hr
  · simp at hr
  · rename_i vars hvars
    split at hr
    · simp at hr
    · rename_i stack hstack
      split at hr
      · simp at hr
      · rename_i scope hscope
        split at hr
        · simp at hr
        · rename_i frames hframes
          split at hr
          · simp at hr
          · rename_i varargs hvarargs
            simp only [Except.ok.injEq] at hr
            exact ⟨vars, stack, scope, frames, varargs, hvars, hstack, hscope, hframes,
              hvarargs, hr.symm⟩

/-- The loop over the stack-access records rewrites each record on its own. -/
theorem resolveStackAccesses_getElem? (t : Target) (usedOperands : Operands) (alloc : List Nat)
    (l l1 : List StackAccessData) (h : resolveStackAccesses t usedOperands alloc l = .ok l1) :
    l1.length = l.length
      ∧ ∀ (i : Nat) (d : StackAccessData), l[i]? = some d →
          ∃ d1, l1[i]? = some d1 ∧ resolveStackAccess t usedOperands alloc d = .ok d1 := by
  induction l generalizing l1 with
  | nil =>
    simp only [resolveStackAccesses, Except.ok.injEq] at h
    subst h
    exact ⟨rfl, fun i d hd => by simp at hd⟩
  | cons a rest ih =>
    unfold resolveStackAccesses at h
    split at h
    · simp at h
    · rename_i a1 ha
      split at h
      · simp at h
      · rename_i rest1 hrest
        simp only [Except.ok.injEq] at h
        subst h
        obtain ⟨hlen, hget⟩ := ih rest1 hrest
        refine ⟨by simp [hlen], ?_⟩
        intro i d hd
        cases i with
        | zero =>
          simp only [List.getElem?_cons_zero, Option.some.injEq] at hd
          subst hd
          exact ⟨a1, by simp, ha⟩
        | succ j =>
          simp only [List.getElem?_cons_succ] at hd
          obtain ⟨d1, h1, h2⟩ := hget j d hd
          exact ⟨d1, by simpa using h1, h2⟩

theorem Operand.isArgument_of_isLocal (o : Operand) (h : o.isLocal = true) :
    o.isArgument = false := by
  simp only [Operand.isLocal, Bool.and_eq_true, decide_eq_true_eq] at h
  simp [Operand.isArgument, h.1]

/-! ## The loop over the inline-variable records -/

/-- The loop over the argument positions of a frame: it keeps the length of the list, stores
the recovery of position `k` at every index `k` it visits and leaves the others alone. -/
theorem resolveFrameArguments_spec (vars : List VariableAccessData)
    (positions : List ArgumentPosition) (start n : Nat) (recs recs1 : List ValueRecovery)
    (h : resolveFrameArguments vars positions start n recs = .ok recs1) :
    recs1.length = recs.length
      ∧ (∀ k : Nat, k < n → k < recs.length →
          ∃ r, argumentRecovery vars positions ((start + k) % 4294967296) = .ok r
            ∧ recs1[k]? = some r)
      ∧ (∀ k : Nat, n ≤ k → recs1[k]? = recs[k]?) := by
  induction n generalizing recs with
  | zero =>
    simp only [resolveFrameArguments, Except.ok.injEq] at h
    subst h
    exact ⟨rfl, fun k hk => by omega, fun k _ => rfl⟩
  | succ m ih =>
    unfold resolveFrameArguments at h
    split at h
    · simp at h
    · rename_i r hr
      obtain ⟨hlen, hlow, hhigh⟩ := ih (recs.set m r) h
      refine ⟨by simpa using hlen, ?_, ?_⟩
      · intro k hk hk2
        rcases Nat.lt_or_ge k m with hlt | hge
        · exact hlow k hlt (by simpa using hk2)
        · have hkm : k = m := by omega
          subst hkm
          refine ⟨r, hr, ?_⟩
          rw [hhigh k (Nat.le_refl k)]
          simp [hk2]
      · intro k hk
        rw [hhigh k (by omega)]
        exact List.getElem?_set_ne (by omega)

/-- What the body of the loop over the inline-variable records leaves in the frame. -/
theorem resolveInlineCallFrame_spec (t : Target) (usedOperands : Operands) (alloc : List Nat)
    (vars : List VariableAccessData) (positions : List ArgumentPosition)
    (data : InlineVariableData) (frame frame1 : InlineCallFrame)
    (h : resolveInlineCallFrame t usedOperands alloc vars positions data frame = .ok frame1) :
    frame1.isVarargs = frame.isVarargs ∧ frame1.stackOffset = frame.stackOffset
      ∧ frame1.isClosureCall = frame.isClosureCall
      ∧ (frame.isVarargs = true →
          assign t usedOperands alloc (Operand.ofVirtualRegister
            ⟨toInt32 (frame.stackOffset + t.argumentCountIncludingThis)⟩)
            = .ok frame1.argumentCountRegister)
      ∧ (frame.isVarargs = false → frame1.argumentCountRegister = frame.argumentCountRegister)
      ∧ resolveFrameArguments vars positions data.argumentPositionStart
          frame.m_argumentsWithFixup.length frame.m_argumentsWithFixup
          = .ok frame1.m_argumentsWithFixup
      ∧ resolveCallee vars data frame = .ok frame1.calleeRecovery := by
  unfold resolveInlineCallFrame at h
  split at h
  · simp at h
  · rename_i countRegister hcount
    split at h
    · simp at h
    · rename_i recoveries hrec
      split at h
      · simp at h
      · rename_i callee hcallee
        simp only [Except.ok.injEq] at h
        subst h
        refine ⟨rfl, rfl, rfl, ?_, ?_, hrec, hcallee⟩
        · intro hv
          simp only [hv, if_true] at hcount
          exact hcount
        · intro hv
          simp only [hv, Bool.false_eq_true, if_false, Except.ok.injEq] at hcount
          exact hcount.symm

/-- The loop over the inline-variable records: a frame no record points to is left alone, and
the members the loop does not write stay as they are in every frame. -/
theorem resolveInlineVariableData_frames (t : Target) (usedOperands : Operands)
    (alloc : List Nat) (vars : List VariableAccessData) (positions : List ArgumentPosition)
    (records : List InlineVariableData) (frames frames1 : List InlineCallFrame)
    (h : resolveInlineVariableData t usedOperands alloc vars positions records frames
      = .ok frames1) :
    frames1.length = frames.length
      ∧ ∀ (idx : Nat) (f0 : InlineCallFrame), frames[idx]? = some f0 →
          ∃ f1, frames1[idx]? = some f1
            ∧ f1.isVarargs = f0.isVarargs ∧ f1.stackOffset = f0.stackOffset
            ∧ f1.m_argumentsWithFixup.length = f0.m_argumentsWithFixup.length
            ∧ ((∀ data ∈ records, data.inlineCallFrame ≠ idx) → f1 = f0)
            ∧ ((∃ data ∈ records, data.inlineCallFrame = idx) →
                (f0.isVarargs = true →
                  assign t usedOperands alloc (Operand.ofVirtualRegister
                    ⟨toInt32 (f0.stackOffset + t.argumentCountIncludingThis)⟩)
                    = .ok f1.argumentCountRegister)
                ∧ (f0.isVarargs = false →
                  f1.argumentCountRegister = f0.argumentCountRegister)) := by
  induction records generalizing frames1 with
  | nil =>
    simp only [resolveInlineVariableData, Except.ok.injEq] at h
    subst h
    refine ⟨rfl, fun idx f0 hf0 => ⟨f0, hf0, rfl, rfl, rfl, fun _ => rfl, ?_⟩⟩
    rintro ⟨data, hd, _⟩
    simp at hd
  | cons d rest ih =>
    unfold resolveInlineVariableData at h
    split at h
    · simp at h
    · rename_i framesR hR
      split at h
      · simp at h
      · rename_i frame hframe
        split at h
        · simp at h
        · rename_i frameD hD
          simp only [Except.ok.injEq] at h
          subst h
          obtain ⟨hlen, hall⟩ := ih framesR hR
          have hspec := resolveInlineCallFrame_spec t usedOperands alloc vars positions d
            frame frameD hD
          have hargs := (resolveFrameArguments_spec vars positions _ _ _ _ hspec.2.2.2.2.2.1).1
          refine ⟨by simp [hlen], ?_⟩
          intro idx f0 hf0
          obtain ⟨fR, hfR, hv, hs, hl, hsame, hcount⟩ := hall idx f0 hf0
          by_cases hidx : d.inlineCallFrame = idx
          · subst hidx
            rw [hfR] at hframe
            simp only [Option.some.injEq] at hframe
            subst hframe
            have hin : d.inlineCallFrame < framesR.length := by
              rcases Nat.lt_or_ge d.inlineCallFrame framesR.length with h1 | h1
              · exact h1
              · have hn : framesR[d.inlineCallFrame]? = none := List.getElem?_eq_none h1
                rw [hn] at hfR; simp at hfR
            refine ⟨frameD, by simp [hin], hspec.1.trans hv, hspec.2.1.trans hs,
              hargs.trans hl, ?_, ?_⟩
            · intro hno
              exact absurd rfl (hno d (List.mem_cons_self _ _))
            · intro _
              constructor
              · intro hvar
                have := hspec.2.2.2.1 (hv.trans hvar)
                rw [hs] at this
                exact this
              · intro hvar
                have h1 := hspec.2.2.2.2.1 (hv.trans hvar)
                by_cases hex : ∃ data ∈ rest, data.inlineCallFrame = d.inlineCallFrame
                · exact h1.trans ((hcount hex).2 hvar)
                · have hno : ∀ data ∈ rest, data.inlineCallFrame ≠ d.inlineCallFrame :=
                    fun data hd he => hex ⟨data, hd, he⟩
                  rw [h1, hsame hno]
          · refine ⟨fR, ?_, hv, hs, hl, ?_, ?_⟩
            · rw [List.getElem?_set_ne hidx]; exact hfR
            · intro hno
              exact hsame (fun data hd => hno data (List.mem_cons_of_mem _ hd))
            · rintro ⟨data, hd, he⟩
              rcases List.mem_cons.1 hd with h1 | h1
              · subst h1
                exact absurd he hidx
              · exact hcount ⟨data, h1, he⟩

/-- When no two records point to the same frame, the frame of a record is after the loop what
the body of the loop makes of the frame it had before. -/
theorem resolveInlineVariableData_record (t : Target) (usedOperands : Operands)
    (alloc : List Nat) (vars : List VariableAccessData) (positions : List ArgumentPosition)
    (records : List InlineVariableData) (frames frames1 : List InlineCallFrame)
    (h : resolveInlineVariableData t usedOperands alloc vars positions records frames
      = .ok frames1)
    (hnodup : (records.map InlineVariableData.inlineCallFrame).Nodup)
    (data : InlineVariableData) (hdata : data ∈ records) (f0 : InlineCallFrame)
    (hf0 : frames[data.inlineCallFrame]? = some f0) :
    ∃ f1, frames1[data.inlineCallFrame]? = some f1
      ∧ resolveInlineCallFrame t usedOperands alloc vars positions data f0 = .ok f1 := by
  induction records generalizing frames1 with
  | nil => simp at hdata
  | cons d rest ih =>
    unfold resolveInlineVariableData at h
    split at h
    · simp at h
    · rename_i framesR hR
      split at h
      · simp at h
      · rename_i frame hframe
        split at h
        · simp at h
        · rename_i frameD hD
          simp only [Except.ok.injEq] at h
          subst h
          simp only [List.map_cons, List.nodup_cons, List.mem_map, not_exists, not_and]
            at hnodup
          obtain ⟨hnot, hrest⟩ := hnodup
          rcases List.mem_cons.1 hdata with h1 | h1
          · subst h1
            obtain ⟨fR, hfR, _, _, _, hsame, _⟩ :=
              (resolveInlineVariableData_frames t usedOperands alloc vars positions rest
                frames framesR hR).2 data.inlineCallFrame f0 hf0
            have hfR0 : fR = f0 := hsame (fun other ho he => hnot other ho he)
            subst hfR0
            rw [hfR] at hframe
            simp only [Option.some.injEq] at hframe
            subst hframe
            have hin : data.inlineCallFrame < framesR.length := by
              rcases Nat.lt_or_ge data.inlineCallFrame framesR.length with h2 | h2
              · exact h2
              · have hn : framesR[data.inlineCallFrame]? = none := List.getElem?_eq_none h2
                rw [hn] at hfR; simp at hfR
            exact ⟨frameD, by simp [hin], hD⟩
          · obtain ⟨f1, hf1, hres⟩ := ih framesR hR hrest h1
            have hne : d.inlineCallFrame ≠ data.inlineCallFrame :=
              fun he => hnot data h1 he.symm
            exact ⟨f1, by rw [List.getElem?_set_ne hne]; exact hf1, hres⟩

/-! ## The mark phase meets its specification -/

theorem initialOperands_shaped (g : Graph) : Shaped g (initialOperands g) := by
  simp [Shaped, initialOperands, Operands.create]

theorem Shaped.operandIndex {g : Graph} {used : Operands} (h : Shaped g used) (t : Target)
    (o : Operand) : used.operandIndex t o = slotOf t g o := by
  obtain ⟨h1, h2, _⟩ := h
  simp [slotOf, initialOperands, Operands.create, Operands.operandIndex, h1, h2]

theorem MarkSpec.markCongr {g : Graph} {f : Operands → Except Fault Operands} {P P1 : Prop}
    {T T1 : Nat → Prop} (h : MarkSpec g f P T) (hP : P1 ↔ P) (hT : P1 → ∀ j, T1 j ↔ T j) :
    MarkSpec g f P1 T1 := by
  intro used hs
  obtain ⟨h1, h2⟩ := h used hs
  constructor
  · intro hp
    obtain ⟨used1, hf, hs1, hj⟩ := h1 (hP.1 hp)
    exact ⟨used1, hf, hs1, fun j => by rw [hj j, hT hp j]⟩
  · intro hp
    exact h2 (fun hp1 => hp (hP.2 hp1))

theorem MarkSpec.markSkip (g : Graph) : MarkSpec g (fun used => .ok used) True (fun _ => False) := by
  intro used hs
  exact ⟨fun _ => ⟨used, rfl, hs, fun j => by simp⟩, fun h => absurd trivial h⟩

theorem MarkSpec.markFail (g : Graph) (e : Fault) :
    MarkSpec g (fun _ => .error e) False (fun _ => False) := by
  intro used _
  exact ⟨fun h => absurd h id, fun _ used1 h => by simp at h⟩

theorem MarkSpec.markBind {g : Graph} {f h : Operands → Except Fault Operands} {P Q : Prop}
    {T U : Nat → Prop} (hf : MarkSpec g f P T) (hh : MarkSpec g h Q U) :
    MarkSpec g
      (fun used => match f used with
        | .error e => .error e
        | .ok used1 => h used1)
      (P ∧ Q) (fun j => T j ∨ U j) := by
  intro used hs
  obtain ⟨f1, f2⟩ := hf used hs
  constructor
  · rintro ⟨hp, hq⟩
    obtain ⟨used1, hfu, hs1, hj1⟩ := f1 hp
    obtain ⟨used2, hhu, hs2, hj2⟩ := (hh used1 hs1).1 hq
    refine ⟨used2, by simp only [hfu]; exact hhu, hs2, ?_⟩
    intro j
    rw [hj2 j, hj1 j, or_assoc]
  · intro hnot used2 hres
    by_cases hp : P
    · obtain ⟨used1, hfu, hs1, _⟩ := f1 hp
      simp only [hfu] at hres
      by_cases hq : Q
      · exact hnot ⟨hp, hq⟩
      · exact (hh used1 hs1).2 hq used2 hres
    · cases hfu : f used with
      | error e => simp only [hfu] at hres; simp at hres
      | ok used1 => exact f2 hp used1 hfu

theorem setOperand_spec (t : Target) (g : Graph) (o : Operand) :
    MarkSpec g (fun used => used.setOperand t o)
      (slotOf t g o < g.m_localVars + g.m_tmps) (fun j => j = slotOf t g o) := by
  intro used hs
  have hidx := hs.operandIndex t o
  obtain ⟨h1, h2, h3⟩ := hs
  constructor
  · intro hp
    have hlt : slotOf t g o < used.values.length := by rw [h3]; exact hp
    refine ⟨{ used with values := used.values.set (slotOf t g o) true }, ?_,
      ⟨h1, h2, by simp [h3]⟩, ?_⟩
    · simp [Operands.setOperand, hidx, hlt]
    · intro j
      exact getElem?_set_true used.values (slotOf t g o) j hlt
  · intro hp used1 hres
    have hge : ¬ slotOf t g o < used.values.length := by rw [h3]; exact hp
    simp [Operands.setOperand, hidx, hge] at hres
theorem MarkSpec.markOfEq {g : Graph} {f f1 : Operands → Except Fault Operands} {P : Prop}
    {T : Nat → Prop} (h : MarkSpec g f1 P T) (he : ∀ used, f used = f1 used) :
    MarkSpec g f P T := by
  intro used hs
  rw [he used]
  exact h used hs

/-- The range loop of the `LoadVarargs` case sets the slots of the registers
`start.offset() + i` for `i` below the number of registers to go. -/
theorem markVarargsRange_markSpec (t : Target) (g : Graph) (start : VirtualRegister) (n : Nat) :
    MarkSpec g (markVarargsRange t start n)
      (∀ i : Nat, i < n →
        slotOf t g (Operand.ofVirtualRegister ⟨toInt32 (start.offset + i)⟩)
          < g.m_localVars + g.m_tmps)
      (fun j => ∃ i : Nat, i < n
        ∧ j = slotOf t g (Operand.ofVirtualRegister ⟨toInt32 (start.offset + i)⟩)) := by
  induction n with
  | zero =>
    refine ((MarkSpec.markSkip g).markOfEq (fun used => rfl)).markCongr ?_ ?_
    · exact ⟨fun _ => trivial, fun _ i hi => by omega⟩
    · intro _ j
      exact ⟨fun ⟨i, hi, _⟩ => by omega, fun h => absurd h id⟩
  | succ m ih =>
    refine (((setOperand_spec t g _).markBind ih).markOfEq (fun used => rfl)).markCongr ?_ ?_
    · constructor
      · intro h
        exact ⟨h m (by omega), fun i hi => h i (by omega)⟩
      · rintro ⟨h1, h2⟩ i hi
        rcases Nat.lt_or_ge i m with hlt | hge
        · exact h2 i hlt
        · have : i = m := by omega
          subst this
          exact h1
    · intro _ j
      constructor
      · rintro ⟨i, hi, hj⟩
        rcases Nat.lt_or_ge i m with hlt | hge
        · exact Or.inr ⟨i, hlt, hj⟩
        · have : i = m := by omega
          subst this
          exact Or.inl hj
      · rintro (h | ⟨i, hi, hj⟩)
        · exact ⟨m, by omega, h⟩
        · exact ⟨i, by omega, hj⟩

/-- The `LoadVarargs`/`ForwardVarargs` case for one record: it returns when the slots of the
registers it mentions are in the table and the assertion on the last register holds, and it
sets those slots. -/
theorem markLoadVarargs_markSpec (t : Target) (g : Graph) (data : LoadVarargsData) :
    MarkSpec g (markLoadVarargs t data)
      ((∀ o, VarargsUses data o → slotOf t g o < g.m_localVars + g.m_tmps)
        ∧ (data.start.isLocal = true →
            (VirtualRegister.mk (toInt32 (data.start.offset + data.limit - 1))).isLocal = true))
      (fun j => ∃ o, VarargsUses data o ∧ slotOf t g o = j) := by
  cases hloc : data.start.isLocal with
  | false =>
    have hf : ∀ used, markLoadVarargs t data used
        = (match used.setOperand t (Operand.ofVirtualRegister data.count) with
          | .error e => .error e
          | .ok used1 => (fun u => Except.ok u) used1) := by
      intro used
      simp only [markLoadVarargs, hloc, Bool.false_eq_true, if_false]
    refine (((setOperand_spec t g _).markBind (MarkSpec.markSkip g)).markOfEq hf).markCongr ?_ ?_
    · constructor
      · rintro ⟨h, _⟩
        exact ⟨h _ (Or.inl rfl), trivial⟩
      · rintro ⟨h, _⟩
        refine ⟨?_, fun hc => by simp at hc⟩
        rintro o (ho | ⟨hc, _⟩)
        · rw [ho]; exact h
        · rw [hloc] at hc; simp at hc
    · intro _ j
      constructor
      · rintro ⟨o, (ho | ⟨hc, _⟩), hj⟩
        · left; rw [← hj, ho]
        · rw [hloc] at hc; simp at hc
      · rintro (h | h)
        · exact ⟨_, Or.inl rfl, h.symm⟩
        · exact absurd h id
  | true =>
    cases hlast : (VirtualRegister.mk (toInt32 (data.start.offset + data.limit - 1))).isLocal with
    | false =>
      have hf : ∀ used, markLoadVarargs t data used
          = (match used.setOperand t (Operand.ofVirtualRegister data.count) with
            | .error e => .error e
            | .ok used1 => (fun _ => Except.error Fault.assertion) used1) := by
        intro used
        simp only [markLoadVarargs, hloc, hlast, Bool.false_eq_true, if_false, if_true]
      refine (((setOperand_spec t g _).markBind (MarkSpec.markFail g Fault.assertion)).markOfEq hf).markCongr
        ?_ ?_
      · constructor
        · rintro ⟨_, h⟩
          have := h rfl
          simp at this
        · rintro ⟨_, h⟩
          exact absurd h id
      · rintro ⟨_, h⟩
        have := h rfl
        simp at this
    | true =>
      have hf : ∀ used, markLoadVarargs t data used
          = (match used.setOperand t (Operand.ofVirtualRegister data.count) with
            | .error e => .error e
            | .ok used1 => markVarargsRange t data.start data.limit used1) := by
        intro used
        simp only [markLoadVarargs, hloc, hlast, if_true]
      refine (((setOperand_spec t g _).markBind
        (markVarargsRange_markSpec t g data.start data.limit)).markOfEq hf).markCongr ?_ ?_
      · constructor
        · rintro ⟨h, _⟩
          exact ⟨h _ (Or.inl rfl), fun i hi => h _ (Or.inr ⟨hloc, i, hi, rfl⟩)⟩
        · rintro ⟨h1, h2⟩
          refine ⟨?_, fun _ => rfl⟩
          rintro o (ho | ⟨_, i, hi, ho⟩)
          · rw [ho]; exact h1
          · rw [ho]; exact h2 i hi
      · intro _ j
        constructor
        · rintro ⟨o, (ho | ⟨_, i, hi, ho⟩), hj⟩
          · left; rw [← hj, ho]
          · right; exact ⟨i, hi, by rw [← hj, ho]⟩
        · rintro (h | ⟨i, hi, h⟩)
          · exact ⟨_, Or.inl rfl, h.symm⟩
          · exact ⟨_, Or.inr ⟨hloc, i, hi, rfl⟩, h.symm⟩
/-- The loop over the arguments with fixup of a frame in the mark phase. -/
theorem markFrameArguments_markSpec (t : Target) (g : Graph) (stackOffset : Int) (n : Nat) :
    MarkSpec g (markFrameArguments t stackOffset n)
      (∀ argument : Nat, argument < n →
        slotOf t g (Operand.ofVirtualRegister
          ⟨toInt32 (toInt32 (argument + t.thisArgumentOffset) + stackOffset)⟩)
          < g.m_localVars + g.m_tmps)
      (fun j => ∃ argument : Nat, argument < n
        ∧ j = slotOf t g (Operand.ofVirtualRegister
          ⟨toInt32 (toInt32 (argument + t.thisArgumentOffset) + stackOffset)⟩)) := by
  induction n with
  | zero =>
    refine ((MarkSpec.markSkip g).markOfEq (fun used => rfl)).markCongr ?_ ?_
    · exact ⟨fun _ => trivial, fun _ i hi => by omega⟩
    · intro _ j
      exact ⟨fun ⟨i, hi, _⟩ => by omega, fun h => absurd h id⟩
  | succ m ih =>
    refine (((setOperand_spec t g _).markBind ih).markOfEq (fun used => rfl)).markCongr ?_ ?_
    · constructor
      · intro h
        exact ⟨h m (by omega), fun i hi => h i (by omega)⟩
      · rintro ⟨h1, h2⟩ i hi
        rcases Nat.lt_or_ge i m with hlt | hge
        · exact h2 i hlt
        · have : i = m := by omega
          subst this
          exact h1
    · intro _ j
      constructor
      · rintro ⟨i, hi, hj⟩
        rcases Nat.lt_or_ge i m with hlt | hge
        · exact Or.inr ⟨i, hlt, hj⟩
        · have : i = m := by omega
          subst this
          exact Or.inl hj
      · rintro (h | ⟨i, hi, hj⟩)
        · exact ⟨m, by omega, h⟩
        · exact ⟨i, by omega, hj⟩

/-- The mark step of an inline call frame: it returns when the slots of the operands the frame
mentions are in the table, and it sets those slots. -/
theorem markInlineCallFrame_markSpec (t : Target) (g : Graph) (frame : InlineCallFrame) :
    MarkSpec g (markInlineCallFrame t frame)
      (∀ o, FrameUses t frame o → slotOf t g o < g.m_localVars + g.m_tmps)
      (fun j => ∃ o, FrameUses t frame o ∧ slotOf t g o = j) := by
  cases hv : frame.isVarargs with
  | false =>
    have hf : ∀ used, markInlineCallFrame t frame used
        = (match (fun u => Except.ok u) used with
          | .error e => .error e
          | .ok used1 =>
            markFrameArguments t frame.stackOffset frame.m_argumentsWithFixup.length used1) := by
      intro used
      simp only [markInlineCallFrame, hv, Bool.false_eq_true, if_false]
    refine (((MarkSpec.markSkip g).markBind
      (markFrameArguments_markSpec t g frame.stackOffset _)).markOfEq hf).markCongr ?_ ?_
    · constructor
      · intro h
        exact ⟨trivial, fun i hi => h _ (Or.inr ⟨i, hi, rfl⟩)⟩
      · rintro ⟨_, h⟩ o (⟨hc, _⟩ | ⟨i, hi, ho⟩)
        · rw [hv] at hc; simp at hc
        · rw [ho]; exact h i hi
    · intro _ j
      constructor
      · rintro ⟨o, (⟨hc, _⟩ | ⟨i, hi, ho⟩), hj⟩
        · rw [hv] at hc; simp at hc
        · right; exact ⟨i, hi, by rw [← hj, ho]⟩
      · rintro (h | ⟨i, hi, h⟩)
        · exact absurd h id
        · exact ⟨_, Or.inr ⟨i, hi, rfl⟩, h.symm⟩
  | true =>
    have hf : ∀ used, markInlineCallFrame t frame used
        = (match used.setOperand t (Operand.ofVirtualRegister
              ⟨toInt32 (t.argumentCountIncludingThis + frame.stackOffset)⟩) with
          | .error e => .error e
          | .ok used1 =>
            markFrameArguments t frame.stackOffset frame.m_argumentsWithFixup.length used1) := by
      intro used
      simp only [markInlineCallFrame, hv, if_true]
    refine (((setOperand_spec t g _).markBind
      (markFrameArguments_markSpec t g frame.stackOffset _)).markOfEq hf).markCongr ?_ ?_
    · constructor
      · intro h
        exact ⟨h _ (Or.inl ⟨hv, rfl⟩), fun i hi => h _ (Or.inr ⟨i, hi, rfl⟩)⟩
      · rintro ⟨h1, h2⟩ o (⟨_, ho⟩ | ⟨i, hi, ho⟩)
        · rw [ho]; exact h1
        · rw [ho]; exact h2 i hi
    · intro _ j
      constructor
      · rintro ⟨o, (⟨_, ho⟩ | ⟨i, hi, ho⟩), hj⟩
        · left; rw [← hj, ho]
        · right; exact ⟨i, hi, by rw [← hj, ho]⟩
      · rintro (h | ⟨i, hi, h⟩)
        · exact ⟨_, Or.inl ⟨hv, rfl⟩, h.symm⟩
        · exact ⟨_, Or.inr ⟨i, hi, rfl⟩, h.symm⟩

/-- The loop over the inline call frames in the mark phase. -/
theorem markInlineCallFrames_markSpec (t : Target) (g : Graph) (frames : List InlineCallFrame) :
    MarkSpec g (markInlineCallFrames t frames)
      (∀ frame, frame ∈ frames →
        ∀ o, FrameUses t frame o → slotOf t g o < g.m_localVars + g.m_tmps)
      (fun j => ∃ frame, frame ∈ frames ∧ ∃ o, FrameUses t frame o ∧ slotOf t g o = j) := by
  induction frames with
  | nil =>
    refine ((MarkSpec.markSkip g).markOfEq (fun used => rfl)).markCongr ?_ ?_
    · exact ⟨fun _ => trivial, fun _ frame hf => by simp at hf⟩
    · intro _ j
      exact ⟨fun ⟨frame, hf, _⟩ => by simp at hf, fun h => absurd h id⟩
  | cons frame rest ih =>
    refine (((markInlineCallFrame_markSpec t g frame).markBind ih).markOfEq (fun used => rfl)).markCongr
      ?_ ?_
    · constructor
      · intro h
        exact ⟨h frame (List.mem_cons_self _ _),
          fun f hf => h f (List.mem_cons_of_mem _ hf)⟩
      · rintro ⟨h1, h2⟩ f hf
        rcases List.mem_cons.1 hf with h3 | h3
        · rw [h3]; exact h1
        · exact h2 f h3
    · intro _ j
      constructor
      · rintro ⟨f, hf, ho⟩
        rcases List.mem_cons.1 hf with h3 | h3
        · left; rw [← h3]; exact ho
        · right; exact ⟨f, h3, ho⟩
      · rintro (h | ⟨f, hf, ho⟩)
        · exact ⟨frame, List.mem_cons_self _ _, h⟩
        · exact ⟨f, List.mem_cons_of_mem _ hf, ho⟩

/-! ### Steps on the table and the flag -/

theorem StepSpec.stepCongr {g : Graph} {f : Operands × Bool → Except Fault (Operands × Bool)}
    {P P1 : Prop} {T T1 : Nat → Prop} {F F1 : Bool} (h : StepSpec g f P T F) (hP : P1 ↔ P)
    (hT : P1 → ∀ j, T1 j ↔ T j) (hF : P1 → F1 = F) : StepSpec g f P1 T1 F1 := by
  intro st hs
  obtain ⟨h1, h2⟩ := h st hs
  constructor
  · intro hp
    obtain ⟨st1, hf, hs1, hflag, hj⟩ := h1 (hP.1 hp)
    exact ⟨st1, hf, hs1, by rw [hflag, hF hp], fun j => by rw [hj j, hT hp j]⟩
  · intro hp
    exact h2 (fun hp1 => hp (hP.2 hp1))

theorem StepSpec.stepOfEq {g : Graph} {f f1 : Operands × Bool → Except Fault (Operands × Bool)}
    {P : Prop} {T : Nat → Prop} {F : Bool} (h : StepSpec g f1 P T F)
    (he : ∀ st, f st = f1 st) : StepSpec g f P T F := by
  intro st hs
  rw [he st]
  exact h st hs

theorem StepSpec.stepSkip (g : Graph) :
    StepSpec g (fun st => .ok st) True (fun _ => False) false := by
  intro st hs
  exact ⟨fun _ => ⟨st, rfl, hs, by simp, fun j => by simp⟩, fun h => absurd trivial h⟩

theorem StepSpec.stepFail (g : Graph) (e : Fault) :
    StepSpec g (fun _ => .error e) False (fun _ => False) false := by
  intro st _
  exact ⟨fun h => absurd h id, fun _ st1 h => by simp at h⟩

theorem StepSpec.stepBind {g : Graph} {f h : Operands × Bool → Except Fault (Operands × Bool)}
    {P Q : Prop} {T U : Nat → Prop} {F G : Bool} (hf : StepSpec g f P T F)
    (hh : StepSpec g h Q U G) :
    StepSpec g
      (fun st => match f st with
        | .error e => .error e
        | .ok st1 => h st1)
      (P ∧ Q) (fun j => T j ∨ U j) (F || G) := by
  intro st hs
  obtain ⟨f1, f2⟩ := hf st hs
  constructor
  · rintro ⟨hp, hq⟩
    obtain ⟨st1, hfu, hs1, hflag1, hj1⟩ := f1 hp
    obtain ⟨st2, hhu, hs2, hflag2, hj2⟩ := (hh st1 hs1).1 hq
    refine ⟨st2, by simp only [hfu]; exact hhu, hs2, ?_, ?_⟩
    · rw [hflag2, hflag1, Bool.or_assoc]
    · intro j
      rw [hj2 j, hj1 j, or_assoc]
  · intro hnot st2 hres
    by_cases hp : P
    · obtain ⟨st1, hfu, hs1, _⟩ := f1 hp
      simp only [hfu] at hres
      by_cases hq : Q
      · exact hnot ⟨hp, hq⟩
      · exact (hh st1 hs1).2 hq st2 hres
    · cases hfu : f st with
      | error e => simp only [hfu] at hres; simp at hres
      | ok st1 => exact f2 hp st1 hfu

/-- A step on the table alone, run on the table of a state whose flag it keeps or raises. -/
theorem StepSpec.ofMark {g : Graph} {f : Operands → Except Fault Operands} {P : Prop}
    {T : Nat → Prop} (h : MarkSpec g f P T) (F : Bool) :
    StepSpec g
      (fun st => match f st.1 with
        | .error e => .error e
        | .ok used => .ok (used, st.2 || F))
      P T F := by
  intro st hs
  obtain ⟨h1, h2⟩ := h st.1 hs
  constructor
  · intro hp
    obtain ⟨used1, hf, hs1, hj⟩ := h1 hp
    exact ⟨(used1, st.2 || F), by simp only [hf], hs1, rfl, hj⟩
  · intro hp st1 hres
    cases hf : f st.1 with
    | error e => simp only [hf] at hres; simp at hres
    | ok used1 => exact h2 hp used1 hf
/-- A step that meets a specification returns on one shaped state exactly when it returns on
the initial one. -/
theorem StepSpec.stepCanonical {g : Graph} {f : Operands × Bool → Except Fault (Operands × Bool)}
    {P : Prop} {T : Nat → Prop} {F : Bool} (h : StepSpec g f P T F) :
    StepSpec g f (∃ st1, f (initialOperands g, false) = .ok st1) T F := by
  have hiff : (∃ st1, f (initialOperands g, false) = .ok st1) ↔ P := by
    obtain ⟨h1, h2⟩ := h (initialOperands g, false) (initialOperands_shaped g)
    constructor
    · rintro ⟨st1, hst1⟩
      by_cases hp : P
      · exact hp
      · exact absurd hst1 (h2 hp st1)
    · intro hp
      obtain ⟨st1, hst1, _⟩ := h1 hp
      exact ⟨st1, hst1⟩
  exact h.stepCongr hiff (fun _ _ => Iff.rfl) (fun _ => rfl)

/-- Marking of an operand: an argument is skipped, any other operand has its slot set. -/
theorem markOperand_stepSpec (t : Target) (g : Graph) (o : Operand) :
    StepSpec g (markOperand t o)
      (o.isArgument = true ∨ slotOf t g o < g.m_localVars + g.m_tmps)
      (fun j => o.isArgument = false ∧ j = slotOf t g o) false := by
  cases harg : o.isArgument with
  | true =>
    have hf : ∀ st, markOperand t o st = (fun s => Except.ok s) st := by
      intro st
      simp [markOperand, harg]
    refine ((StepSpec.stepSkip g).stepOfEq hf).stepCongr ?_ ?_ (fun _ => rfl)
    · exact ⟨fun _ => trivial, fun _ => Or.inl rfl⟩
    · intro _ j
      exact ⟨fun ⟨h, _⟩ => by simp at h, fun h => absurd h id⟩
  | false =>
    have hf : ∀ st : Operands × Bool, markOperand t o st
        = (match st.1.setOperand t o with
          | .error e => .error e
          | .ok used => .ok (used, st.2 || false)) := by
      intro st
      simp only [markOperand, harg, Bool.false_eq_true, if_false, Bool.or_false]
    refine ((StepSpec.ofMark (setOperand_spec t g o) false).stepOfEq hf).stepCongr ?_ ?_ (fun _ => rfl)
    · exact ⟨fun h => h.resolve_left (by simp), fun h => Or.inr h⟩
    · intro _ j
      exact ⟨fun ⟨_, h⟩ => h, fun h => ⟨rfl, h⟩⟩

/-- The `GetLocal`/`SetLocal`/`Flush`/`PhantomLocal` case. -/
theorem markLocalAccess_stepSpec (t : Target) (g : Graph) (node : Node) :
    ∃ P, StepSpec g (markLocalAccess t g node) P
      (fun j => ∃ o, (∃ root, variableAccessData g.m_variableAccessData node.opInfo = .ok root
          ∧ root.m_operand = o ∧ o.isArgument = false) ∧ slotOf t g o = j) false := by
  cases hv : variableAccessData g.m_variableAccessData node.opInfo with
  | error e =>
    have hf : ∀ st, markLocalAccess t g node st = (fun _ => Except.error e) st := by
      intro st
      simp [markLocalAccess, hv]
    exact ⟨False, ((StepSpec.stepFail g e).stepOfEq hf).stepCongr Iff.rfl (fun h => absurd h id)
      (fun _ => rfl)⟩
  | ok root =>
    have hf : ∀ st, markLocalAccess t g node st = markOperand t root.m_operand st := by
      intro st
      simp [markLocalAccess, hv]
    refine ⟨_, ((markOperand_stepSpec t g root.m_operand).stepOfEq hf).stepCongr Iff.rfl ?_
      (fun _ => rfl)⟩
    intro _ j
    constructor
    · rintro ⟨o, ⟨r, hr, ho, harg⟩, hj⟩
      simp only [Except.ok.injEq] at hr
      subst hr
      subst ho
      exact ⟨harg, hj.symm⟩
    · rintro ⟨harg, hj⟩
      exact ⟨root.m_operand, ⟨root, rfl, rfl, harg⟩, hj.symm⟩

/-- The `PutStack`/`GetStack` case. -/
theorem markStackAccess_stepSpec (t : Target) (g : Graph) (node : Node) :
    ∃ P, StepSpec g (markStackAccess t g node) P
      (fun j => ∃ o, (∃ stack, g.m_stackAccessData[node.opInfo]? = some stack
          ∧ stack.operand = o ∧ o.isArgument = false) ∧ slotOf t g o = j) false := by
  cases hv : g.m_stackAccessData[node.opInfo]? with
  | none =>
    have hf : ∀ st, markStackAccess t g node st
        = (fun _ => Except.error Fault.outOfBounds) st := by
      intro st
      simp [markStackAccess, hv]
    exact ⟨False, ((StepSpec.stepFail g _).stepOfEq hf).stepCongr Iff.rfl (fun h => absurd h id)
      (fun _ => rfl)⟩
  | some stack =>
    have hf : ∀ st, markStackAccess t g node st = markOperand t stack.operand st := by
      intro st
      simp [markStackAccess, hv]
    refine ⟨_, ((markOperand_stepSpec t g stack.operand).stepOfEq hf).stepCongr Iff.rfl ?_
      (fun _ => rfl)⟩
    intro _ j
    constructor
    · rintro ⟨o, ⟨r, hr, ho, harg⟩, hj⟩
      simp only [Option.some.injEq] at hr
      subst hr
      subst ho
      exact ⟨harg, hj.symm⟩
    · rintro ⟨harg, hj⟩
      exact ⟨stack.operand, ⟨stack, rfl, rfl, harg⟩, hj.symm⟩

/-- The `LoadVarargs`/`ForwardVarargs` case. -/
theorem markVarargsNode_stepSpec (t : Target) (g : Graph) (node : Node) :
    ∃ P, StepSpec g (markVarargsNode t g node) P
      (fun j => ∃ o, (∃ data, g.m_loadVarargsData[node.opInfo]? = some data
          ∧ VarargsUses data o) ∧ slotOf t g o = j) true := by
  cases hv : g.m_loadVarargsData[node.opInfo]? with
  | none =>
    have hf : ∀ st, markVarargsNode t g node st
        = (fun _ => Except.error Fault.outOfBounds) st := by
      intro st
      simp [markVarargsNode, hv]
    exact ⟨False, ((StepSpec.stepFail g _).stepOfEq hf).stepCongr Iff.rfl (fun h => absurd h id)
      (fun h => absurd h id)⟩
  | some data =>
    have hf : ∀ st : Operands × Bool, markVarargsNode t g node st
        = (match markLoadVarargs t data st.1 with
          | .error e => .error e
          | .ok used => .ok (used, st.2 || true)) := by
      intro st
      simp only [markVarargsNode, hv, Bool.or_true]
    refine ⟨_, ((StepSpec.ofMark (markLoadVarargs_markSpec t g data) true).stepOfEq hf).stepCongr
      Iff.rfl ?_ (fun _ => rfl)⟩
    intro _ j
    constructor
    · rintro ⟨o, ⟨d, hd, ho⟩, hj⟩
      simp only [Option.some.injEq] at hd
      subst hd
      exact ⟨o, ho, hj⟩
    · rintro ⟨o, ho, hj⟩
      exact ⟨o, ⟨data, rfl, ho⟩, hj⟩

/-- The mark step of a node: it returns on a shaped table exactly when it returns on the
initial one, it sets the slots of the operands the node mentions and no other, and it raises
the flag for a `LoadVarargs`/`ForwardVarargs`. -/
theorem markNode_stepSpec (t : Target) (g : Graph) (node : Node) :
    StepSpec g (markNode t g node) (NodeMarkable t g node)
      (fun j => ∃ o, NodeUses g node o ∧ slotOf t g o = j) node.isVarargs := by
  unfold NodeMarkable
  suffices h : ∃ P, StepSpec g (markNode t g node) P
      (fun j => ∃ o, NodeUses g node o ∧ slotOf t g o = j) node.isVarargs by
    obtain ⟨P, hP⟩ := h
    exact hP.stepCanonical
  cases hop : node.op with
  | GetLocal =>
    obtain ⟨P, hP⟩ := markLocalAccess_stepSpec t g node
    refine ⟨P, (hP.stepOfEq (fun st => by simp [markNode, hop])).stepCongr Iff.rfl ?_ ?_⟩
    · intro _ j; simp [NodeUses, hop]
    · intro _; simp [Node.isVarargs, hop]
  | SetLocal =>
    obtain ⟨P, hP⟩ := markLocalAccess_stepSpec t g node
    refine ⟨P, (hP.stepOfEq (fun st => by simp [markNode, hop])).stepCongr Iff.rfl ?_ ?_⟩
    · intro _ j; simp [NodeUses, hop]
    · intro _; simp [Node.isVarargs, hop]
  | Flush =>
    obtain ⟨P, hP⟩ := markLocalAccess_stepSpec t g node
    refine ⟨P, (hP.stepOfEq (fun st => by simp [markNode, hop])).stepCongr Iff.rfl ?_ ?_⟩
    · intro _ j; simp [NodeUses, hop]
    · intro _; simp [Node.isVarargs, hop]
  | PhantomLocal =>
    obtain ⟨P, hP⟩ := markLocalAccess_stepSpec t g node
    refine ⟨P, (hP.stepOfEq (fun st => by simp [markNode, hop])).stepCongr Iff.rfl ?_ ?_⟩
    · intro _ j; simp [NodeUses, hop]
    · intro _; simp [Node.isVarargs, hop]
  | LoadVarargs =>
    obtain ⟨P, hP⟩ := markVarargsNode_stepSpec t g node
    refine ⟨P, (hP.stepOfEq (fun st => by simp [markNode, hop])).stepCongr Iff.rfl ?_ ?_⟩
    · intro _ j; simp [NodeUses, hop]
    · intro _; simp [Node.isVarargs, hop]
  | ForwardVarargs =>
    obtain ⟨P, hP⟩ := markVarargsNode_stepSpec t g node
    refine ⟨P, (hP.stepOfEq (fun st => by simp [markNode, hop])).stepCongr Iff.rfl ?_ ?_⟩
    · intro _ j; simp [NodeUses, hop]
    · intro _; simp [Node.isVarargs, hop]
  | PutStack =>
    obtain ⟨P, hP⟩ := markStackAccess_stepSpec t g node
    refine ⟨P, (hP.stepOfEq (fun st => by simp [markNode, hop])).stepCongr Iff.rfl ?_ ?_⟩
    · intro _ j; simp [NodeUses, hop]
    · intro _; simp [Node.isVarargs, hop]
  | GetStack =>
    obtain ⟨P, hP⟩ := markStackAccess_stepSpec t g node
    refine ⟨P, (hP.stepOfEq (fun st => by simp [markNode, hop])).stepCongr Iff.rfl ?_ ?_⟩
    · intro _ j; simp [NodeUses, hop]
    · intro _; simp [Node.isVarargs, hop]
  | Other =>
    refine ⟨True, ((StepSpec.stepSkip g).stepOfEq (fun st => by simp [markNode, hop])).stepCongr Iff.rfl ?_ ?_⟩
    · intro _ j; simp [NodeUses, hop]
    · intro _; simp [Node.isVarargs, hop]
/-- The mark loop over the nodes of a block. -/
theorem markNodes_stepSpec (t : Target) (g : Graph) (nodes : List Node) :
    StepSpec g (markNodes t g nodes) (∀ node, node ∈ nodes → NodeMarkable t g node)
      (fun j => ∃ node, node ∈ nodes ∧ ∃ o, NodeUses g node o ∧ slotOf t g o = j)
      (nodes.any Node.isVarargs) := by
  induction nodes with
  | nil =>
    refine ((StepSpec.stepSkip g).stepOfEq (fun st => rfl)).stepCongr ?_ ?_ (fun _ => rfl)
    · exact ⟨fun _ => trivial, fun _ node hn => by simp at hn⟩
    · intro _ j
      simp
  | cons node rest ih =>
    refine ((ih.stepBind (markNode_stepSpec t g node)).stepOfEq (fun st => rfl)).stepCongr ?_ ?_ ?_
    · constructor
      · intro h
        exact ⟨fun n hn => h n (List.mem_cons_of_mem _ hn), h node (List.mem_cons_self _ _)⟩
      · rintro ⟨h1, h2⟩ n hn
        rcases List.mem_cons.1 hn with rfl | hn
        · exact h2
        · exact h1 n hn
    · intro _ j
      constructor
      · rintro ⟨n, hn, h⟩
        rcases List.mem_cons.1 hn with rfl | hn
        · exact Or.inr h
        · exact Or.inl ⟨n, hn, h⟩
      · rintro (⟨n, hn, h⟩ | h)
        · exact ⟨n, List.mem_cons_of_mem _ hn, h⟩
        · exact ⟨node, List.mem_cons_self _ _, h⟩
    · intro _
      simp only [List.any_cons]
      exact Bool.or_comm _ _

/-- The mark loop over the blocks. -/
theorem markBlocks_stepSpec (t : Target) (g : Graph) (blocks : List (Option (List Node))) :
    StepSpec g (markBlocks t g blocks)
      (∀ nodes node, some nodes ∈ blocks → node ∈ nodes → NodeMarkable t g node)
      (fun j => ∃ nodes node, some nodes ∈ blocks ∧ node ∈ nodes
        ∧ ∃ o, NodeUses g node o ∧ slotOf t g o = j)
      (blocks.any blockNeedsFixup) := by
  induction blocks with
  | nil =>
    refine ((StepSpec.stepSkip g).stepOfEq (fun st => rfl)).stepCongr ?_ ?_ (fun _ => rfl)
    · exact ⟨fun _ => trivial, fun _ nodes node hn => by simp at hn⟩
    · intro _ j
      simp
  | cons block rest ih =>
    cases block with
    | none =>
      have hf : ∀ st, markBlocks t g (none :: rest) st = markBlocks t g rest st := by
        intro st
        simp only [markBlocks]
        cases markBlocks t g rest st <;> rfl
      refine (ih.stepOfEq hf).stepCongr ?_ ?_ ?_
      · simp
      · intro _ j
        simp
      · intro _
        simp [blockNeedsFixup]
    | some ns =>
      refine ((ih.stepBind (markNodes_stepSpec t g ns)).stepOfEq (fun st => rfl)).stepCongr ?_ ?_ ?_
      · constructor
        · intro h
          exact ⟨fun nodes n hb hn => h nodes n (List.mem_cons_of_mem _ hb) hn,
            fun n hn => h ns n (List.mem_cons_self _ _) hn⟩
        · rintro ⟨h1, h2⟩ nodes n hb hn
          rcases List.mem_cons.1 hb with hb | hb
          · simp only [Option.some.injEq] at hb
            subst hb
            exact h2 n hn
          · exact h1 nodes n hb hn
      · intro _ j
        constructor
        · rintro ⟨nodes, n, hb, hn, h⟩
          rcases List.mem_cons.1 hb with hb | hb
          · simp only [Option.some.injEq] at hb
            subst hb
            exact Or.inr ⟨n, hn, h⟩
          · exact Or.inl ⟨nodes, n, hb, hn, h⟩
        · rintro (⟨nodes, n, hb, hn, h⟩ | ⟨n, hn, h⟩)
          · exact ⟨nodes, n, List.mem_cons_of_mem _ hb, hn, h⟩
          · exact ⟨ns, n, List.mem_cons_self _ _, hn, h⟩
      · intro _
        simp only [List.any_cons, blockNeedsFixup]
        exact Bool.or_comm _ _

/-- No entry of the initial table is set. -/
theorem initialOperands_false (g : Graph) (j : Nat) :
    (initialOperands g).values[j]? ≠ some true := by
  intro h
  obtain ⟨hlt, hget⟩ := List.getElem?_eq_some.1 h
  have hmem : true ∈ (initialOperands g).values := hget ▸ List.getElem_mem hlt
  simp [initialOperands, Operands.create] at hmem

/-- The mark phase meets its specification: it returns exactly on a markable graph, and then
the entries it has set are the slots of the operands the graph mentions, and the flag tells
whether a block holds a `LoadVarargs`/`ForwardVarargs`. -/
theorem markPhase_spec (t : Target) (g : Graph) :
    (Markable t g → ∃ marked, markPhase t g = .ok marked ∧ Shaped g marked.1
        ∧ marked.2 = g.blocks.any blockNeedsFixup
        ∧ ∀ j : Nat, marked.1.values[j]? = some true
            ↔ ∃ o, SyntacticallyUsed t g o ∧ slotOf t g o = j)
      ∧ (¬ Markable t g → ∀ marked, markPhase t g ≠ .ok marked) := by
  have hspec := (markBlocks_stepSpec t g g.blocks).stepBind
    (StepSpec.ofMark (markInlineCallFrames_markSpec t g g.inlineCallFrames) false)
  have hrun : markPhase t g
      = (match markBlocks t g g.blocks (initialOperands g, false) with
        | .error e => .error e
        | .ok st1 =>
          match markInlineCallFrames t g.inlineCallFrames st1.1 with
          | .error e => .error e
          | .ok used => .ok (used, st1.2 || false)) := by
    simp only [markPhase, initialOperands, Bool.or_false]
  obtain ⟨h1, h2⟩ := hspec (initialOperands g, false) (initialOperands_shaped g)
  rw [hrun]
  constructor
  · intro hm
    obtain ⟨st1, hst, hshape, hflag, hj⟩ := h1 hm
    refine ⟨st1, hst, hshape, ?_, ?_⟩
    · rw [hflag]
      simp
    · intro j
      rw [hj j]
      constructor
      · rintro (h | ⟨nodes, n, hb, hn, o, ho, hs⟩ | ⟨frame, hf, o, ho, hs⟩)
        · exact absurd h (initialOperands_false g j)
        · exact ⟨o, Or.inl ⟨nodes, n, hb, hn, ho⟩, hs⟩
        · exact ⟨o, Or.inr ⟨frame, hf, ho⟩, hs⟩
      · rintro ⟨o, (⟨nodes, n, hb, hn, ho⟩ | ⟨frame, hf, ho⟩), hs⟩
        · exact Or.inr (Or.inl ⟨nodes, n, hb, hn, o, ho, hs⟩)
        · exact Or.inr (Or.inr ⟨frame, hf, o, ho, hs⟩)
  · intro hm
    exact h2 hm
/-! ## The fix-up of the varargs nodes does not depend on the order -/

/-- Fixing up a fixed-up record changes nothing. -/
theorem fixupLoadVarargs_idem (t : Target) (usedOperands : Operands) (alloc : List Nat)
    (d0 d1 : LoadVarargsData) (h : fixupLoadVarargs t usedOperands alloc d0 = .ok d1) :
    fixupLoadVarargs t usedOperands alloc d1 = .ok d1 := by
  unfold fixupLoadVarargs at h
  split at h
  · simp at h
  · rename_i mc hc
    split at h
    · simp at h
    · rename_i ms hs
      simp only [Except.ok.injEq] at h
      subst h
      simp only [fixupLoadVarargs, hc, hs]

theorem FixedAt.fixedCongr {t : Target} {usedOperands : Operands} {alloc : List Nat}
    {table0 table : List LoadVarargsData} {S S1 : Nat → Prop}
    (h : FixedAt t usedOperands alloc table0 S table) (hS : ∀ i, S1 i ↔ S i) :
    FixedAt t usedOperands alloc table0 S1 table := by
  refine ⟨h.1, ?_⟩
  intro i d0 hd
  obtain ⟨h1, h2⟩ := h.2 i d0 hd
  exact ⟨fun hs => h1 ((hS i).1 hs), fun hs => h2 (fun hs1 => hs ((hS i).2 hs1))⟩

/-- The initial table has nothing fixed up. -/
theorem FixedAt.initial (t : Target) (usedOperands : Operands) (alloc : List Nat)
    (table0 : List LoadVarargsData) :
    FixedAt t usedOperands alloc table0 (fun _ => False) table0 :=
  ⟨rfl, fun _ _ hd => ⟨fun hs => absurd hs id, fun _ => hd⟩⟩

/-- The set of fixed-up indices determines the table. -/
theorem FixedAt.unique {t : Target} {usedOperands : Operands} {alloc : List Nat}
    {table0 a b : List LoadVarargsData} {S : Nat → Prop}
    (ha : FixedAt t usedOperands alloc table0 S a)
    (hb : FixedAt t usedOperands alloc table0 S b) : a = b := by
  apply List.ext_getElem?
  intro i
  cases hd : table0[i]? with
  | none =>
    have hlen : table0.length ≤ i := List.getElem?_eq_none_iff.1 hd
    rw [List.getElem?_eq_none_iff.2 (by rw [ha.1]; exact hlen),
      List.getElem?_eq_none_iff.2 (by rw [hb.1]; exact hlen)]
  | some d0 =>
    obtain ⟨a1, a2⟩ := ha.2 i d0 hd
    obtain ⟨b1, b2⟩ := hb.2 i d0 hd
    by_cases hs : S i
    · obtain ⟨d1, hf1, hg1⟩ := a1 hs
      obtain ⟨d2, hf2, hg2⟩ := b1 hs
      rw [hf1] at hf2
      simp only [Except.ok.injEq] at hf2
      subst hf2
      rw [hg1, hg2]
    · rw [a2 hs, b2 hs]

theorem FixSpec.fixCongr {t : Target} {usedOperands : Operands} {alloc : List Nat}
    {table0 : List LoadVarargsData}
    {f : List LoadVarargsData → Except Fault (List LoadVarargsData)} {P P1 : Prop}
    {R R1 : Nat → Prop} (h : FixSpec t usedOperands alloc table0 f P R) (hP : P1 ↔ P)
    (hR : ∀ i, R1 i ↔ R i) : FixSpec t usedOperands alloc table0 f P1 R1 := by
  intro S table hs
  obtain ⟨h1, h2⟩ := h S table hs
  constructor
  · intro hp
    obtain ⟨table1, hf, hfix⟩ := h1 (hP.1 hp)
    exact ⟨table1, hf, hfix.fixedCongr (fun i => by rw [hR i])⟩
  · intro hp
    exact h2 (fun hp1 => hp (hP.2 hp1))

theorem FixSpec.fixOfEq {t : Target} {usedOperands : Operands} {alloc : List Nat}
    {table0 : List LoadVarargsData}
    {f f1 : List LoadVarargsData → Except Fault (List LoadVarargsData)} {P : Prop}
    {R : Nat → Prop} (h : FixSpec t usedOperands alloc table0 f P R)
    (hf : ∀ table, f1 table = f table) : FixSpec t usedOperands alloc table0 f1 P R := by
  have : f1 = f := funext hf
  rw [this]
  exact h

theorem FixSpec.fixSkip (t : Target) (usedOperands : Operands) (alloc : List Nat)
    (table0 : List LoadVarargsData) :
    FixSpec t usedOperands alloc table0 (fun table => .ok table) True (fun _ => False) := by
  intro S table hs
  constructor
  · intro _
    exact ⟨table, rfl, hs.fixedCongr (fun i => by simp)⟩
  · intro hp
    exact absurd trivial hp

theorem FixSpec.fixBind {t : Target} {usedOperands : Operands} {alloc : List Nat}
    {table0 : List LoadVarargsData}
    {f h : List LoadVarargsData → Except Fault (List LoadVarargsData)} {P Q : Prop}
    {R U : Nat → Prop} (hf : FixSpec t usedOperands alloc table0 f P R)
    (hh : FixSpec t usedOperands alloc table0 h Q U) :
    FixSpec t usedOperands alloc table0
      (fun table => match f table with
        | .error e => .error e
        | .ok table1 => h table1)
      (P ∧ Q) (fun i => R i ∨ U i) := by
  intro S table hs
  obtain ⟨f1, f2⟩ := hf S table hs
  constructor
  · rintro ⟨hp, hq⟩
    obtain ⟨table1, hft, hfix1⟩ := f1 hp
    obtain ⟨table2, hht, hfix2⟩ := (hh _ table1 hfix1).1 hq
    refine ⟨table2, ?_, hfix2.fixedCongr (fun i => by rw [or_assoc])⟩
    simp only [hft]
    exact hht
  · intro hpq table2 hres
    by_cases hp : P
    · obtain ⟨table1, hft, hfix1⟩ := f1 hp
      simp only [hft] at hres
      exact (hh _ table1 hfix1).2 (fun hq => hpq ⟨hp, hq⟩) table2 hres
    · cases hft : f table with
      | error e => simp [hft] at hres
      | ok table1 => exact f2 hp table1 hft

/-- The fix-up of one node. -/
theorem fixupNode_fixSpec (t : Target) (usedOperands : Operands) (alloc : List Nat)
    (table0 : List LoadVarargsData) (node : Node) :
    FixSpec t usedOperands alloc table0 (fixupNode t usedOperands alloc node)
      (NodeFixable t usedOperands alloc table0 node)
      (fun i => node.isVarargs = true ∧ i = node.opInfo) := by
  by_cases hv : node.isVarargs = true
  · have hnode : ∀ table, fixupNode t usedOperands alloc node table
        = (match table[node.opInfo]? with
          | none => .error Fault.outOfBounds
          | some data =>
            match fixupLoadVarargs t usedOperands alloc data with
            | .error e => .error e
            | .ok data1 => .ok (table.set node.opInfo data1)) := by
      intro table
      simp only [Node.isVarargs, Bool.or_eq_true, decide_eq_true_eq] at hv
      rcases hv with hop | hop <;> simp only [fixupNode, hop]
    intro S table hs
    rw [hnode]
    constructor
    · intro hp
      obtain ⟨d0, d1, hd0, hd1⟩ := hp hv
      obtain ⟨s1, s2⟩ := hs.2 _ d0 hd0
      have hcur : ∃ d, table[node.opInfo]? = some d
          ∧ fixupLoadVarargs t usedOperands alloc d = .ok d1 := by
        by_cases hS : S node.opInfo
        · obtain ⟨d2, hf2, hg2⟩ := s1 hS
          rw [hd1] at hf2
          simp only [Except.ok.injEq] at hf2
          subst hf2
          exact ⟨d1, hg2, fixupLoadVarargs_idem t usedOperands alloc d0 d1 hd1⟩
        · exact ⟨d0, s2 hS, hd1⟩
      obtain ⟨d, hget, hfd⟩ := hcur
      refine ⟨table.set node.opInfo d1, by simp only [hget, hfd], ?_, ?_⟩
      · rw [List.length_set]
        exact hs.1
      · intro i e0 he0
        have hlt : node.opInfo < table.length := (List.getElem?_eq_some.1 hget).1
        by_cases hi : i = node.opInfo
        · subst hi
          rw [hd0] at he0
          simp only [Option.some.injEq] at he0
          subst he0
          constructor
          · intro _
            refine ⟨d1, hd1, ?_⟩
            rw [List.getElem?_set_self hlt]
          · intro hn
            exact absurd (Or.inr ⟨hv, rfl⟩) hn
        · obtain ⟨e1, e2⟩ := hs.2 i e0 he0
          rw [List.getElem?_set_ne (fun h => hi h.symm)]
          constructor
          · rintro (hS | ⟨_, h⟩)
            · exact e1 hS
            · exact absurd h hi
          · intro hn
            exact e2 (fun hS => hn (Or.inl hS))
    · intro hp table1 hres
      apply hp
      intro _
      cases hget : table[node.opInfo]? with
      | none => simp [hget] at hres
      | some d =>
        simp only [hget] at hres
        cases hfd : fixupLoadVarargs t usedOperands alloc d with
        | error e => simp [hfd] at hres
        | ok d1 =>
          have hlt : node.opInfo < table0.length := by
            rw [← hs.1]
            exact (List.getElem?_eq_some.1 hget).1
          obtain ⟨s1, s2⟩ := hs.2 node.opInfo table0[node.opInfo]
            (List.getElem?_eq_getElem hlt)
          by_cases hS : S node.opInfo
          · obtain ⟨d2, hf2, _⟩ := s1 hS
            exact ⟨_, d2, List.getElem?_eq_getElem hlt, hf2⟩
          · have := s2 hS
            rw [hget] at this
            simp only [Option.some.injEq] at this
            subst this
            exact ⟨_, d1, List.getElem?_eq_getElem hlt, hfd⟩
  · have hnode : ∀ table, fixupNode t usedOperands alloc node table
        = (fun table => Except.ok table) table := by
      intro table
      simp only [Node.isVarargs, Bool.or_eq_true, decide_eq_true_eq, not_or] at hv
      unfold fixupNode
      split
      · exact absurd ‹node.op = NodeType.LoadVarargs› hv.1
      · exact absurd ‹node.op = NodeType.ForwardVarargs› hv.2
      · rfl
    refine ((FixSpec.fixSkip t usedOperands alloc table0).fixOfEq hnode).fixCongr ?_ ?_
    · exact ⟨fun _ => trivial, fun _ h => absurd h hv⟩
    · intro i
      exact ⟨fun h => hv h.1, fun h => absurd h id⟩

/-- The fix-up loop over the nodes of a block. -/
theorem fixupNodes_fixSpec (t : Target) (usedOperands : Operands) (alloc : List Nat)
    (table0 : List LoadVarargsData) (nodes : List Node) :
    FixSpec t usedOperands alloc table0 (fixupNodes t usedOperands alloc nodes)
      (∀ node, node ∈ nodes → NodeFixable t usedOperands alloc table0 node)
      (fun i => ∃ node, node ∈ nodes ∧ node.isVarargs = true ∧ i = node.opInfo) := by
  induction nodes with
  | nil =>
    refine ((FixSpec.fixSkip t usedOperands alloc table0).fixOfEq (fun table => rfl)).fixCongr ?_ ?_
    · exact ⟨fun _ => trivial, fun _ node hn => by simp at hn⟩
    · intro i
      simp
  | cons node rest ih =>
    refine ((ih.fixBind (fixupNode_fixSpec t usedOperands alloc table0 node)).fixOfEq
      (fun table => rfl)).fixCongr ?_ ?_
    · constructor
      · intro h
        exact ⟨fun n hn => h n (List.mem_cons_of_mem _ hn), h node (List.mem_cons_self _ _)⟩
      · rintro ⟨h1, h2⟩ n hn
        rcases List.mem_cons.1 hn with rfl | hn
        · exact h2
        · exact h1 n hn
    · intro i
      constructor
      · rintro ⟨n, hn, h⟩
        rcases List.mem_cons.1 hn with rfl | hn
        · exact Or.inr h
        · exact Or.inl ⟨n, hn, h⟩
      · rintro (⟨n, hn, h⟩ | h)
        · exact ⟨n, List.mem_cons_of_mem _ hn, h⟩
        · exact ⟨node, List.mem_cons_self _ _, h⟩

/-- The fix-up loop over the blocks. -/
theorem fixupBlocks_fixSpec (t : Target) (usedOperands : Operands) (alloc : List Nat)
    (table0 : List LoadVarargsData) (blocks : List (Option (List Node))) :
    FixSpec t usedOperands alloc table0 (fixupBlocks t usedOperands alloc blocks)
      (∀ node, (∃ nodes, some nodes ∈ blocks ∧ node ∈ nodes) →
        NodeFixable t usedOperands alloc table0 node)
      (fun i => ∃ node, (∃ nodes, some nodes ∈ blocks ∧ node ∈ nodes)
        ∧ node.isVarargs = true ∧ i = node.opInfo) := by
  induction blocks with
  | nil =>
    refine ((FixSpec.fixSkip t usedOperands alloc table0).fixOfEq (fun table => rfl)).fixCongr ?_ ?_
    · exact ⟨fun _ => trivial, fun _ node ⟨_, hb, _⟩ => by simp at hb⟩
    · intro i
      simp
  | cons block rest ih =>
    cases block with
    | none =>
      have hf : ∀ table, fixupBlocks t usedOperands alloc (none :: rest) table
          = fixupBlocks t usedOperands alloc rest table := by
        intro table
        simp only [fixupBlocks]
        cases fixupBlocks t usedOperands alloc rest table <;> rfl
      refine (ih.fixOfEq hf).fixCongr ?_ ?_
      · simp
      · intro i
        simp
    | some ns =>
      refine ((ih.fixBind (fixupNodes_fixSpec t usedOperands alloc table0 ns)).fixOfEq
        (fun table => rfl)).fixCongr ?_ ?_
      · constructor
        · intro h
          exact ⟨fun n ⟨nodes, hb, hn⟩ => h n ⟨nodes, List.mem_cons_of_mem _ hb, hn⟩,
            fun n hn => h n ⟨ns, List.mem_cons_self _ _, hn⟩⟩
        · rintro ⟨h1, h2⟩ n ⟨nodes, hb, hn⟩
          rcases List.mem_cons.1 hb with hb | hb
          · simp only [Option.some.injEq] at hb
            subst hb
            exact h2 n hn
          · exact h1 n ⟨nodes, hb, hn⟩
      · intro i
        constructor
        · rintro ⟨n, ⟨nodes, hb, hn⟩, h⟩
          rcases List.mem_cons.1 hb with hb | hb
          · simp only [Option.some.injEq] at hb
            subst hb
            exact Or.inr ⟨n, hn, h⟩
          · exact Or.inl ⟨n, ⟨nodes, hb, hn⟩, h⟩
        · rintro (⟨n, ⟨nodes, hb, hn⟩, h⟩ | ⟨n, hn, h⟩)
          · exact ⟨n, ⟨nodes, List.mem_cons_of_mem _ hb, hn⟩, h⟩
          · exact ⟨n, ⟨ns, List.mem_cons_self _ _, hn⟩, h⟩

/-- The fix-up over blocks that hold the same nodes returns the same table. -/
theorem fixupBlocks_sameNodes (t : Target) (usedOperands : Operands) (alloc : List Nat)
    (table0 table : List LoadVarargsData) (blocks blocks1 : List (Option (List Node)))
    (h : SameNodes blocks blocks1)
    (hfix : fixupBlocks t usedOperands alloc blocks table0 = .ok table) :
    fixupBlocks t usedOperands alloc blocks1 table0 = .ok table := by
  obtain ⟨a1, a2⟩ := fixupBlocks_fixSpec t usedOperands alloc table0 blocks _ table0
    (FixedAt.initial t usedOperands alloc table0)
  obtain ⟨b1, _⟩ := fixupBlocks_fixSpec t usedOperands alloc table0 blocks1 _ table0
    (FixedAt.initial t usedOperands alloc table0)
  have hp : ∀ node, (∃ nodes, some nodes ∈ blocks ∧ node ∈ nodes) →
      NodeFixable t usedOperands alloc table0 node := by
    by_contra hn
    exact a2 hn table hfix
  obtain ⟨ta, hta, hfa⟩ := a1 hp
  rw [hfix] at hta
  simp only [Except.ok.injEq] at hta
  subst hta
  obtain ⟨tb, htb, hfb⟩ := b1 (fun node hn => hp node ((h node).2 hn))
  rw [htb]
  have hfb1 : FixedAt t usedOperands alloc table0 (fun i => False ∨ ∃ node,
      (∃ nodes, some nodes ∈ blocks ∧ node ∈ nodes) ∧ node.isVarargs = true ∧ i = node.opInfo)
      tb :=
    hfb.fixedCongr (fun i => by
      constructor
      · rintro (hf | ⟨n, hn, hrest⟩)
        · exact absurd hf id
        · exact Or.inr ⟨n, (h n).1 hn, hrest⟩
      · rintro (hf | ⟨n, hn, hrest⟩)
        · exact absurd hf id
        · exact Or.inr ⟨n, (h n).2 hn, hrest⟩)
  rw [FixedAt.unique hfb1 hfa]

/-! ## Permuted blocks hold the same nodes -/

theorem SameNodes.symm {blocks blocks1 : List (Option (List Node))}
    (h : SameNodes blocks blocks1) : SameNodes blocks1 blocks :=
  fun node => (h node).symm

theorem BlocksPermuted.sameNodes {blocks blocks1 : List (Option (List Node))}
    (h : BlocksPermuted blocks blocks1) : SameNodes blocks blocks1 := by
  obtain ⟨mid, hall, hperm⟩ := h
  have hmid : SameNodes blocks mid := by
    clear hperm
    induction hall with
    | nil => exact fun node => Iff.rfl
    | @cons a b l1 l2 hab _ ih =>
      intro node
      cases a with
      | none =>
        cases b with
        | some y => exact absurd hab id
        | none =>
          have := ih node
          simpa using this
      | some x =>
        cases b with
        | none => exact absurd hab id
        | some y =>
          have hxy : x.Perm y := hab
          constructor
          · rintro ⟨nodes, hb, hn⟩
            rcases List.mem_cons.1 hb with hb | hb
            · simp only [Option.some.injEq] at hb
              subst hb
              exact ⟨y, List.mem_cons_self _ _, hxy.mem_iff.1 hn⟩
            · obtain ⟨nodes1, hb1, hn1⟩ := (ih node).1 ⟨nodes, hb, hn⟩
              exact ⟨nodes1, List.mem_cons_of_mem _ hb1, hn1⟩
          · rintro ⟨nodes, hb, hn⟩
            rcases List.mem_cons.1 hb with hb | hb
            · simp only [Option.some.injEq] at hb
              subst hb
              exact ⟨x, List.mem_cons_self _ _, hxy.mem_iff.2 hn⟩
            · obtain ⟨nodes1, hb1, hn1⟩ := (ih node).2 ⟨nodes, hb, hn⟩
              exact ⟨nodes1, List.mem_cons_of_mem _ hb1, hn1⟩
  intro node
  rw [hmid node]
  constructor
  · rintro ⟨nodes, hb, hn⟩
    exact ⟨nodes, hperm.mem_iff.1 hb, hn⟩
  · rintro ⟨nodes, hb, hn⟩
    exact ⟨nodes, hperm.mem_iff.2 hb, hn⟩

/-! ## The mark phase and `run` on blocks that hold the same nodes -/

/-- Two tables of the same length with the same set entries are equal. -/
theorem values_ext (a b : List Bool) (hlen : a.length = b.length)
    (h : ∀ j : Nat, a[j]? = some true ↔ b[j]? = some true) : a = b := by
  apply List.ext_getElem?
  intro j
  by_cases hj : j < a.length
  · have hjb : j < b.length := hlen ▸ hj
    have hx := h j
    rw [List.getElem?_eq_getElem hj, List.getElem?_eq_getElem hjb] at hx ⊢
    cases ha : a[j] <;> cases hb : b[j] <;> simp [ha, hb] at hx ⊢
  · rw [List.getElem?_eq_none_iff.2 (Nat.le_of_not_lt hj),
      List.getElem?_eq_none_iff.2 (hlen ▸ Nat.le_of_not_lt hj)]

theorem markPhase_sameNodes (t : Target) (g : Graph) (blocks1 : List (Option (List Node)))
    (marked : Operands × Bool) (h : SameNodes g.blocks blocks1)
    (hm : markPhase t g = .ok marked) :
    markPhase t { g with blocks := blocks1 } = .ok marked := by
  obtain ⟨a1, a2⟩ := markPhase_spec t g
  obtain ⟨b1, _⟩ := markPhase_spec t { g with blocks := blocks1 }
  have hmark : Markable t g := by
    by_contra hn
    exact a2 hn marked hm
  obtain ⟨ma, hma, hsa, hfa, hja⟩ := a1 hmark
  rw [hm] at hma
  simp only [Except.ok.injEq] at hma
  subst hma
  have hmark1 : Markable t { g with blocks := blocks1 } := by
    refine ⟨?_, hmark.2⟩
    intro nodes node hb hn
    obtain ⟨nodes0, hb0, hn0⟩ := (h node).2 ⟨nodes, hb, hn⟩
    exact hmark.1 nodes0 node hb0 hn0
  obtain ⟨mb, hmb, hsb, hfb, hjb⟩ := b1 hmark1
  rw [hmb]
  have hflag : mb.2 = marked.2 := by
    rw [hfa, hfb, Bool.eq_iff_iff]
    simp only [List.any_eq_true]
    constructor
    · rintro ⟨b, hb, hfix⟩
      cases b with
      | none => simp [blockNeedsFixup] at hfix
      | some nodes =>
        simp only [blockNeedsFixup, List.any_eq_true] at hfix
        obtain ⟨node, hn, hv⟩ := hfix
        obtain ⟨nodes0, hb0, hn0⟩ := (h node).2 ⟨nodes, hb, hn⟩
        refine ⟨some nodes0, hb0, ?_⟩
        simp only [blockNeedsFixup, List.any_eq_true]
        exact ⟨node, hn0, hv⟩
    · rintro ⟨b, hb, hfix⟩
      cases b with
      | none => simp [blockNeedsFixup] at hfix
      | some nodes =>
        simp only [blockNeedsFixup, List.any_eq_true] at hfix
        obtain ⟨node, hn, hv⟩ := hfix
        obtain ⟨nodes0, hb0, hn0⟩ := (h node).1 ⟨nodes, hb, hn⟩
        refine ⟨some nodes0, hb0, ?_⟩
        simp only [blockNeedsFixup, List.any_eq_true]
        exact ⟨node, hn0, hv⟩
  have hvalues : mb.1.values = marked.1.values := by
    apply values_ext
    · rw [hsb.2.2, hsa.2.2]
    · intro j
      rw [hja j, hjb j]
      constructor
      · rintro ⟨o, (⟨nodes, n, hb, hn, ho⟩ | hframe), hs⟩
        · obtain ⟨nodes0, hb0, hn0⟩ := (h n).2 ⟨nodes, hb, hn⟩
          exact ⟨o, Or.inl ⟨nodes0, n, hb0, hn0, ho⟩, hs⟩
        · exact ⟨o, Or.inr hframe, hs⟩
      · rintro ⟨o, (⟨nodes, n, hb, hn, ho⟩ | hframe), hs⟩
        · obtain ⟨nodes0, hb0, hn0⟩ := (h n).1 ⟨nodes, hb, hn⟩
          exact ⟨o, Or.inl ⟨nodes0, n, hb0, hn0, ho⟩, hs⟩
        · exact ⟨o, Or.inr hframe, hs⟩
  obtain ⟨⟨na, la, va⟩, fa⟩ := marked
  obtain ⟨⟨nb, lb, vb⟩, fb⟩ := mb
  have h1 : nb = na := hsb.1.trans hsa.1.symm
  have h2 : lb = la := hsb.2.1.trans hsa.2.1.symm
  simp only at hflag hvalues
  subst h1
  subst h2
  subst hflag
  subst hvalues
  rfl

theorem run_sameNodes (t : Target) (g g1 : Graph) (blocks1 : List (Option (List Node)))
    (h : SameNodes g.blocks blocks1) (hr : run t g = .ok g1) :
    run t { g with blocks := blocks1 } = .ok { g1 with blocks := blocks1 } := by
  cases hm : markPhase t g with
  | error e => simp [run, hm] at hr
  | ok marked =>
    obtain ⟨vars, stack, scope, frames, varargs, hv, hs, hsc, hf, hfix, hg1⟩ :=
      run_layOut t g g1 marked hm hr
    have hfix1 : fixupVarargs t marked.1 (allocation t.calleeSaveSpace marked.1.values)
        { g with blocks := blocks1 } marked.2 = .ok varargs := by
      unfold fixupVarargs at hfix ⊢
      cases hflag : marked.2 with
      | false =>
        rw [hflag] at hfix
        exact hfix
      | true =>
        rw [hflag] at hfix
        simp only [if_true] at hfix ⊢
        exact fixupBlocks_sameNodes t marked.1 _ g.m_loadVarargsData varargs g.blocks blocks1 h
          hfix
    have hsc1 : resolveScopeRegister t marked.1 (allocation t.calleeSaveSpace marked.1.values)
        { g with blocks := blocks1 } = .ok scope := hsc
    unfold run
    rw [markPhase_sameNodes t g blocks1 marked h hm]
    simp only [layOut, hv, hs, hsc1, hf, hfix1]
    rw [hg1]

/-! ## The registers a varargs node marks -/

/-- A `LoadVarargs`/`ForwardVarargs` the mark phase can handle has a record, every register it
marks has a table entry, and the assertion on the last register of its range holds. -/
theorem NodeMarkable.varargs {t : Target} {g : Graph} {node : Node}
    (h : NodeMarkable t g node) (hv : node.isVarargs = true) :
    ∃ data, g.m_loadVarargsData[node.opInfo]? = some data
      ∧ (∀ o, VarargsUses data o → slotOf t g o < g.m_localVars + g.m_tmps)
      ∧ (data.start.isLocal = true →
          (VirtualRegister.mk (toInt32 (data.start.offset + data.limit - 1))).isLocal = true) := by
  obtain ⟨st1, hst1⟩ := h
  have hnode : markNode t g node (initialOperands g, false)
      = markVarargsNode t g node (initialOperands g, false) := by
    simp only [Node.isVarargs, Bool.or_eq_true, decide_eq_true_eq] at hv
    rcases hv with hop | hop <;> simp only [markNode, hop]
  rw [hnode] at hst1
  unfold markVarargsNode at hst1
  cases hd : g.m_loadVarargsData[node.opInfo]? with
  | none => simp [hd] at hst1
  | some data =>
    simp only [hd] at hst1
    refine ⟨data, rfl, ?_⟩
    by_contra hno
    cases hmk : markLoadVarargs t data (initialOperands g) with
    | error e => simp [hmk] at hst1
    | ok used1 =>
      exact ((markLoadVarargs_markSpec t g data) (initialOperands g)
        (initialOperands_shaped g)).2 hno used1 hmk

/-- Slot of an argument register: its argument index. -/
theorem slotOf_argument (t : Target) (g : Graph) (x : Int) (hx : 0 ≤ x) :
    slotOf t g (Operand.ofVirtualRegister ⟨x⟩) = toSizeT (x - t.thisArgumentOffset) := by
  have h1 : ¬ x < 0 := by omega
  simp [slotOf, Operands.operandIndex, Operand.ofVirtualRegister, VirtualRegister.isLocal,
    Operand.isTmp, Operand.virtualRegister, VirtualRegister.isArgument,
    VirtualRegister.toArgument, h1, hx]

/-- The range of a `LoadVarargs` the mark phase accepts lies within the locals: when the table
has fewer than `2^31` entries, the registers `start.offset() + i`, `i < limit`, do not reach
the arguments. -/
theorem varargs_range_local (t : Target) (g : Graph) (data : LoadVarargsData)
    (hsize : g.m_localVars + g.m_tmps < 2147483648)
    (hloc : data.start.isLocal = true) (hint : -2147483648 ≤ data.start.offset)
    (hslots : ∀ o, VarargsUses data o → slotOf t g o < g.m_localVars + g.m_tmps)
    (hlast : (VirtualRegister.mk (toInt32 (data.start.offset + data.limit - 1))).isLocal = true) :
    data.start.offset + data.limit ≤ 0 := by
  simp only [VirtualRegister.isLocal, decide_eq_true_eq] at hloc hlast
  by_contra hpos
  have hpos1 : 1 ≤ data.start.offset + data.limit := by omega
  by_cases hsum : data.start.offset + data.limit - 1 < 2147483648
  · have : toInt32 (data.start.offset + data.limit - 1) = data.start.offset + data.limit - 1 := by
      unfold toInt32
      omega
    omega
  · have h0 := hslots (Operand.ofVirtualRegister ⟨toInt32 (data.start.offset
        + ((-data.start.offset).toNat : Nat))⟩)
      (Or.inr ⟨by simp [VirtualRegister.isLocal, hloc], (-data.start.offset).toNat,
        by omega, rfl⟩)
    have h1 := hslots (Operand.ofVirtualRegister ⟨toInt32 (data.start.offset
        + ((-data.start.offset + 2147483647).toNat : Nat))⟩)
      (Or.inr ⟨by simp [VirtualRegister.isLocal, hloc], (-data.start.offset + 2147483647).toNat,
        by omega, rfl⟩)
    have e0 : toInt32 (data.start.offset + ((-data.start.offset).toNat : Nat)) = 0 := by
      unfold toInt32
      omega
    have e1 : toInt32 (data.start.offset + ((-data.start.offset + 2147483647).toNat : Nat))
        = 2147483647 := by
      unfold toInt32
      omega
    rw [e0, slotOf_argument t g 0 (by omega)] at h0
    rw [e1, slotOf_argument t g 2147483647 (by omega)] at h1
    unfold toSizeT at h0 h1
    omega

/-! ## The resolve and mark phases: claims C15 to C20 -/

/-- C15, as the code has it: in the resolve phase of `StackLayoutPhase::run` an out-of-range
operand index is not fatal. A root variable whose non-argument operand index is not below the
size of the allocation table, and a stack-access record whose local operand index is not below
it, are skipped by the bound check (`continue`): the iteration returns normally, the record
keeps its `machineLocal`, and the phase goes on. -/
theorem C15_out_of_range_is_skipped (t : Target) (g g1 : Graph) (marked : Operands × Bool)
    (hm : markPhase t g = .ok marked) (hr : run t g = .ok g1) :
    (∀ (i : Nat) (v : VariableAccessData), g.m_variableAccessData[i]? = some v →
        v.isRoot = true → v.m_operand.isArgument = false →
        (allocation t.calleeSaveSpace marked.1.values).length
          ≤ marked.1.operandIndex t v.m_operand →
        resolveVariable t marked.1 (allocation t.calleeSaveSpace marked.1.values) v = .ok v
          ∧ g1.m_variableAccessData[i]? = some v)
      ∧ (∀ (i : Nat) (d : StackAccessData), g.m_stackAccessData[i]? = some d →
          d.operand.isLocal = true →
          (allocation t.calleeSaveSpace marked.1.values).length ≤ toSizeT d.operand.toLocal →
          resolveStackAccess t marked.1 (allocation t.calleeSaveSpace marked.1.values) d = .ok d
            ∧ g1.m_stackAccessData[i]? = some d) := by
  obtain ⟨vars, stack, scope, frames, varargs, hvars, hstack, _, _, _, hg1⟩ :=
    run_layOut t g g1 marked hm hr
  constructor
  · intro i v hv hroot harg hlen
    have hbody : resolveVariable t marked.1 (allocation t.calleeSaveSpace marked.1.values) v
        = .ok v := by
      simp [resolveVariable, hroot, harg, hlen]
    refine ⟨hbody, ?_⟩
    have h1 := (run_variables t g g1 marked hm hr).1
    rw [h1, List.getElem?_map, hv]
    have h2 := resolveVariable_eq t marked.1 (allocation t.calleeSaveSpace marked.1.values) v
    rw [hbody] at h2
    simp only [Except.ok.injEq] at h2
    simp [← h2]
  · intro i d hd hlocal hlen
    have harg := Operand.isArgument_of_isLocal d.operand hlocal
    have hbody : resolveStackAccess t marked.1 (allocation t.calleeSaveSpace marked.1.values) d
        = .ok d := by
      simp [resolveStackAccess, harg, hlocal, hlen]
    refine ⟨hbody, ?_⟩
    obtain ⟨d1, h1, h2⟩ := (resolveStackAccesses_getElem? t _ _ _ _ hstack).2 i d hd
    rw [hbody] at h2
    simp only [Except.ok.injEq] at h2
    subst hg1
    rw [h2]
    exact h1

/-- Witness of C15 as the code has it on `outOfRangeGraph`: the variable that names local 9 and
the stack-access record that names local 12 are left as they were. -/
theorem C15_out_of_range_is_skipped_witness :
    (markPhase exampleTarget outOfRangeGraph = .ok (Operands.create 0 8 0 false, false)
        ∧ run exampleTarget outOfRangeGraph = .ok outOfRangeGraph)
      ∧ outOfRangeGraph.m_variableAccessData[0]?
          = some ⟨none, Operand.ofLocal 9, VirtualRegister.invalid, FlushFormat.FlushedJSValue⟩
      ∧ outOfRangeGraph.m_stackAccessData[0]?
          = some ⟨Operand.ofLocal 12, VirtualRegister.invalid, FlushFormat.FlushedJSValue⟩ :=
  ⟨⟨rfl, rfl⟩,
    ((C15_out_of_range_is_skipped exampleTarget outOfRangeGraph outOfRangeGraph
      (Operands.create 0 8 0 false, false) rfl rfl).1 0 _ rfl rfl rfl (by decide)).2,
    ((C15_out_of_range_is_skipped exampleTarget outOfRangeGraph outOfRangeGraph
      (Operands.create 0 8 0 false, false) rfl rfl).2 0 _ rfl rfl (by decide)).2⟩

/-- Counterexample to C15 as stated: on `outOfRangeGraph` the root variable 0 has the operand
index 9 and the stack-access record 0 the local index 12, both past the eight entries of the
allocation table, and `run` returns normally instead of stopping on an assertion. -/
theorem C15_counterexample :
    (allocation exampleTarget.calleeSaveSpace (Operands.create 0 8 0 false).values).length = 8
      ∧ (Operands.create 0 8 0 false).operandIndex exampleTarget (Operand.ofLocal 9) = 9
      ∧ toSizeT (Operand.ofLocal 12).toLocal = 12
      ∧ run exampleTarget outOfRangeGraph = .ok outOfRangeGraph
      ∧ ¬ ∃ e, run exampleTarget outOfRangeGraph = .error e := by
  refine ⟨by decide, by decide, by decide, rfl, ?_⟩
  rintro ⟨e, he⟩
  have h : run exampleTarget outOfRangeGraph = .ok outOfRangeGraph := rfl
  rw [h] at he
  simp at he

/-- C16: when the mark phase returns, an entry of the used-operands table is set if and
only if it is the slot of an operand the graph mentions: (a) the non-argument operand of the
variable of a `GetLocal`/`SetLocal`/`Flush`/`PhantomLocal` of a non-null block, (b) the
non-argument operand of the stack-access record of a `PutStack`/`GetStack`, (c) the count or a
register of the start/limit range of a `LoadVarargs`/`ForwardVarargs`, (d) the argument-count
slot of a varargs inline call frame or an argument-with-fixup slot of an inline call frame;
every other entry stays false. -/
theorem C16_used_set_is_syntactic (t : Target) (g : Graph) (marked : Operands × Bool)
    (hm : markPhase t g = .ok marked) (j : Nat) :
    (marked.1.values[j]? = some true ↔ ∃ o, SyntacticallyUsed t g o ∧ slotOf t g o = j)
      ∧ (j < g.m_localVars + g.m_tmps →
          (¬ ∃ o, SyntacticallyUsed t g o ∧ slotOf t g o = j) →
          marked.1.values[j]? = some false) := by
  obtain ⟨h1, h2⟩ := markPhase_spec t g
  have hmark : Markable t g := by
    by_contra hn
    exact h2 hn marked hm
  obtain ⟨marked1, hm1, hshape, _, hj⟩ := h1 hmark
  rw [hm] at hm1
  simp only [Except.ok.injEq] at hm1
  subst hm1
  refine ⟨hj j, ?_⟩
  intro hlt hno
  have hlen : j < marked.1.values.length := by
    rw [hshape.2.2]
    exact hlt
  rw [List.getElem?_eq_getElem hlen]
  cases hv : marked.1.values[j] with
  | false => rfl
  | true =>
    exfalso
    apply hno
    rw [← hj j, List.getElem?_eq_getElem hlen, hv]

/-- Witness of C16 on `exampleGraph`: entry 3 of the table is set, and local 3 is the operand
of the variable of a `SetLocal`. -/
theorem C16_used_set_is_syntactic_witness :
    markPhase exampleTarget exampleGraph = .ok (exampleUsedOperands, true)
      ∧ (exampleUsedOperands.values[3]? = some true
          ↔ ∃ o, SyntacticallyUsed exampleTarget exampleGraph o
              ∧ slotOf exampleTarget exampleGraph o = 3) :=
  ⟨rfl, (C16_used_set_is_syntactic exampleTarget exampleGraph (exampleUsedOperands, true)
    rfl 3).1⟩

/-- C17: in the mark loop over the nodes argument slots are never marked. A `GetLocal`,
`SetLocal`, `Flush` or `PhantomLocal` whose variable has an argument operand and a `PutStack`
or `GetStack` whose record has an argument operand leave the table and the flag as they are; a
`LoadVarargs` or `ForwardVarargs` whose start register is not a local sets no range, only the
entry of its count register; the table the mark phase returns has zero argument entries and
one entry per local and temporary; and every entry the loop over the nodes sets is the slot
of an operand of a node that is not an argument. For the last part the count register of a
varargs record is a local, as the graph builds it, registers hold an `int` and every local
index fits one. -/
theorem C17_arguments_are_skipped (t : Target) (g : Graph) (node : Node)
    (st : Operands × Bool) :
    (∀ root, (node.op = NodeType.GetLocal ∨ node.op = NodeType.SetLocal
          ∨ node.op = NodeType.Flush ∨ node.op = NodeType.PhantomLocal) →
        variableAccessData g.m_variableAccessData node.opInfo = .ok root →
        root.m_operand.isArgument = true → markNode t g node st = .ok st)
      ∧ (∀ stack, (node.op = NodeType.PutStack ∨ node.op = NodeType.GetStack) →
        g.m_stackAccessData[node.opInfo]? = some stack →
        stack.operand.isArgument = true → markNode t g node st = .ok st)
      ∧ (∀ data, (node.op = NodeType.LoadVarargs ∨ node.op = NodeType.ForwardVarargs) →
        g.m_loadVarargsData[node.opInfo]? = some data → data.start.isLocal = false →
        markNode t g node st
          = (match st.1.setOperand t (Operand.ofVirtualRegister data.count) with
            | .error e => .error e
            | .ok used => .ok (used, true)))
      ∧ (∀ marked, markPhase t g = .ok marked →
        marked.1.numArguments = 0 ∧ marked.1.numLocals = g.m_localVars
          ∧ marked.1.values.length = g.m_localVars + g.m_tmps)
      ∧ (g.m_localVars + g.m_tmps < 2147483648 →
        (∀ data, data ∈ g.m_loadVarargsData →
          data.count.isLocal = true ∧ -2147483648 ≤ data.start.offset) →
        ∀ st1, markBlocks t g g.blocks (initialOperands g, false) = .ok st1 →
          ∀ j : Nat, st1.1.values[j]? = some true →
            ∃ nodes node1 o, some nodes ∈ g.blocks ∧ node1 ∈ nodes ∧ NodeUses g node1 o
              ∧ o.isArgument = false ∧ slotOf t g o = j) := by
  refine ⟨?_, ?_, ?_, ?_, ?_⟩
  · intro root hop hv harg
    rcases hop with hop | hop | hop | hop <;>
      simp [markNode, hop, markLocalAccess, hv, markOperand, harg]
  · intro stack hop hv harg
    rcases hop with hop | hop <;>
      simp [markNode, hop, markStackAccess, hv, markOperand, harg]
  · intro data hop hv hloc
    rcases hop with hop | hop <;>
      · simp only [markNode, hop, markVarargsNode, hv, markLoadVarargs]
        cases st.1.setOperand t (Operand.ofVirtualRegister data.count) with
        | error e => rfl
        | ok used => simp [hloc]
  · intro marked hm
    obtain ⟨h1, h2⟩ := markPhase_spec t g
    have hmark : Markable t g := by
      by_contra hn
      exact h2 hn marked hm
    obtain ⟨marked1, hm1, hshape, _, _⟩ := h1 hmark
    rw [hm] at hm1
    simp only [Except.ok.injEq] at hm1
    subst hm1
    exact hshape
  · intro hsize hrec st1 hst1 j hj
    obtain ⟨s1, s2⟩ := markBlocks_stepSpec t g g.blocks (initialOperands g, false)
      (initialOperands_shaped g)
    have hP : ∀ nodes node, some nodes ∈ g.blocks → node ∈ nodes → NodeMarkable t g node := by
      by_contra hn
      exact s2 hn st1 hst1
    obtain ⟨st2, hst2, _, _, hjj⟩ := s1 hP
    rw [hst1] at hst2
    simp only [Except.ok.injEq] at hst2
    subst hst2
    have hlocal : ∀ r : VirtualRegister, r.isLocal = true →
        (Operand.ofVirtualRegister r).isArgument = false := by
      intro r hr
      simp [Operand.ofVirtualRegister, Operand.isArgument, hr]
    rcases (hjj j).1 hj with h0 | ⟨nodes, node1, hb, hn, o, ho, hs⟩
    · exact absurd h0 (initialOperands_false g j)
    · refine ⟨nodes, node1, o, hb, hn, ho, ?_, hs⟩
      rcases ho with ⟨_, root, _, _, harg⟩ | ⟨_, stack, _, _, harg⟩ | ⟨hop, data, hd, huse⟩
      · exact harg
      · exact harg
      · have hmem : data ∈ g.m_loadVarargsData := by
          obtain ⟨hlt, hget⟩ := List.getElem?_eq_some.1 hd
          exact hget ▸ List.getElem_mem hlt
        obtain ⟨hcount, hint⟩ := hrec data hmem
        rcases huse with rfl | ⟨hloc, i, hi, rfl⟩
        · exact hlocal _ hcount
        · have hv : node1.isVarargs = true := by
            simpa [Node.isVarargs] using hop
          obtain ⟨data1, hd1, hslots, hlast⟩ := (hP nodes node1 hb hn).varargs hv
          rw [hd] at hd1
          simp only [Option.some.injEq] at hd1
          subst hd1
          have hrange := varargs_range_local t g data hsize hloc hint hslots (hlast hloc)
          apply hlocal
          simp only [VirtualRegister.isLocal, decide_eq_true_eq]
          unfold toInt32
          omega

/-- Witness of C17 on `exampleGraph`: a `Flush` of variable 3, whose operand is the argument
register 6, leaves the table as it is; the table has eight entries, none for an argument; and
entry 3, which the loop over the nodes sets, is the slot of an operand that is not an
argument. -/
theorem C17_arguments_are_skipped_witness :
    variableAccessData exampleGraph.m_variableAccessData 3
        = .ok ⟨none, Operand.ofVirtualRegister ⟨6⟩, VirtualRegister.invalid,
            FlushFormat.FlushedCell⟩
      ∧ markNode exampleTarget exampleGraph ⟨NodeType.Flush, 3⟩ (exampleUsedOperands, false)
          = .ok (exampleUsedOperands, false)
      ∧ markPhase exampleTarget exampleGraph = .ok (exampleUsedOperands, true)
      ∧ exampleUsedOperands.numArguments = 0
      ∧ exampleUsedOperands.values.length = 8 + 0
      ∧ markBlocks exampleTarget exampleGraph exampleGraph.blocks
          (initialOperands exampleGraph, false) = .ok (exampleUsedOperands, true)
      ∧ ∃ nodes node1 o, some nodes ∈ exampleGraph.blocks ∧ node1 ∈ nodes
          ∧ NodeUses exampleGraph node1 o ∧ o.isArgument = false
          ∧ slotOf exampleTarget exampleGraph o = 3 :=
  ⟨rfl,
    (C17_arguments_are_skipped exampleTarget exampleGraph ⟨NodeType.Flush, 3⟩
      (exampleUsedOperands, false)).1 _ (Or.inr (Or.inr (Or.inl rfl))) rfl rfl,
    rfl,
    ((C17_arguments_are_skipped exampleTarget exampleGraph ⟨NodeType.Flush, 3⟩
      (exampleUsedOperands, false)).2.2.2.1 (exampleUsedOperands, true) rfl).1,
    ((C17_arguments_are_skipped exampleTarget exampleGraph ⟨NodeType.Flush, 3⟩
      (exampleUsedOperands, false)).2.2.2.1 (exampleUsedOperands, true) rfl).2.2,
    rfl,
    (C17_arguments_are_skipped exampleTarget exampleGraph ⟨NodeType.Flush, 3⟩
      (exampleUsedOperands, false)).2.2.2.2 (by decide) (by decide)
      (exampleUsedOperands, true) rfl 3 rfl⟩

/-- C18: the result of the mark phase does not depend on the traversal order. For blocks
that are a permutation of the graph's blocks, the nodes of each block permuted, the mark phase
returns the same used-operands table and flag as on the graph itself (so the allocation table,
a function of the used-operands table, is the same), and `run` resolves every variable, stack
access, scope register, inline call frame and varargs record to the same machine location. -/
theorem C18_traversal_order_is_irrelevant (t : Target) (g : Graph)
    (blocks1 : List (Option (List Node))) (h : BlocksPermuted g.blocks blocks1) :
    (∀ marked, markPhase t { g with blocks := blocks1 } = .ok marked
        ↔ markPhase t g = .ok marked)
      ∧ (∀ g1, run t g = .ok g1 →
          run t { g with blocks := blocks1 } = .ok { g1 with blocks := blocks1 })
      ∧ (∀ g1, run t { g with blocks := blocks1 } = .ok g1 →
          run t g = .ok { g1 with blocks := g.blocks }) := by
  have hsame : SameNodes g.blocks blocks1 := h.sameNodes
  have hback : ({ ({ g with blocks := blocks1 } : Graph) with blocks := g.blocks } : Graph)
      = g := by
    cases g
    rfl
  refine ⟨?_, ?_, ?_⟩
  · intro marked
    constructor
    · intro hm
      have := markPhase_sameNodes t { g with blocks := blocks1 } g.blocks marked hsame.symm hm
      rw [hback] at this
      exact this
    · exact markPhase_sameNodes t g blocks1 marked hsame
  · intro g1 hr
    exact run_sameNodes t g g1 blocks1 hsame hr
  · intro g1 hr
    have := run_sameNodes t { g with blocks := blocks1 } g1 g.blocks hsame.symm hr
    rw [hback] at this
    exact this

/-- Witness of C18 on `exampleGraph`: with the blocks rotated and the nodes of each block
reordered the mark phase returns the same table and `run` the same machine locations. -/
theorem C18_traversal_order_is_irrelevant_witness :
    BlocksPermuted exampleGraph.blocks permutedBlocks
      ∧ markPhase exampleTarget exampleGraph = .ok (exampleUsedOperands, true)
      ∧ markPhase exampleTarget { exampleGraph with blocks := permutedBlocks }
          = .ok (exampleUsedOperands, true)
      ∧ run exampleTarget { exampleGraph with blocks := permutedBlocks }
          = .ok { exampleResult with blocks := permutedBlocks } :=
  have hperm : BlocksPermuted exampleGraph.blocks permutedBlocks :=
    ⟨[some [⟨NodeType.Other, 0⟩, ⟨NodeType.GetLocal, 1⟩, ⟨NodeType.SetLocal, 2⟩], none,
        some [⟨NodeType.LoadVarargs, 0⟩, ⟨NodeType.PutStack, 0⟩]],
      List.Forall₂.cons (by decide : List.Perm _ _)
        (List.Forall₂.cons trivial
          (List.Forall₂.cons (by decide : List.Perm _ _) List.Forall₂.nil)),
      by decide⟩
  ⟨hperm, rfl,
    ((C18_traversal_order_is_irrelevant exampleTarget exampleGraph permutedBlocks hperm).1
      (exampleUsedOperands, true)).2 rfl,
    (C18_traversal_order_is_irrelevant exampleTarget exampleGraph permutedBlocks hperm).2.1
      exampleResult rfl⟩

/-- C19: for every inline-variable record and every argument position `k` of its inline call
frame's argument-with-fixup list, after the phase `m_argumentsWithFixup[k]` is the value
recovery of the explicit "source is dead" value source if the argument position has no
associated variable, and otherwise of the value source built from the `machineLocal` and the
flush format of the root of that variable, as the phase left them. Records are taken to point
to distinct frames, one frame per inlined call. -/
theorem C19_arguments_with_fixup (t : Target) (g g1 : Graph) (hr : run t g = .ok g1)
    (hnodup : (g.m_inlineVariableData.map InlineVariableData.inlineCallFrame).Nodup)
    (data : InlineVariableData) (hdata : data ∈ g.m_inlineVariableData)
    (f0 : InlineCallFrame) (hf0 : g.inlineCallFrames[data.inlineCallFrame]? = some f0)
    (k : Nat) (hk : k < f0.m_argumentsWithFixup.length) :
    ∃ f1 position, g1.inlineCallFrames[data.inlineCallFrame]? = some f1
      ∧ f1.m_argumentsWithFixup.length = f0.m_argumentsWithFixup.length
      ∧ g.m_argumentPositions[(data.argumentPositionStart + k) % 4294967296]? = some position
      ∧ (position.firstVariable = none →
          f1.m_argumentsWithFixup[k]? = some (ValueRecovery.ofSource ValueSource.sourceIsDead))
      ∧ (∀ first, position.firstVariable = some first →
          ∃ r root, find g1.m_variableAccessData first = some r
            ∧ g1.m_variableAccessData[r]? = some root ∧ root.isRoot = true
            ∧ f1.m_argumentsWithFixup[k]? = some (ValueRecovery.ofSource
                (ValueSource.forFlushFormat root.m_machineLocal root.flushFormat))) := by
  obtain ⟨marked, hm⟩ := run_ok_marked t g g1 hr
  obtain ⟨vars, stack, scope, frames, varargs, _, _, _, hframes, _, hg1⟩ :=
    run_layOut t g g1 marked hm hr
  subst hg1
  obtain ⟨f1, hf1, hres⟩ := resolveInlineVariableData_record t _ _ _ _ _ _ _ hframes hnodup
    data hdata f0 hf0
  have hspec := resolveInlineCallFrame_spec t _ _ _ _ data f0 f1 hres
  obtain ⟨hlen, hlow, _⟩ := resolveFrameArguments_spec _ _ _ _ _ _ hspec.2.2.2.2.2.1
  obtain ⟨rec, hrec, hget⟩ := hlow k hk hk
  unfold argumentRecovery at hrec
  split at hrec
  · simp at hrec
  · rename_i position hpos
    refine ⟨f1, position, hf1, hlen, hpos, ?_, ?_⟩
    · intro hnone
      simp only [hnone, Except.ok.injEq] at hrec
      rw [hget, hrec]
    · intro first hfirst
      simp only [hfirst] at hrec
      split at hrec
      · simp at hrec
      · rename_i root hroot
        simp only [Except.ok.injEq] at hrec
        unfold variableAccessData at hroot
        split at hroot
        · simp at hroot
        · rename_i r hfind
          split at hroot
          · simp at hroot
          · rename_i v hv
            simp only [Except.ok.injEq] at hroot
            subst hroot
            obtain ⟨w, hw, hp⟩ := findFrom_isRoot _ _ _ _ hfind
            rw [hv] at hw
            simp only [Option.some.injEq] at hw
            subst hw
            refine ⟨r, v, hfind, hv, by simp [VariableAccessData.isRoot, hp], ?_⟩
            rw [hget, hrec]

/-- Witness of C19 on `inlineGraph`: argument position 0 of the frame holds a variable whose root
got the physical slot 2, argument position 1 has none. -/
theorem C19_arguments_with_fixup_witness :
    (run exampleTarget inlineGraph = .ok inlineResult
        ∧ (inlineGraph.m_inlineVariableData.map InlineVariableData.inlineCallFrame).Nodup
        ∧ (⟨0, 0, some 0⟩ : InlineVariableData) ∈ inlineGraph.m_inlineVariableData)
      ∧ ∃ f1, inlineResult.inlineCallFrames[0]? = some f1
        ∧ f1.m_argumentsWithFixup[0]? = some (ValueRecovery.ofSource
            (ValueSource.forFlushFormat (virtualRegisterForLocal 2) FlushFormat.FlushedInt32))
        ∧ f1.m_argumentsWithFixup[1]? = some (ValueRecovery.ofSource ValueSource.sourceIsDead) := by
  refine ⟨⟨rfl, by decide, by decide⟩, ?_⟩
  obtain ⟨f1, _, h1, _, _, h4, _⟩ := C19_arguments_with_fixup exampleTarget inlineGraph
    inlineResult rfl (by decide) ⟨0, 0, some 0⟩ (by decide)
    ⟨true, -10, [ValueRecovery.constant 0, ValueRecovery.constant 0], VirtualRegister.invalid,
      true, ValueRecovery.constant 0⟩ rfl 1 (by decide)
  refine ⟨f1, h1, ?_, ?_⟩
  · have h2 : inlineResult.inlineCallFrames[0]? = some
        ⟨true, -10,
          [ValueRecovery.ofSource
              (ValueSource.forFlushFormat (virtualRegisterForLocal 2) FlushFormat.FlushedInt32),
            ValueRecovery.ofSource ValueSource.sourceIsDead],
          virtualRegisterForLocal 3, true,
          ValueRecovery.ofSource
            (ValueSource.forFlushFormat (virtualRegisterForLocal 0) FlushFormat.FlushedCell)⟩ :=
      rfl
    rw [h2] at h1
    simp only [Option.some.injEq] at h1
    rw [← h1]
    rfl
  · have h2 : inlineResult.inlineCallFrames[0]? = some
        ⟨true, -10,
          [ValueRecovery.ofSource
              (ValueSource.forFlushFormat (virtualRegisterForLocal 2) FlushFormat.FlushedInt32),
            ValueRecovery.ofSource ValueSource.sourceIsDead],
          virtualRegisterForLocal 3, true,
          ValueRecovery.ofSource
            (ValueSource.forFlushFormat (virtualRegisterForLocal 0) FlushFormat.FlushedCell)⟩ :=
      rfl
    rw [h2] at h1
    simp only [Option.some.injEq] at h1
    rw [← h1]
    rfl

/-- C20: if the graph does not need a scope register, `StackLayoutPhase::run` does not look it up
in the allocation table and the code block's scope register becomes the invalid register;
otherwise it becomes `assign(previous scope register)`, the table lookup used for variables.
Likewise the `argumentCountRegister` of the varargs inline call frame of every inline-variable
record becomes `assign` of the register `stackOffset + argumentCountIncludingThis`, and the
one of a frame that is not varargs is left alone. -/
theorem C20_scope_and_argument_count (t : Target) (g g1 : Graph) (marked : Operands × Bool)
    (hm : markPhase t g = .ok marked) (hr : run t g = .ok g1) :
    (g.needsScopeRegister = false →
        resolveScopeRegister t marked.1 (allocation t.calleeSaveSpace marked.1.values) g
            = .ok VirtualRegister.invalid
          ∧ g1.scopeRegister = VirtualRegister.invalid)
      ∧ (g.needsScopeRegister = true →
          assign t marked.1 (allocation t.calleeSaveSpace marked.1.values)
            (Operand.ofVirtualRegister g.scopeRegister) = .ok g1.scopeRegister)
      ∧ (∀ (data : InlineVariableData) (f0 : InlineCallFrame),
          data ∈ g.m_inlineVariableData →
          g.inlineCallFrames[data.inlineCallFrame]? = some f0 →
          ∃ f1, g1.inlineCallFrames[data.inlineCallFrame]? = some f1
            ∧ f1.isVarargs = f0.isVarargs ∧ f1.stackOffset = f0.stackOffset
            ∧ (f0.isVarargs = true →
                assign t marked.1 (allocation t.calleeSaveSpace marked.1.values)
                  (Operand.ofVirtualRegister
                    ⟨toInt32 (f0.stackOffset + t.argumentCountIncludingThis)⟩)
                  = .ok f1.argumentCountRegister)
            ∧ (f0.isVarargs = false →
                f1.argumentCountRegister = f0.argumentCountRegister)) := by
  obtain ⟨vars, stack, scope, frames, varargs, _, _, hscope, hframes, _, hg1⟩ :=
    run_layOut t g g1 marked hm hr
  subst hg1
  refine ⟨?_, ?_, ?_⟩
  · intro hneed
    have h1 : resolveScopeRegister t marked.1 (allocation t.calleeSaveSpace marked.1.values) g
        = .ok VirtualRegister.invalid := by
      simp [resolveScopeRegister, hneed]
    rw [h1] at hscope
    simp only [Except.ok.injEq] at hscope
    exact ⟨h1, hscope.symm⟩
  · intro hneed
    simp only [resolveScopeRegister, hneed, Bool.not_true, Bool.false_eq_true, if_false]
      at hscope
    exact hscope
  · intro data f0 hdata hf0
    obtain ⟨f1, hf1, hv, hs, _, _, hcount⟩ :=
      (resolveInlineVariableData_frames t _ _ _ _ _ _ _ hframes).2 data.inlineCallFrame f0 hf0
    have hc := hcount ⟨data, hdata, rfl⟩
    exact ⟨f1, hf1, hv, hs, hc.1, hc.2⟩

/-- Witness of C20 on `inlineGraph`: the scope register (local 2) and the argument count of the
varargs frame (local 5) are looked up in the allocation table. -/
theorem C20_scope_and_argument_count_witness :
    (markPhase exampleTarget inlineGraph = .ok (inlineUsedOperands, false)
        ∧ run exampleTarget inlineGraph = .ok inlineResult
        ∧ inlineGraph.needsScopeRegister = true)
      ∧ assign exampleTarget inlineUsedOperands
          (allocation exampleTarget.calleeSaveSpace inlineUsedOperands.values)
          (Operand.ofVirtualRegister inlineGraph.scopeRegister)
        = .ok inlineResult.scopeRegister
      ∧ inlineResult.scopeRegister = virtualRegisterForLocal 0 :=
  ⟨⟨rfl, rfl, rfl⟩,
    (C20_scope_and_argument_count exampleTarget inlineGraph inlineResult
      (inlineUsedOperands, false) rfl rfl).2.1 rfl,
    rfl⟩

/-! ## The fix-up of the varargs nodes: claim C21 -/

/-- A node that is neither a `LoadVarargs` nor a `ForwardVarargs` is left alone by the fix-up. -/
theorem fixupNode_of_not_varargs (t : Target) (usedOperands : Operands) (alloc : List Nat)
    (node : Node) (table : List LoadVarargsData) (h : node.isVarargs = false) :
    fixupNode t usedOperands alloc node table = .ok table := by
  have hv : ¬ (node.op = NodeType.LoadVarargs ∨ node.op = NodeType.ForwardVarargs) := by
    intro hor
    simp [Node.isVarargs] at h
    rcases hor with h1 | h1
    · exact h.1 h1
    · exact h.2 h1
  unfold fixupNode
  split
  · exact absurd (Or.inl ‹node.op = NodeType.LoadVarargs›) hv
  · exact absurd (Or.inr ‹node.op = NodeType.ForwardVarargs›) hv
  · rfl

theorem fixupNodes_of_not_varargs (t : Target) (usedOperands : Operands) (alloc : List Nat)
    (nodes : List Node) (table : List LoadVarargsData)
    (h : nodes.any Node.isVarargs = false) :
    fixupNodes t usedOperands alloc nodes table = .ok table := by
  induction nodes with
  | nil => rfl
  | cons node rest ih =>
    simp only [List.any_cons, Bool.or_eq_false_iff] at h
    simp only [fixupNodes, ih h.2]
    exact fixupNode_of_not_varargs t usedOperands alloc node table h.1

/-- Without a `LoadVarargs`/`ForwardVarargs` in any block the fix-up traversal changes
nothing. -/
theorem fixupBlocks_of_not_varargs (t : Target) (usedOperands : Operands) (alloc : List Nat)
    (blocks : List (Option (List Node))) (table : List LoadVarargsData)
    (h : blocks.any blockNeedsFixup = false) :
    fixupBlocks t usedOperands alloc blocks table = .ok table := by
  induction blocks with
  | nil => rfl
  | cons block rest ih =>
    simp only [List.any_cons, Bool.or_eq_false_iff] at h
    simp only [fixupBlocks, ih h.2]
    cases block with
    | none => rfl
    | some nodes => exact fixupNodes_of_not_varargs t usedOperands alloc nodes table h.1

/-- The flag the mark phase returns tells whether a block holds a `LoadVarargs` or a
`ForwardVarargs`. -/
theorem markPhase_flag (t : Target) (g : Graph) (marked : Operands × Bool)
    (hm : markPhase t g = .ok marked) : marked.2 = g.blocks.any blockNeedsFixup := by
  obtain ⟨h1, h2⟩ := markPhase_spec t g
  have hmark : Markable t g := by
    by_contra hn
    exact h2 hn marked hm
  obtain ⟨marked1, hm1, _, hflag, _⟩ := h1 hmark
  rw [hm] at hm1
  simp only [Except.ok.injEq] at hm1
  subst hm1
  exact hflag

theorem any_blockNeedsFixup_iff (blocks : List (Option (List Node))) :
    blocks.any blockNeedsFixup = true
      ↔ ∃ nodes node, some nodes ∈ blocks ∧ node ∈ nodes ∧ node.isVarargs = true := by
  simp only [List.any_eq_true]
  constructor
  · rintro ⟨b, hb, hfix⟩
    cases b with
    | none => simp [blockNeedsFixup] at hfix
    | some nodes =>
      simp only [blockNeedsFixup, List.any_eq_true] at hfix
      obtain ⟨node, hn, hv⟩ := hfix
      exact ⟨nodes, node, hb, hn, hv⟩
  · rintro ⟨nodes, node, hb, hn, hv⟩
    refine ⟨some nodes, hb, ?_⟩
    simp only [blockNeedsFixup, List.any_eq_true]
    exact ⟨node, hn, hv⟩

/-- Guarding the fix-up traversal with the flag of the mark phase gives what the traversal
gives when it always runs. -/
theorem fixupVarargs_eq_fixupBlocks (t : Target) (usedOperands : Operands) (alloc : List Nat)
    (g : Graph) :
    fixupVarargs t usedOperands alloc g (g.blocks.any blockNeedsFixup)
      = fixupBlocks t usedOperands alloc g.blocks g.m_loadVarargsData := by
  unfold fixupVarargs
  cases h : g.blocks.any blockNeedsFixup with
  | true => simp
  | false =>
    simp only [Bool.false_eq_true, if_false]
    exact (fixupBlocks_of_not_varargs t usedOperands alloc g.blocks _ h).symm

/-- What the fix-up of one record stores. -/
theorem fixupLoadVarargs_spec (t : Target) (usedOperands : Operands) (alloc : List Nat)
    (d0 d1 : LoadVarargsData) (h : fixupLoadVarargs t usedOperands alloc d0 = .ok d1) :
    assign t usedOperands alloc (Operand.ofVirtualRegister d0.count) = .ok d1.machineCount
      ∧ assign t usedOperands alloc (Operand.ofVirtualRegister d0.start) = .ok d1.machineStart
      ∧ d1.count = d0.count ∧ d1.start = d0.start ∧ d1.limit = d0.limit := by
  unfold fixupLoadVarargs at h
  split at h
  · simp at h
  · rename_i mc hc
    split at h
    · simp at h
    · rename_i ms hs
      simp only [Except.ok.injEq] at h
      subst h
      exact ⟨hc, hs, rfl, rfl, rfl⟩

/-- C21: after `StackLayoutPhase::run`, the record of every `LoadVarargs`/`ForwardVarargs` node
of every non-null block has `machineCount = assign(count)` and `machineStart = assign(start)`,
with the `assign` of the resolve phase; the flag `hasNodesThatNeedFixup` is set if and only if
the mark phase saw such a node, and the fix-up guarded by the flag gives the same table of
records as the traversal run unconditionally. -/
theorem C21_varargs_fixup (t : Target) (g g1 : Graph) (marked : Operands × Bool)
    (hm : markPhase t g = .ok marked) (hr : run t g = .ok g1) :
    (marked.2 = true
        ↔ ∃ nodes node, some nodes ∈ g.blocks ∧ node ∈ nodes ∧ node.isVarargs = true)
      ∧ fixupVarargs t marked.1 (allocation t.calleeSaveSpace marked.1.values) g marked.2
          = .ok g1.m_loadVarargsData
      ∧ fixupBlocks t marked.1 (allocation t.calleeSaveSpace marked.1.values) g.blocks
          g.m_loadVarargsData = .ok g1.m_loadVarargsData
      ∧ ∀ nodes node, some nodes ∈ g.blocks → node ∈ nodes → node.isVarargs = true →
          ∃ d0 d1, g.m_loadVarargsData[node.opInfo]? = some d0
            ∧ g1.m_loadVarargsData[node.opInfo]? = some d1
            ∧ assign t marked.1 (allocation t.calleeSaveSpace marked.1.values)
                (Operand.ofVirtualRegister d0.count) = .ok d1.machineCount
            ∧ assign t marked.1 (allocation t.calleeSaveSpace marked.1.values)
                (Operand.ofVirtualRegister d0.start) = .ok d1.machineStart
            ∧ d1.count = d0.count ∧ d1.start = d0.start ∧ d1.limit = d0.limit := by
  obtain ⟨vars, stack, scope, frames, varargs, _, _, _, _, hfix, hg1⟩ :=
    run_layOut t g g1 marked hm hr
  have hflag := markPhase_flag t g marked hm
  have hvar : g1.m_loadVarargsData = varargs := by rw [hg1]
  have hblocks : fixupBlocks t marked.1 (allocation t.calleeSaveSpace marked.1.values) g.blocks
      g.m_loadVarargsData = .ok varargs := by
    rw [← fixupVarargs_eq_fixupBlocks, ← hflag]
    exact hfix
  refine ⟨?_, by rw [hvar]; exact hfix, by rw [hvar]; exact hblocks, ?_⟩
  · rw [hflag]
    exact any_blockNeedsFixup_iff g.blocks
  · intro nodes node hb hn hv
    obtain ⟨a1, a2⟩ := fixupBlocks_fixSpec t marked.1
      (allocation t.calleeSaveSpace marked.1.values) g.m_loadVarargsData g.blocks _
      g.m_loadVarargsData (FixedAt.initial t marked.1 _ g.m_loadVarargsData)
    have hp : ∀ node, (∃ nodes, some nodes ∈ g.blocks ∧ node ∈ nodes) →
        NodeFixable t marked.1 (allocation t.calleeSaveSpace marked.1.values)
          g.m_loadVarargsData node := by
      by_contra hno
      exact a2 hno varargs hblocks
    obtain ⟨table1, htable, hfixed⟩ := a1 hp
    rw [hblocks] at htable
    simp only [Except.ok.injEq] at htable
    subst htable
    obtain ⟨d0, _, hd0, _⟩ := hp node ⟨nodes, hb, hn⟩ hv
    obtain ⟨d1, hd1, hget⟩ := (hfixed.2 node.opInfo d0 hd0).1
      (Or.inr ⟨node, ⟨nodes, hb, hn⟩, hv, rfl⟩)
    rw [hvar]
    exact ⟨d0, d1, hd0, hget, fixupLoadVarargs_spec t marked.1 _ d0 d1 hd1⟩

/-- Witness of C21 on `exampleGraph`: the record of the `LoadVarargs` (count local 5, start
local 7) gets the machine count local 3 and the machine start local 4. -/
theorem C21_varargs_fixup_witness :
    markPhase exampleTarget exampleGraph = .ok (exampleUsedOperands, true)
      ∧ run exampleTarget exampleGraph = .ok exampleResult
      ∧ exampleResult.m_loadVarargsData[0]?
          = some ⟨virtualRegisterForLocal 7, virtualRegisterForLocal 5,
              virtualRegisterForLocal 4, virtualRegisterForLocal 3, 1⟩
      ∧ fixupBlocks exampleTarget exampleUsedOperands
          (allocation exampleTarget.calleeSaveSpace exampleUsedOperands.values)
          exampleGraph.blocks exampleGraph.m_loadVarargsData
          = .ok exampleResult.m_loadVarargsData :=
  ⟨rfl, rfl, rfl,
    (C21_varargs_fixup exampleTarget exampleGraph exampleResult (exampleUsedOperands, true)
      rfl rfl).2.2.1⟩

/-! ## The resolve loops: claims C22 and C23 -/

/-- C22: `StackLayoutPhase::run` never assigns an entry of the variable-access table that is
not a union-find root: after the phase such an entry is still there and still not a root, and
its own `machineLocal` is what it was, as are its operand and its flush format; the table has
as many entries as before. -/
theorem C22_nonroot_is_not_assigned (t : Target) (g g1 : Graph) (hr : run t g = .ok g1)
    (i : Nat) (v : VariableAccessData) (hv : g.m_variableAccessData[i]? = some v)
    (hroot : v.isRoot = false) :
    g1.m_variableAccessData.length = g.m_variableAccessData.length
      ∧ (∃ v1, g1.m_variableAccessData[i]? = some v1
          ∧ v1.m_machineLocal = v.m_machineLocal ∧ v1.m_operand = v.m_operand
          ∧ v1.flushFormat = v.flushFormat ∧ v1.isRoot = false)
      ∧ ∀ v1, g1.m_variableAccessData[i]? = some v1 → v1.m_machineLocal = v.m_machineLocal := by
  obtain ⟨marked, hm⟩ := run_ok_marked t g g1 hr
  obtain ⟨hvars, _⟩ := run_variables t g g1 marked hm hr
  have hget : g1.m_variableAccessData[i]? = some v := by
    rw [hvars, List.getElem?_map, hv]
    simp [resolvedVariable, hroot]
  refine ⟨by rw [hvars, List.length_map], ⟨v, hget, rfl, rfl, rfl, hroot⟩, ?_⟩
  intro v1 hv1
  rw [hget] at hv1
  simp only [Option.some.injEq] at hv1
  rw [← hv1]

/-- Witness of C22 on `exampleGraph`: variable 1, unified with the root variable 0, keeps the
invalid register in its own field. -/
theorem C22_nonroot_is_not_assigned_witness :
    run exampleTarget exampleGraph = .ok exampleResult
      ∧ exampleGraph.m_variableAccessData[1]?
          = some ⟨some 0, Operand.ofLocal 1, VirtualRegister.invalid,
              FlushFormat.FlushedJSValue⟩
      ∧ ∃ v1, exampleResult.m_variableAccessData[1]? = some v1
          ∧ v1.m_machineLocal = VirtualRegister.invalid ∧ v1.m_operand = Operand.ofLocal 1
          ∧ v1.flushFormat = FlushFormat.FlushedJSValue ∧ v1.isRoot = false :=
  ⟨rfl, rfl, (C22_nonroot_is_not_assigned exampleTarget exampleGraph exampleResult rfl 1
    ⟨some 0, Operand.ofLocal 1, VirtualRegister.invalid, FlushFormat.FlushedJSValue⟩
    rfl rfl).2.1⟩

/-- The table index of a local operand is its local index. -/
theorem operandIndex_of_isLocal (t : Target) (used : Operands) (o : Operand)
    (h0 : used.numArguments = 0) (hloc : o.isLocal = true) :
    used.operandIndex t o = toSizeT o.toLocal := by
  simp only [Operand.isLocal, Bool.and_eq_true, decide_eq_true_eq, VirtualRegister.isLocal]
    at hloc
  have h1 : o.isTmp = false := by simp [Operand.isTmp, hloc.1]
  have h2 : o.virtualRegister.isArgument = false := by
    simp only [VirtualRegister.isArgument, decide_eq_false_iff_not, not_le]
    exact hloc.2
  simp [Operands.operandIndex, h1, h2, h0, Operand.toLocal]

/-- C23: after `StackLayoutPhase::run`, for every record of `m_stackAccessData`: an argument
operand yields `machineLocal` = the operand's own virtual register; for a local operand the
index `operand.toLocal()` agrees with `usedOperands.operandIndex(operand)`, and if it is in
range and marked used `machineLocal` is `virtualRegisterForLocal(allocation[index])`, while an
index out of range or not marked used leaves `machineLocal` unchanged. The `unsigned` counter
is assumed not to wrap around. -/
theorem C23_stack_access_resolution (t : Target) (g g1 : Graph) (marked : Operands × Bool)
    (hm : markPhase t g = .ok marked) (hr : run t g = .ok g1)
    (h : t.calleeSaveSpace + (g.m_localVars + g.m_tmps) ≤ UINT_MAX)
    (i : Nat) (d : StackAccessData) (hd : g.m_stackAccessData[i]? = some d) :
    ∃ d1, g1.m_stackAccessData[i]? = some d1
      ∧ d1.operand = d.operand ∧ d1.format = d.format
      ∧ (d.operand.isArgument = true → d1.machineLocal = d.operand.virtualRegister)
      ∧ (d.operand.isLocal = true →
          toSizeT d.operand.toLocal = marked.1.operandIndex t d.operand
            ∧ (marked.1.values[toSizeT d.operand.toLocal]? = some true →
                ∃ a, (allocation t.calleeSaveSpace marked.1.values)[toSizeT d.operand.toLocal]?
                    = some a
                  ∧ a ≠ UINT_MAX ∧ d1.machineLocal = virtualRegisterForLocal a)
            ∧ (marked.1.values[toSizeT d.operand.toLocal]? ≠ some true →
                d1.machineLocal = d.machineLocal)) := by
  obtain ⟨vars, stack, scope, frames, varargs, _, hstack, _, _, _, hg1⟩ :=
    run_layOut t g g1 marked hm hr
  obtain ⟨h0, _, hlen⟩ := markPhase_shape t g marked hm
  have hw : t.calleeSaveSpace + marked.1.values.length ≤ UINT_MAX := by
    rw [hlen]
    exact h
  obtain ⟨_, hall⟩ := resolveStackAccesses_getElem? t marked.1 _ _ _ hstack
  obtain ⟨d1, hd1, hres⟩ := hall i d hd
  have hstk : g1.m_stackAccessData = stack := by rw [hg1]
  rw [hstk]
  refine ⟨d1, hd1, ?_⟩
  unfold resolveStackAccess at hres
  by_cases harg : d.operand.isArgument = true
  · simp only [harg, if_true, Except.ok.injEq] at hres
    subst hres
    refine ⟨rfl, rfl, fun _ => rfl, ?_⟩
    intro hloc
    rw [Operand.isArgument_of_isLocal d.operand hloc] at harg
    exact absurd harg (by simp)
  · simp only [harg, Bool.false_eq_true, if_false] at hres
    by_cases hloc : d.operand.isLocal = true
    · have hidx := operandIndex_of_isLocal t marked.1 d.operand h0 hloc
      simp only [hloc, Bool.true_and, decide_eq_true_eq] at hres
      by_cases hrange : (allocation t.calleeSaveSpace marked.1.values).length
          ≤ toSizeT d.operand.toLocal
      · simp only [hrange, if_true, Except.ok.injEq] at hres
        subst hres
        refine ⟨rfl, rfl, fun ha => absurd ha harg, fun _ => ⟨hidx.symm, ?_, fun _ => rfl⟩⟩
        intro hused
        rw [allocation_length] at hrange
        rw [List.getElem?_eq_none_iff.2 hrange] at hused
        simp at hused
      · simp only [hrange, if_false] at hres
        have hlt : toSizeT d.operand.toLocal < marked.1.values.length := by
          rw [allocation_length] at hrange
          omega
        cases hb : marked.1.values[toSizeT d.operand.toLocal] with
        | false =>
          have hget : marked.1.values[toSizeT d.operand.toLocal]? = some false := by
            rw [List.getElem?_eq_getElem hlt, hb]
          have hun := allocation_unused t.calleeSaveSpace marked.1.values hw _ hget
          simp only [hun, if_true, Except.ok.injEq] at hres
          subst hres
          refine ⟨rfl, rfl, fun ha => absurd ha harg, fun _ => ⟨hidx.symm, ?_, fun _ => rfl⟩⟩
          intro hused
          rw [hget] at hused
          simp at hused
        | true =>
          have hget : marked.1.values[toSizeT d.operand.toLocal]? = some true := by
            rw [List.getElem?_eq_getElem hlt, hb]
          obtain ⟨hus, hne⟩ := allocation_used t.calleeSaveSpace marked.1.values hw _ hget
          have hne1 : t.calleeSaveSpace + usedBefore marked.1.values (toSizeT d.operand.toLocal)
              ≠ UINT_MAX := Nat.ne_of_lt hne
          have harg1 : d.operand.isArgument = false := by
            cases hx : d.operand.isArgument with
            | false => rfl
            | true => exact absurd hx harg
          simp only [hus, Option.some.injEq, hne1, if_false, assign, harg1, Bool.false_eq_true,
            hidx] at hres
          simp only [Except.ok.injEq] at hres
          subst hres
          refine ⟨rfl, rfl, fun ha => absurd ha harg, fun _ => ⟨hidx.symm, ?_, ?_⟩⟩
          · intro _
            exact ⟨_, hus, hne1, rfl⟩
          · intro hno
            exact absurd hget hno
    · have hloc1 : d.operand.isLocal = false := by
        cases hx : d.operand.isLocal with
        | false => rfl
        | true => exact absurd hx hloc
      simp only [hloc1, Bool.false_and, Bool.false_eq_true, if_false] at hres
      split at hres
      · simp at hres
      · simp only [Except.ok.injEq] at hres
        subst hres
        exact ⟨rfl, rfl, fun ha => absurd ha harg, fun hl => absurd hl hloc⟩

/-- Witness of C23 on `exampleGraph`: the stack-access record of local 4, the third used
local, resolves to the register of the physical slot the table holds for it. -/
theorem C23_stack_access_resolution_witness :
    markPhase exampleTarget exampleGraph = .ok (exampleUsedOperands, true)
      ∧ run exampleTarget exampleGraph = .ok exampleResult
      ∧ (allocation exampleTarget.calleeSaveSpace exampleUsedOperands.values)[4]? = some 2
      ∧ ∃ d1, exampleResult.m_stackAccessData[0]? = some d1
          ∧ d1.operand = Operand.ofLocal 4
          ∧ ∃ a, (allocation exampleTarget.calleeSaveSpace exampleUsedOperands.values)[
                toSizeT (Operand.ofLocal 4).toLocal]? = some a
              ∧ a ≠ UINT_MAX ∧ d1.machineLocal = virtualRegisterForLocal a :=
  ⟨rfl, rfl, by decide,
    (C23_stack_access_resolution exampleTarget exampleGraph exampleResult
      (exampleUsedOperands, true) rfl rfl (by decide) 0
      ⟨Operand.ofLocal 4, VirtualRegister.invalid, FlushFormat.FlushedJSValue⟩ rfl).imp
      (fun _ hd1 => ⟨hd1.1, hd1.2.1, (hd1.2.2.2.2 (by decide)).2.1 (by decide)⟩)⟩

/-! ## Contiguity of the varargs ranges: claim C24 -/

/-- What is known of a graph on which the mark phase returns. -/
theorem markPhase_ok_spec (t : Target) (g : Graph) (marked : Operands × Bool)
    (hm : markPhase t g = .ok marked) :
    Markable t g ∧ Shaped g marked.1
      ∧ ∀ j : Nat, marked.1.values[j]? = some true
          ↔ ∃ o, SyntacticallyUsed t g o ∧ slotOf t g o = j := by
  obtain ⟨h1, h2⟩ := markPhase_spec t g
  have hmark : Markable t g := by
    by_contra hn
    exact h2 hn marked hm
  obtain ⟨marked1, hm1, hshape, _, hj⟩ := h1 hmark
  rw [hm] at hm1
  simp only [Except.ok.injEq] at hm1
  subst hm1
  exact ⟨hmark, hshape, hj⟩

/-- A run of `n` used entries from `a` on adds `n` to the count of used entries. -/
theorem usedBefore_add (l : List Bool) (a n : Nat)
    (h : ∀ j : Nat, a ≤ j → j < a + n → l[j]? = some true) :
    usedBefore l (a + n) = usedBefore l a + n := by
  induction n with
  | zero => rfl
  | succ n ih =>
    have h1 := ih (fun j h1 h2 => h j h1 (by omega))
    have h2 := usedBefore_succ l (a + n) (h (a + n) (by omega) (by omega))
    rw [← Nat.add_assoc, h2, h1]
    omega

/-- The record of a `LoadVarargs`/`ForwardVarargs` node of a non-null block after `run`: the
fix-up of the record the graph had. -/
theorem run_varargs_record (t : Target) (g g1 : Graph) (marked : Operands × Bool)
    (hm : markPhase t g = .ok marked) (hr : run t g = .ok g1)
    (nodes : List Node) (node : Node) (hb : some nodes ∈ g.blocks) (hn : node ∈ nodes)
    (hv : node.isVarargs = true) :
    ∃ d0 d1, g.m_loadVarargsData[node.opInfo]? = some d0
      ∧ g1.m_loadVarargsData[node.opInfo]? = some d1
      ∧ fixupLoadVarargs t marked.1 (allocation t.calleeSaveSpace marked.1.values) d0
          = .ok d1 := by
  obtain ⟨vars, stack, scope, frames, varargs, _, _, _, _, hfix, hg1⟩ :=
    run_layOut t g g1 marked hm hr
  have hflag := markPhase_flag t g marked hm
  have hvar : g1.m_loadVarargsData = varargs := by rw [hg1]
  have hblocks : fixupBlocks t marked.1 (allocation t.calleeSaveSpace marked.1.values) g.blocks
      g.m_loadVarargsData = .ok varargs := by
    rw [← fixupVarargs_eq_fixupBlocks, ← hflag]
    exact hfix
  obtain ⟨a1, a2⟩ := fixupBlocks_fixSpec t marked.1
    (allocation t.calleeSaveSpace marked.1.values) g.m_loadVarargsData g.blocks _
    g.m_loadVarargsData (FixedAt.initial t marked.1 _ g.m_loadVarargsData)
  have hp : ∀ node, (∃ nodes, some nodes ∈ g.blocks ∧ node ∈ nodes) →
      NodeFixable t marked.1 (allocation t.calleeSaveSpace marked.1.values)
        g.m_loadVarargsData node := by
    by_contra hno
    exact a2 hno varargs hblocks
  obtain ⟨table1, htable, hfixed⟩ := a1 hp
  rw [hblocks] at htable
  simp only [Except.ok.injEq] at htable
  subst htable
  obtain ⟨d0, _, hd0, _⟩ := hp node ⟨nodes, hb, hn⟩ hv
  obtain ⟨d1, hd1, hget⟩ := (hfixed.2 node.opInfo d0 hd0).1
    (Or.inr ⟨node, ⟨nodes, hb, hn⟩, hv, rfl⟩)
  rw [hvar]
  exact ⟨d0, d1, hd0, hget, hd1⟩

/-- The machine register of a used local: the register of the physical index the assign loop
handed to it. -/
theorem assign_used_local (t : Target) (used : Operands) (c k : Nat)
    (h0 : used.numArguments = 0) (hw : c + used.values.length ≤ UINT_MAX)
    (hk : k < 2147483648) (hused : used.values[k]? = some true) :
    assign t used (allocation c used.values) (Operand.ofVirtualRegister ⟨-1 - (k : Int)⟩)
      = .ok (virtualRegisterForLocal ((c + usedBefore used.values k : Nat) : Int)) := by
  obtain ⟨hus, hne⟩ := allocation_used c used.values hw k hused
  have harg : (Operand.ofVirtualRegister ⟨-1 - (k : Int)⟩).isArgument = false := by
    have : -1 - (k : Int) < 0 := by omega
    simp [Operand.ofVirtualRegister, VirtualRegister.isLocal, Operand.isArgument, this]
  have hne1 : c + usedBefore used.values k ≠ UINT_MAX := Nat.ne_of_lt hne
  simp only [assign, harg, Bool.false_eq_true, if_false, operandIndex_local t used k h0 hk, hus,
    hne1]

theorem VirtualRegister.eq_of_offset (r r1 : VirtualRegister) (h : r.offset = r1.offset) :
    r = r1 := by
  cases r
  cases r1
  simp only at h
  rw [h]

/-- C24: the compaction keeps a varargs range contiguous. For a `LoadVarargs`/`ForwardVarargs`
node of a non-null block with a local start register and limit `L >= 1`, after
`StackLayoutPhase::run` the machine register of the logical register
`VirtualRegister(start.offset() + i)` is `VirtualRegister(machineStart.offset() + i)` for every
`i < L`: the `L` marked slots occupy the `L` consecutive physical slots `a, a - 1, ...,
a - L + 1`, where `machineStart` is the register of the physical slot `a`. Registers hold an
`int` and every physical index fits one. -/
theorem C24_varargs_range_contiguous (t : Target) (g g1 : Graph) (marked : Operands × Bool)
    (hm : markPhase t g = .ok marked) (hr : run t g = .ok g1)
    (h : t.calleeSaveSpace + (g.m_localVars + g.m_tmps) < 2147483648)
    (nodes : List Node) (node : Node) (hb : some nodes ∈ g.blocks) (hn : node ∈ nodes)
    (hv : node.isVarargs = true) (d0 : LoadVarargsData)
    (hd0 : g.m_loadVarargsData[node.opInfo]? = some d0)
    (hloc : d0.start.isLocal = true) (hint : -2147483648 ≤ d0.start.offset)
    (hL : 1 ≤ d0.limit) :
    ∃ (d1 : LoadVarargsData) (a : Nat), g1.m_loadVarargsData[node.opInfo]? = some d1
      ∧ d1.machineStart = virtualRegisterForLocal a
      ∧ t.calleeSaveSpace + d0.limit ≤ a + 1 ∧ a < g1.m_nextMachineLocal
      ∧ ∀ i : Nat, i < d0.limit →
          assign t marked.1 (allocation t.calleeSaveSpace marked.1.values)
              (Operand.ofVirtualRegister ⟨toInt32 (d0.start.offset + i)⟩)
            = .ok ⟨d1.machineStart.offset + i⟩
          ∧ (⟨d1.machineStart.offset + i⟩ : VirtualRegister)
            = virtualRegisterForLocal ((a - i : Nat) : Int) := by
  obtain ⟨hmark, hshape, hj⟩ := markPhase_ok_spec t g marked hm
  obtain ⟨e0, d1, he0, hd1, hfix⟩ := run_varargs_record t g g1 marked hm hr nodes node hb hn hv
  rw [hd0] at he0
  simp only [Option.some.injEq] at he0
  subst he0
  obtain ⟨_, hstart, _⟩ := fixupLoadVarargs_spec t marked.1 _ d0 d1 hfix
  obtain ⟨e1, he1, hslots, hlast⟩ := (hmark.1 nodes node hb hn).varargs hv
  rw [hd0] at he1
  simp only [Option.some.injEq] at he1
  subst he1
  have hrange := varargs_range_local t g d0 (by omega) hloc hint hslots (hlast hloc)
  have hneg : d0.start.offset < 0 := by
    simpa [VirtualRegister.isLocal] using hloc
  have hw : t.calleeSaveSpace + marked.1.values.length ≤ UINT_MAX := by
    rw [hshape.2.2]
    unfold UINT_MAX
    omega
  -- the local index of the start register
  obtain ⟨s, hs⟩ : ∃ s : Nat, d0.start.offset = -1 - (s : Int) :=
    ⟨(-1 - d0.start.offset).toNat, by omega⟩
  have hs31 : s < 2147483648 := by omega
  have hLs : d0.limit ≤ s + 1 := by omega
  -- every register of the range is a used local
  have hreg : ∀ i : Nat, i < d0.limit →
      toInt32 (d0.start.offset + i) = -1 - ((s - i : Nat) : Int) := by
    intro i hi
    unfold toInt32
    omega
  have hused : ∀ i : Nat, i < d0.limit → marked.1.values[s - i]? = some true := by
    intro i hi
    rw [hj (s - i)]
    refine ⟨Operand.ofVirtualRegister ⟨toInt32 (d0.start.offset + i)⟩,
      Or.inl ⟨nodes, node, hb, hn, Or.inr (Or.inr ⟨?_, d0, hd0, Or.inr ⟨hloc, i, hi, rfl⟩⟩)⟩, ?_⟩
    · simpa [Node.isVarargs] using hv
    · rw [← hshape.operandIndex t, hreg i hi]
      exact operandIndex_local t marked.1 (s - i) hshape.1 (by omega)
  have hassign : ∀ i : Nat, i < d0.limit →
      assign t marked.1 (allocation t.calleeSaveSpace marked.1.values)
          (Operand.ofVirtualRegister ⟨toInt32 (d0.start.offset + i)⟩)
        = .ok (virtualRegisterForLocal
            ((t.calleeSaveSpace + usedBefore marked.1.values (s - i) : Nat) : Int)) := by
    intro i hi
    rw [hreg i hi]
    exact assign_used_local t marked.1 t.calleeSaveSpace (s - i) hshape.1 hw (by omega)
      (hused i hi)
  -- the used entries before the start register
  have hcount : ∀ i : Nat, i < d0.limit →
      usedBefore marked.1.values s = usedBefore marked.1.values (s - i) + i := by
    intro i hi
    have hadd := usedBefore_add marked.1.values (s - i) i (by
      intro j hj1 hj2
      have := hused (s - j) (by omega)
      rwa [show s - (s - j) = j by omega] at this)
    rwa [show s - i + i = s by omega] at hadd
  have hslen : s < marked.1.values.length := by
    have := hused 0 (by omega)
    exact (List.getElem?_eq_some.1 this).1
  have hub : usedBefore marked.1.values s < usedCount marked.1.values :=
    usedBefore_lt_usedCount marked.1.values s (hused 0 (by omega))
  have hble : usedBefore marked.1.values s ≤ s := usedBefore_le_length marked.1.values s
  have hstart0 : d1.machineStart = virtualRegisterForLocal
      ((t.calleeSaveSpace + usedBefore marked.1.values s : Nat) : Int) := by
    have h0 := hassign 0 (by omega)
    have hz : toInt32 (d0.start.offset + ((0 : Nat) : Int)) = d0.start.offset := by
      unfold toInt32
      omega
    rw [hz] at h0
    rw [hstart] at h0
    simpa using h0
  have hlenv : marked.1.values.length = g.m_localVars + g.m_tmps := hshape.2.2
  have hnext : g1.m_nextMachineLocal = t.calleeSaveSpace + usedCount marked.1.values := by
    rw [(run_variables t g g1 marked hm hr).2]
    exact nextMachineLocal_eq t.calleeSaveSpace marked.1.values hw
  refine ⟨d1, t.calleeSaveSpace + usedBefore marked.1.values s, hd1, hstart0, ?_, ?_, ?_⟩
  · have := hcount (d0.limit - 1) (by omega)
    omega
  · rw [hnext]
    omega
  · intro i hi
    have hc := hcount i hi
    have hoff : d1.machineStart.offset
        = -1 - ((t.calleeSaveSpace + usedBefore marked.1.values s : Nat) : Int) := by
      rw [hstart0]
      exact virtualRegisterForLocal_offset _ (by omega)
    have hreg1 : (⟨d1.machineStart.offset + i⟩ : VirtualRegister)
        = virtualRegisterForLocal
            ((t.calleeSaveSpace + usedBefore marked.1.values (s - i) : Nat) : Int) := by
      have h2 := virtualRegisterForLocal_offset
        (t.calleeSaveSpace + usedBefore marked.1.values (s - i)) (by omega)
      apply VirtualRegister.eq_of_offset
      rw [h2, hoff]
      show _ + (i : Int) = _
      omega
    refine ⟨?_, ?_⟩
    · rw [hassign i hi, hreg1]
    · rw [hreg1]
      congr 2
      omega

/-- Witness of C24 on `varargsGraph`: the range of the locals 5, 4, 3 goes to the physical
slots 3, 2, 1, and the register after the machine start is the one of the physical slot 2. -/
theorem C24_varargs_range_contiguous_witness :
    run exampleTarget varargsGraph = .ok varargsResult
      ∧ ∃ (d1 : LoadVarargsData) (a : Nat), varargsResult.m_loadVarargsData[0]? = some d1
          ∧ d1.machineStart = virtualRegisterForLocal a
          ∧ assign exampleTarget
              (⟨0, 8, [true, false, false, true, true, true, false, false]⟩ : Operands)
              (allocation 0 [true, false, false, true, true, true, false, false])
              (Operand.ofVirtualRegister ⟨toInt32 ((virtualRegisterForLocal 5).offset
                + ((1 : Nat) : Int))⟩)
            = .ok ⟨d1.machineStart.offset + ((1 : Nat) : Int)⟩ :=
  ⟨rfl,
    (C24_varargs_range_contiguous exampleTarget varargsGraph varargsResult
      (⟨0, 8, [true, false, false, true, true, true, false, false]⟩, true) rfl rfl
      (by decide) [⟨NodeType.LoadVarargs, 0⟩] ⟨NodeType.LoadVarargs, 0⟩
      (List.mem_singleton.2 rfl) (List.mem_singleton.2 rfl) rfl
      ⟨virtualRegisterForLocal 5, virtualRegisterForLocal 0, VirtualRegister.invalid,
        VirtualRegister.invalid, 3⟩ rfl rfl (by decide) (by decide)).imp
      (fun _ h1 => h1.imp (fun _ h2 => ⟨h2.1, h2.2.1, (h2.2.2.2.2 1 (by decide)).1⟩))⟩

/-! ## The callee recovery of inline call frames: claim C25 -/

theorem setOperand_ne_releaseAssert (t : Target) (used : Operands) (o : Operand) :
    used.setOperand t o ≠ .error Fault.releaseAssert := by
  unfold Operands.setOperand
  split <;> simp

theorem variableAccessData_ne_releaseAssert (vars : List VariableAccessData) (i : Nat) :
    variableAccessData vars i ≠ .error Fault.releaseAssert := by
  unfold variableAccessData
  split
  · simp
  · split <;> simp

theorem markVarargsRange_ne_releaseAssert (t : Target) (start : VirtualRegister) (n : Nat)
    (used : Operands) : markVarargsRange t start n used ≠ .error Fault.releaseAssert := by
  induction n generalizing used with
  | zero => simp [markVarargsRange]
  | succ n ih =>
    unfold markVarargsRange
    split
    · rename_i e he
      intro h
      simp only [Except.error.injEq] at h
      subst h
      exact setOperand_ne_releaseAssert t used _ he
    · exact ih _

theorem markLoadVarargs_ne_releaseAssert (t : Target) (data : LoadVarargsData)
    (used : Operands) : markLoadVarargs t data used ≠ .error Fault.releaseAssert := by
  unfold markLoadVarargs
  split
  · rename_i e he
    intro h
    simp only [Except.error.injEq] at h
    subst h
    exact setOperand_ne_releaseAssert t used _ he
  · split
    · split
      · exact markVarargsRange_ne_releaseAssert t _ _ _
      · simp
    · simp

theorem markOperand_ne_releaseAssert (t : Target) (o : Operand) (st : Operands × Bool) :
    markOperand t o st ≠ .error Fault.releaseAssert := by
  unfold markOperand
  split
  · simp
  · split
    · rename_i e he
      intro h
      simp only [Except.error.injEq] at h
      subst h
      exact setOperand_ne_releaseAssert t st.1 _ he
    · simp

theorem markNode_ne_releaseAssert (t : Target) (g : Graph) (node : Node)
    (st : Operands × Bool) : markNode t g node st ≠ .error Fault.releaseAssert := by
  have hlocal : markLocalAccess t g node st ≠ .error Fault.releaseAssert := by
    unfold markLocalAccess
    split
    · rename_i e he
      intro h
      simp only [Except.error.injEq] at h
      subst h
      exact variableAccessData_ne_releaseAssert _ _ he
    · exact markOperand_ne_releaseAssert t _ st
  have hvarargs : markVarargsNode t g node st ≠ .error Fault.releaseAssert := by
    unfold markVarargsNode
    split
    · simp
    · split
      · rename_i e he
        intro h
        simp only [Except.error.injEq] at h
        subst h
        exact markLoadVarargs_ne_releaseAssert t _ _ he
      · simp
  have hstack : markStackAccess t g node st ≠ .error Fault.releaseAssert := by
    unfold markStackAccess
    split
    · simp
    · exact markOperand_ne_releaseAssert t _ st
  unfold markNode
  split <;> first | exact hlocal | exact hvarargs | exact hstack | simp

theorem markNodes_ne_releaseAssert (t : Target) (g : Graph) (nodes : List Node)
    (st : Operands × Bool) : markNodes t g nodes st ≠ .error Fault.releaseAssert := by
  induction nodes with
  | nil => simp [markNodes]
  | cons node rest ih =>
    unfold markNodes
    split
    · rename_i e he
      intro h
      simp only [Except.error.injEq] at h
      subst h
      exact ih he
    · exact markNode_ne_releaseAssert t g node _

theorem markBlocks_ne_releaseAssert (t : Target) (g : Graph)
    (blocks : List (Option (List Node))) (st : Operands × Bool) :
    markBlocks t g blocks st ≠ .error Fault.releaseAssert := by
  induction blocks with
  | nil => simp [markBlocks]
  | cons block rest ih =>
    unfold markBlocks
    split
    · rename_i e he
      intro h
      simp only [Except.error.injEq] at h
      subst h
      exact ih he
    · split
      · simp
      · exact markNodes_ne_releaseAssert t g _ _

theorem markFrameArguments_ne_releaseAssert (t : Target) (stackOffset : Int) (n : Nat)
    (used : Operands) : markFrameArguments t stackOffset n used ≠ .error Fault.releaseAssert := by
  induction n generalizing used with
  | zero => simp [markFrameArguments]
  | succ n ih =>
    unfold markFrameArguments
    split
    · rename_i e he
      intro h
      simp only [Except.error.injEq] at h
      subst h
      exact setOperand_ne_releaseAssert t used _ he
    · exact ih _

theorem markInlineCallFrames_ne_releaseAssert (t : Target) (frames : List InlineCallFrame)
    (used : Operands) : markInlineCallFrames t frames used ≠ .error Fault.releaseAssert := by
  induction frames generalizing used with
  | nil => simp [markInlineCallFrames]
  | cons frame rest ih =>
    unfold markInlineCallFrames
    split
    · rename_i e he
      intro h
      simp only [Except.error.injEq] at h
      subst h
      unfold markInlineCallFrame at he
      split at he
      · rename_i e1 he1
        simp only [Except.error.injEq] at he
        subst he
        split at he1
        · exact setOperand_ne_releaseAssert t used _ he1
        · simp at he1
      · exact markFrameArguments_ne_releaseAssert t _ _ _ he
    · exact ih _

/-- The mark phase has no `RELEASE_ASSERT`. -/
theorem markPhase_ne_releaseAssert (t : Target) (g : Graph) :
    markPhase t g ≠ .error Fault.releaseAssert := by
  unfold markPhase
  split
  · rename_i e he
    intro h
    simp only [Except.error.injEq] at h
    subst h
    exact markBlocks_ne_releaseAssert t g _ _ he
  · split
    · rename_i e he
      intro h
      simp only [Except.error.injEq] at h
      subst h
      exact markInlineCallFrames_ne_releaseAssert t _ _ he
    · simp

theorem assign_ne_releaseAssert (t : Target) (used : Operands) (alloc : List Nat)
    (o : Operand) : assign t used alloc o ≠ .error Fault.releaseAssert := by
  unfold assign
  split
  · simp
  · split
    · simp
    · split <;> simp

theorem resolveStackAccesses_ne_releaseAssert (t : Target) (used : Operands) (alloc : List Nat)
    (l : List StackAccessData) :
    resolveStackAccesses t used alloc l ≠ .error Fault.releaseAssert := by
  induction l with
  | nil => simp [resolveStackAccesses]
  | cons d rest ih =>
    unfold resolveStackAccesses
    split
    · rename_i e he
      intro h
      simp only [Except.error.injEq] at h
      subst h
      unfold resolveStackAccess at he
      split at he
      · simp at he
      · split at he
        · simp at he
        · split at he
          · simp at he
          · split at he
            · rename_i e1 he1
              simp only [Except.error.injEq] at he
              subst he
              exact assign_ne_releaseAssert t used alloc _ he1
            · simp at he
    · split
      · rename_i e he
        intro h
        simp only [Except.error.injEq] at h
        subst h
        exact ih he
      · simp

theorem fixupLoadVarargs_ne_releaseAssert (t : Target) (used : Operands) (alloc : List Nat)
    (data : LoadVarargsData) :
    fixupLoadVarargs t used alloc data ≠ .error Fault.releaseAssert := by
  unfold fixupLoadVarargs
  split
  · rename_i e he
    intro h
    simp only [Except.error.injEq] at h
    subst h
    exact assign_ne_releaseAssert t used alloc _ he
  · split
    · rename_i e he
      intro h
      simp only [Except.error.injEq] at h
      subst h
      exact assign_ne_releaseAssert t used alloc _ he
    · simp

theorem fixupNode_ne_releaseAssert (t : Target) (used : Operands) (alloc : List Nat)
    (node : Node) (table : List LoadVarargsData) :
    fixupNode t used alloc node table ≠ .error Fault.releaseAssert := by
  have hrec : (match table[node.opInfo]? with
      | none => Except.error Fault.outOfBounds
      | some data =>
        match fixupLoadVarargs t used alloc data with
        | .error e => .error e
        | .ok data1 => .ok (table.set node.opInfo data1)) ≠ .error Fault.releaseAssert := by
    split
    · simp
    · split
      · rename_i e he
        intro h
        simp only [Except.error.injEq] at h
        subst h
        exact fixupLoadVarargs_ne_releaseAssert t used alloc _ he
      · simp
  unfold fixupNode
  split <;> first | exact hrec | simp

theorem fixupNodes_ne_releaseAssert (t : Target) (used : Operands) (alloc : List Nat)
    (nodes : List Node) (table : List LoadVarargsData) :
    fixupNodes t used alloc nodes table ≠ .error Fault.releaseAssert := by
  induction nodes with
  | nil => simp [fixupNodes]
  | cons node rest ih =>
    unfold fixupNodes
    split
    · rename_i e he
      intro h
      simp only [Except.error.injEq] at h
      subst h
      exact ih he
    · exact fixupNode_ne_releaseAssert t used alloc node _

theorem fixupVarargs_ne_releaseAssert (t : Target) (used : Operands) (alloc : List Nat)
    (g : Graph) (flag : Bool) :
    fixupVarargs t used alloc g flag ≠ .error Fault.releaseAssert := by
  have hblocks : ∀ (blocks : List (Option (List Node))) (table : List LoadVarargsData),
      fixupBlocks t used alloc blocks table ≠ .error Fault.releaseAssert := by
    intro blocks table
    induction blocks with
    | nil => simp [fixupBlocks]
    | cons block rest ih =>
      unfold fixupBlocks
      split
      · rename_i e he
        intro h
        simp only [Except.error.injEq] at h
        subst h
        exact ih he
      · split
        · simp
        · exact fixupNodes_ne_releaseAssert t used alloc _ _
  unfold fixupVarargs
  split
  · exact hblocks _ _
  · simp

theorem resolveFrameArguments_ne_releaseAssert (vars : List VariableAccessData)
    (positions : List ArgumentPosition) (start n : Nat) (recoveries : List ValueRecovery) :
    resolveFrameArguments vars positions start n recoveries ≠ .error Fault.releaseAssert := by
  induction n generalizing recoveries with
  | zero => simp [resolveFrameArguments]
  | succ n ih =>
    unfold resolveFrameArguments
    split
    · rename_i e he
      intro h
      simp only [Except.error.injEq] at h
      subst h
      unfold argumentRecovery at he
      split at he
      · simp at he
      · split at he
        · simp at he
        · split at he
          · rename_i e1 he1
            simp only [Except.error.injEq] at he
            subst he
            exact variableAccessData_ne_releaseAssert _ _ he1
          · simp at he
    · exact ih _

/-- The callee checks stop on a `RELEASE_ASSERT` exactly on a mismatch. -/
theorem resolveCallee_releaseAssert_iff (vars : List VariableAccessData)
    (data : InlineVariableData) (frame : InlineCallFrame) :
    resolveCallee vars data frame = .error Fault.releaseAssert
      ↔ (frame.isClosureCall ≠ data.calleeVariable.isSome
        ∨ (frame.isClosureCall = false ∧ frame.calleeRecovery.isConstant = false)) := by
  unfold resolveCallee
  by_cases h1 : frame.isClosureCall ≠ data.calleeVariable.isSome
  · simp [h1]
  · simp only [h1, if_false, false_or]
    cases hc : frame.isClosureCall with
    | true =>
      simp only [if_true, Bool.true_eq_false, false_and, iff_false]
      split
      · simp
      · split
        · rename_i e he
          intro h
          simp only [Except.error.injEq] at h
          subst h
          exact variableAccessData_ne_releaseAssert _ _ he
        · simp
    | false =>
      cases hk : frame.calleeRecovery.isConstant <;> simp

/-- What the callee checks return when they pass. -/
theorem resolveCallee_ok (vars : List VariableAccessData) (data : InlineVariableData)
    (frame : InlineCallFrame) (r : ValueRecovery) (h : resolveCallee vars data frame = .ok r) :
    frame.isClosureCall = data.calleeVariable.isSome
      ∧ (frame.isClosureCall = true →
          ∃ callee root, data.calleeVariable = some callee
            ∧ variableAccessData vars callee = .ok root
            ∧ r = ValueRecovery.ofSource
                (ValueSource.forFlushFormat root.m_machineLocal root.flushFormat))
      ∧ (frame.isClosureCall = false →
          r = frame.calleeRecovery ∧ frame.calleeRecovery.isConstant = true) := by
  unfold resolveCallee at h
  by_cases h1 : frame.isClosureCall ≠ data.calleeVariable.isSome
  · simp [h1] at h
  · simp only [h1, if_false] at h
    have h2 : frame.isClosureCall = data.calleeVariable.isSome := by
      by_contra hne
      exact h1 hne
    refine ⟨h2, ?_, ?_⟩
    · intro hc
      simp only [hc, if_true] at h
      split at h
      · simp at h
      · rename_i callee hcallee
        split at h
        · simp at h
        · rename_i root hroot
          simp only [Except.ok.injEq] at h
          exact ⟨callee, root, hcallee, hroot, h.symm⟩
    · intro hc
      simp only [hc, Bool.false_eq_true, if_false] at h
      cases hk : frame.calleeRecovery.isConstant with
      | true =>
        simp only [hk, if_true, Except.ok.injEq] at h
        exact ⟨h.symm, rfl⟩
      | false => simp [hk] at h

/-- The body of the loop over the inline-variable records stops on a `RELEASE_ASSERT` only in
the callee checks. -/
theorem resolveInlineCallFrame_releaseAssert (t : Target) (usedOperands : Operands)
    (alloc : List Nat) (vars : List VariableAccessData) (positions : List ArgumentPosition)
    (data : InlineVariableData) (frame : InlineCallFrame)
    (h : resolveInlineCallFrame t usedOperands alloc vars positions data frame
      = .error Fault.releaseAssert) :
    resolveCallee vars data frame = .error Fault.releaseAssert := by
  unfold resolveInlineCallFrame at h
  split at h
  · rename_i e he
    simp only [Except.error.injEq] at h
    subst h
    split at he
    · exact absurd he (assign_ne_releaseAssert t usedOperands alloc _)
    · simp at he
  · split at h
    · rename_i e he
      simp only [Except.error.injEq] at h
      subst h
      exact absurd he (resolveFrameArguments_ne_releaseAssert _ _ _ _ _)
    · split at h
      · rename_i e he
        simp only [Except.error.injEq] at h
        subst h
        exact he
      · simp at h

/-- The loop over the inline-variable records keeps the closure-call flag of every frame and
the callee recovery of every frame that is not a closure call, and when it returns the callee
checks have passed for every record. -/
theorem resolveInlineVariableData_callee (t : Target) (usedOperands : Operands)
    (alloc : List Nat) (vars : List VariableAccessData) (positions : List ArgumentPosition)
    (records : List InlineVariableData) (frames frames1 : List InlineCallFrame)
    (h : resolveInlineVariableData t usedOperands alloc vars positions records frames
      = .ok frames1) :
    frames1.length = frames.length
      ∧ (∀ (idx : Nat) (f0 : InlineCallFrame), frames[idx]? = some f0 →
          ∃ f1, frames1[idx]? = some f1 ∧ f1.isClosureCall = f0.isClosureCall
            ∧ (f0.isClosureCall = false → f1.calleeRecovery = f0.calleeRecovery))
      ∧ ∀ data, data ∈ records → ¬ CalleeMismatch frames data := by
  induction records generalizing frames1 with
  | nil =>
    simp only [resolveInlineVariableData, Except.ok.injEq] at h
    subst h
    exact ⟨rfl, fun idx f0 hf => ⟨f0, hf, rfl, fun _ => rfl⟩, fun data hd => by simp at hd⟩
  | cons data rest ih =>
    unfold resolveInlineVariableData at h
    split at h
    · simp at h
    · rename_i framesR hrest
      obtain ⟨hlen, hkeep, hgood⟩ := ih framesR hrest
      split at h
      · simp at h
      · rename_i frame hframe
        split at h
        · simp at h
        · rename_i frame1 hres
          simp only [Except.ok.injEq] at h
          subst h
          obtain ⟨_, _, hcc, _, _, _, hcallee⟩ :=
            resolveInlineCallFrame_spec t usedOperands alloc vars positions data frame frame1 hres
          obtain ⟨hmatch, _, hnon⟩ := resolveCallee_ok vars data frame _ hcallee
          have hlt : data.inlineCallFrame < framesR.length := (List.getElem?_eq_some.1 hframe).1
          refine ⟨by rw [List.length_set, hlen], ?_, ?_⟩
          · intro idx f0 hf0
            obtain ⟨f1, hf1, hc1, hr1⟩ := hkeep idx f0 hf0
            by_cases hidx : idx = data.inlineCallFrame
            · subst hidx
              rw [hframe] at hf1
              simp only [Option.some.injEq] at hf1
              subst hf1
              refine ⟨frame1, by rw [List.getElem?_set_self hlt], by rw [hcc, hc1], ?_⟩
              intro hf
              have hfr : frame.isClosureCall = false := by rw [hc1, hf]
              rw [(hnon hfr).1, hr1 hf]
            · refine ⟨f1, ?_, hc1, hr1⟩
              rw [List.getElem?_set_ne (fun hh => hidx hh.symm)]
              exact hf1
          · intro d hd
            rcases List.mem_cons.1 hd with rfl | hd
            · rintro ⟨f0, hf0, hbad⟩
              obtain ⟨f1, hf1, hc1, hr1⟩ := hkeep _ f0 hf0
              rw [hframe] at hf1
              simp only [Option.some.injEq] at hf1
              subst hf1
              rcases hbad with hbad | ⟨hb1, hb2⟩
              · rw [← hc1] at hbad
                exact hbad hmatch
              · have hfr : frame.isClosureCall = false := by rw [hc1, hb1]
                have := (hnon hfr).2
                rw [hr1 hb1, hb2] at this
                simp at this
            · exact hgood d hd

/-- The loop over the inline-variable records stops on a `RELEASE_ASSERT` only when the callee
checks fail for a record. -/
theorem resolveInlineVariableData_releaseAssert (t : Target) (usedOperands : Operands)
    (alloc : List Nat) (vars : List VariableAccessData) (positions : List ArgumentPosition)
    (records : List InlineVariableData) (frames : List InlineCallFrame)
    (h : resolveInlineVariableData t usedOperands alloc vars positions records frames
      = .error Fault.releaseAssert) :
    ∃ data, data ∈ records ∧ CalleeMismatch frames data := by
  induction records with
  | nil => simp [resolveInlineVariableData] at h
  | cons data rest ih =>
    unfold resolveInlineVariableData at h
    split at h
    · rename_i e he
      simp only [Except.error.injEq] at h
      subst h
      obtain ⟨d, hd, hbad⟩ := ih he
      exact ⟨d, List.mem_cons_of_mem _ hd, hbad⟩
    · rename_i framesR hrest
      obtain ⟨hlen, hkeep, _⟩ := resolveInlineVariableData_callee t usedOperands alloc vars
        positions rest frames framesR hrest
      split at h
      · simp at h
      · rename_i frame hframe
        split at h
        · rename_i e he
          simp only [Except.error.injEq] at h
          subst h
          have hbad := (resolveCallee_releaseAssert_iff vars data frame).1
            (resolveInlineCallFrame_releaseAssert t usedOperands alloc vars positions data
              frame he)
          have hlt : data.inlineCallFrame < frames.length := by
            rw [← hlen]
            exact (List.getElem?_eq_some.1 hframe).1
          obtain ⟨f1, hf1, hc1, hr1⟩ := hkeep data.inlineCallFrame frames[data.inlineCallFrame]
            (List.getElem?_eq_getElem hlt)
          rw [hframe] at hf1
          simp only [Option.some.injEq] at hf1
          subst hf1
          refine ⟨data, List.mem_cons_self _ _, frames[data.inlineCallFrame],
            List.getElem?_eq_getElem hlt, ?_⟩
          rcases hbad with hbad | ⟨hb1, hb2⟩
          · left
            rw [← hc1]
            exact hbad
          · right
            have hf : frames[data.inlineCallFrame].isClosureCall = false := by rw [← hc1, hb1]
            exact ⟨hf, by rw [← hr1 hf, hb2]⟩
        · simp at h

/-- When `run` stops on a `RELEASE_ASSERT`, it does so in the loop over the inline-variable
records. -/
theorem run_releaseAssert (t : Target) (g : Graph)
    (h : run t g = .error Fault.releaseAssert) :
    ∃ marked vars, markPhase t g = .ok marked
      ∧ resolveInlineVariableData t marked.1 (allocation t.calleeSaveSpace marked.1.values)
          vars g.m_argumentPositions g.m_inlineVariableData g.inlineCallFrames
        = .error Fault.releaseAssert := by
  unfold run at h
  split at h
  · rename_i e he
    simp only [Except.error.injEq] at h
    subst h
    exact absurd he (markPhase_ne_releaseAssert t g)
  · rename_i marked hm
    refine ⟨marked, ?_⟩
    simp only [layOut] at h
    split at h
    · rename_i e he
      rw [resolveVariables_eq] at he
      simp at he
    · rename_i vars hvars
      refine ⟨vars, hm, ?_⟩
      split at h
      · rename_i e he
        simp only [Except.error.injEq] at h
        subst h
        exact absurd he (resolveStackAccesses_ne_releaseAssert t _ _ _)
      · split at h
        · rename_i e he
          simp only [Except.error.injEq] at h
          subst h
          unfold resolveScopeRegister at he
          split at he
          · simp at he
          · exact absurd he (assign_ne_releaseAssert t _ _ _)
        · split at h
          · rename_i e he
            simp only [Except.error.injEq] at h
            subst h
            exact he
          · split at h
            · rename_i e he
              simp only [Except.error.injEq] at h
              subst h
              exact absurd he (fixupVarargs_ne_releaseAssert t _ _ _ _)
            · simp at h

/-- C25: `StackLayoutPhase::run` stops on a `RELEASE_ASSERT` only if some inline-variable record
has `isClosureCall` different from "a callee variable is present" or is a non-closure call
whose `calleeRecovery` is not a constant; with such a record `run` never returns; and on a
graph on which nothing else stops the phase (no access past the end of a table, no failing
debug assertion, no endless `find()`), `run` stops on a `RELEASE_ASSERT` if and only if there
is such a record. When `run` returns, the constant `calleeRecovery` of every non-closure call
is left unchanged, and for every closure call the frame's `calleeRecovery` is the value
recovery built from the `machineLocal` and the flush format of the root (`find()`) of its
callee variable, records being taken to point to distinct frames. -/
theorem C25_callee_recovery (t : Target) (g : Graph) :
    (run t g = .error Fault.releaseAssert →
        ∃ data, data ∈ g.m_inlineVariableData ∧ CalleeMismatch g.inlineCallFrames data)
      ∧ ((∃ data, data ∈ g.m_inlineVariableData ∧ CalleeMismatch g.inlineCallFrames data) →
          ∀ g1, run t g ≠ .ok g1)
      ∧ ((∀ e, run t g = .error e → e = Fault.releaseAssert) →
          (run t g = .error Fault.releaseAssert
            ↔ ∃ data, data ∈ g.m_inlineVariableData ∧ CalleeMismatch g.inlineCallFrames data))
      ∧ (∀ g1, run t g = .ok g1 →
          (∀ (data : InlineVariableData) (f0 : InlineCallFrame),
              data ∈ g.m_inlineVariableData →
              g.inlineCallFrames[data.inlineCallFrame]? = some f0 →
              f0.isClosureCall = false →
              ∃ f1, g1.inlineCallFrames[data.inlineCallFrame]? = some f1
                ∧ f1.calleeRecovery = f0.calleeRecovery
                ∧ f0.calleeRecovery.isConstant = true)
            ∧ ((g.m_inlineVariableData.map InlineVariableData.inlineCallFrame).Nodup →
              ∀ (data : InlineVariableData) (f0 : InlineCallFrame),
                data ∈ g.m_inlineVariableData →
                g.inlineCallFrames[data.inlineCallFrame]? = some f0 →
                f0.isClosureCall = true →
                ∃ f1 callee r root, g1.inlineCallFrames[data.inlineCallFrame]? = some f1
                  ∧ data.calleeVariable = some callee
                  ∧ find g1.m_variableAccessData callee = some r
                  ∧ g1.m_variableAccessData[r]? = some root ∧ root.isRoot = true
                  ∧ f1.calleeRecovery = ValueRecovery.ofSource
                      (ValueSource.forFlushFormat root.m_machineLocal root.flushFormat))) := by
  have hfwd : run t g = .error Fault.releaseAssert →
      ∃ data, data ∈ g.m_inlineVariableData ∧ CalleeMismatch g.inlineCallFrames data := by
    intro h
    obtain ⟨marked, vars, _, hloop⟩ := run_releaseAssert t g h
    exact resolveInlineVariableData_releaseAssert t _ _ _ _ _ _ hloop
  have hback : (∃ data, data ∈ g.m_inlineVariableData
      ∧ CalleeMismatch g.inlineCallFrames data) → ∀ g1, run t g ≠ .ok g1 := by
    rintro ⟨data, hdata, hbad⟩ g1 hr
    obtain ⟨marked, hm⟩ := run_ok_marked t g g1 hr
    obtain ⟨vars, stack, scope, frames, varargs, _, _, _, hframes, _, _⟩ :=
      run_layOut t g g1 marked hm hr
    exact (resolveInlineVariableData_callee t _ _ _ _ _ _ _ hframes).2.2 data hdata hbad
  refine ⟨hfwd, hback, ?_, ?_⟩
  · intro hother
    refine ⟨hfwd, ?_⟩
    intro hbad
    cases hrun : run t g with
    | error e => rw [hother e hrun]
    | ok g1 => exact absurd hrun (hback hbad g1)
  · intro g1 hr
    obtain ⟨marked, hm⟩ := run_ok_marked t g g1 hr
    obtain ⟨vars, stack, scope, frames, varargs, _, _, _, hframes, _, hg1⟩ :=
      run_layOut t g g1 marked hm hr
    subst hg1
    obtain ⟨_, hkeep, hgood⟩ := resolveInlineVariableData_callee t _ _ _ _ _ _ _ hframes
    refine ⟨?_, ?_⟩
    · intro data f0 hdata hf0 hc
      obtain ⟨f1, hf1, _, hr1⟩ := hkeep data.inlineCallFrame f0 hf0
      refine ⟨f1, hf1, hr1 hc, ?_⟩
      cases hk : f0.calleeRecovery.isConstant with
      | true => rfl
      | false => exact absurd ⟨f0, hf0, Or.inr ⟨hc, hk⟩⟩ (hgood data hdata)
    · intro hnodup data f0 hdata hf0 hc
      obtain ⟨f1, hf1, hres⟩ := resolveInlineVariableData_record t _ _ _ _ _ _ _ hframes hnodup
        data hdata f0 hf0
      have hcallee := (resolveInlineCallFrame_spec t _ _ _ _ data f0 f1 hres).2.2.2.2.2.2
      obtain ⟨_, hclosure, _⟩ := resolveCallee_ok vars data f0 _ hcallee
      obtain ⟨callee, root, hcv, hroot, hrec⟩ := hclosure hc
      unfold variableAccessData at hroot
      split at hroot
      · simp at hroot
      · rename_i r hfind
        split at hroot
        · simp at hroot
        · rename_i v hv
          simp only [Except.ok.injEq] at hroot
          subst hroot
          obtain ⟨w, hw, hp⟩ := findFrom_isRoot _ _ _ _ hfind
          rw [hv] at hw
          simp only [Option.some.injEq] at hw
          subst hw
          exact ⟨f1, callee, r, v, hf1, hcv, hfind, hv,
            by simp [VariableAccessData.isRoot, hp], hrec⟩

/-- Witness of C25: on `mismatchGraph`, whose closure-call frame has a record without callee
variable, `run` stops on a `RELEASE_ASSERT`; on `inlineGraph` the callee recovery of the frame
becomes the recovery of the root variable 0, which sits in the machine local 0. -/
theorem C25_callee_recovery_witness :
    run exampleTarget mismatchGraph = .error Fault.releaseAssert
      ∧ (∃ data, data ∈ mismatchGraph.m_inlineVariableData
          ∧ CalleeMismatch mismatchGraph.inlineCallFrames data)
      ∧ run exampleTarget inlineGraph = .ok inlineResult
      ∧ ∃ f1 callee r root, inlineResult.inlineCallFrames[0]? = some f1
          ∧ (some 0 : Option Nat) = some callee
          ∧ find inlineResult.m_variableAccessData callee = some r
          ∧ inlineResult.m_variableAccessData[r]? = some root ∧ root.isRoot = true
          ∧ f1.calleeRecovery = ValueRecovery.ofSource
              (ValueSource.forFlushFormat root.m_machineLocal root.flushFormat) :=
  ⟨rfl,
    ((C25_callee_recovery exampleTarget mismatchGraph).2.2.1
      (fun e he => by
        have hrun : run exampleTarget mismatchGraph = .error Fault.releaseAssert := rfl
        rw [hrun] at he
        cases he
        rfl)).1 rfl,
    rfl,
    ((C25_callee_recovery exampleTarget inlineGraph).2.2.2 inlineResult rfl).2 (by decide)
      ⟨0, 0, some 0⟩
      ⟨true, -10, [ValueRecovery.constant 0, ValueRecovery.constant 0], VirtualRegister.invalid,
        true, ValueRecovery.constant 0⟩
      (List.mem_singleton.2 rfl) rfl rfl⟩

/-! ## Mark and resolve agree: claim C26 -/

/-- The machine register `assign` gives to a used operand that is not an argument: the
register of the physical index the assign loop handed to its slot. -/
theorem assign_used (t : Target) (used : Operands) (c : Nat) (o : Operand)
    (hw : c + used.values.length ≤ UINT_MAX) (harg : o.isArgument = false)
    (hused : used.values[used.operandIndex t o]? = some true) :
    assign t used (allocation c used.values) o
      = .ok (virtualRegisterForLocal
          ((c + usedBefore used.values (used.operandIndex t o) : Nat) : Int)) := by
  obtain ⟨hus, hne⟩ := allocation_used c used.values hw _ hused
  have hne1 : c + usedBefore used.values (used.operandIndex t o) ≠ UINT_MAX := Nat.ne_of_lt hne
  simp only [assign, harg, Bool.false_eq_true, if_false, hus, hne1]

/-- The register of a physical index that fits an `int` is a valid local register with that
local index. -/
theorem virtualRegisterForLocal_valid (a : Nat) (h : a < 2147483648) :
    (virtualRegisterForLocal a).isLocal = true ∧ (virtualRegisterForLocal a).isValid = true
      ∧ (virtualRegisterForLocal a).toLocal = a := by
  have hoff := virtualRegisterForLocal_offset a h
  refine ⟨?_, ?_, ?_⟩
  · simp only [VirtualRegister.isLocal, hoff, decide_eq_true_eq]
    omega
  · simp only [VirtualRegister.isValid, hoff, decide_eq_true_eq]
    omega
  · simp only [VirtualRegister.toLocal, hoff]
    omega

/-- A `GetLocal`/`SetLocal`/`Flush`/`PhantomLocal` the mark phase can handle has a root
variable. -/
theorem NodeMarkable.localAccess {t : Target} {g : Graph} {node : Node}
    (h : NodeMarkable t g node)
    (hop : node.op = NodeType.GetLocal ∨ node.op = NodeType.SetLocal
      ∨ node.op = NodeType.Flush ∨ node.op = NodeType.PhantomLocal) :
    ∃ root, variableAccessData g.m_variableAccessData node.opInfo = .ok root := by
  obtain ⟨st1, hst1⟩ := h
  have hnode : markNode t g node (initialOperands g, false)
      = markLocalAccess t g node (initialOperands g, false) := by
    rcases hop with hop | hop | hop | hop <;> simp only [markNode, hop]
  rw [hnode] at hst1
  unfold markLocalAccess at hst1
  cases hv : variableAccessData g.m_variableAccessData node.opInfo with
  | error e => simp [hv] at hst1
  | ok root => exact ⟨root, rfl⟩

/-- A `PutStack`/`GetStack` the mark phase can handle has a stack-access record. -/
theorem NodeMarkable.stackAccess {t : Target} {g : Graph} {node : Node}
    (h : NodeMarkable t g node)
    (hop : node.op = NodeType.PutStack ∨ node.op = NodeType.GetStack) :
    ∃ d, g.m_stackAccessData[node.opInfo]? = some d := by
  obtain ⟨st1, hst1⟩ := h
  have hnode : markNode t g node (initialOperands g, false)
      = markStackAccess t g node (initialOperands g, false) := by
    rcases hop with hop | hop <;> simp only [markNode, hop]
  rw [hnode] at hst1
  unfold markStackAccess at hst1
  cases hv : g.m_stackAccessData[node.opInfo]? with
  | none => simp [hv] at hst1
  | some d => exact ⟨d, rfl⟩

/-- A stack-access record whose operand is not an argument and is marked used resolves to the
register of the physical index of its slot. -/
theorem resolveStackAccess_used (t : Target) (used : Operands) (c : Nat)
    (d : StackAccessData) (h0 : used.numArguments = 0)
    (hw : c + used.values.length ≤ UINT_MAX) (harg : d.operand.isArgument = false)
    (hused : used.values[used.operandIndex t d.operand]? = some true) :
    resolveStackAccess t used (allocation c used.values) d
      = .ok { d with
              machineLocal := virtualRegisterForLocal
                ((c + usedBefore used.values (used.operandIndex t d.operand) : Nat) : Int) } := by
  obtain ⟨hus, hne⟩ := allocation_used c used.values hw _ hused
  have hlt : used.operandIndex t d.operand < used.values.length :=
    (List.getElem?_eq_some.1 hused).1
  unfold resolveStackAccess
  simp only [harg, Bool.false_eq_true, if_false]
  cases hloc : d.operand.isLocal with
  | false =>
    simp only [Bool.false_and, Bool.false_eq_true, if_false,
      assign_used t used c d.operand hw harg hused]
  | true =>
    have hidx := operandIndex_of_isLocal t used d.operand h0 hloc
    rw [hidx] at hus hlt
    have h1 : ¬ (allocation c used.values).length ≤ toSizeT d.operand.toLocal := by
      rw [allocation_length]
      omega
    have h2 : ¬ (c + usedBefore used.values (toSizeT d.operand.toLocal) = UINT_MAX) := by
      rw [hidx] at hne
      omega
    simp only [Bool.true_and, decide_eq_true_eq, h1, if_false, hus, Option.some.injEq, h2,
      assign_used t used c d.operand hw harg hused, hidx]

/-- C26, as the code has it: for every `GetLocal`/`SetLocal`/`Flush`/`PhantomLocal` node of a
non-null block whose root variable has a non-argument operand, and for every
`GetStack`/`PutStack` node of a non-null block whose stack-access record has a non-argument
operand, after `StackLayoutPhase::run` the `machineLocal` of the root variable, respectively
of the record, is a valid local register whose local index lies in
`[calleeSaveCount, m_nextMachineLocal)`. A stack-access record whose operand is an argument
gets the argument's own register instead. Every physical index is taken to fit an `int`. -/
theorem C26_accessed_slots_have_locations (t : Target) (g g1 : Graph)
    (hr : run t g = .ok g1)
    (h : t.calleeSaveSpace + (g.m_localVars + g.m_tmps) ≤ 2147483648)
    (nodes : List Node) (node : Node) (hb : some nodes ∈ g.blocks) (hn : node ∈ nodes) :
    ((node.op = NodeType.GetLocal ∨ node.op = NodeType.SetLocal
          ∨ node.op = NodeType.Flush ∨ node.op = NodeType.PhantomLocal) →
        ∃ r root, find g.m_variableAccessData node.opInfo = some r
          ∧ g.m_variableAccessData[r]? = some root
          ∧ (root.m_operand.isArgument = false →
              ∃ (v1 : VariableAccessData) (a : Nat), g1.m_variableAccessData[r]? = some v1
                ∧ v1.m_machineLocal = virtualRegisterForLocal a
                ∧ v1.m_machineLocal.isLocal = true ∧ v1.m_machineLocal.isValid = true
                ∧ v1.m_machineLocal.toLocal = a
                ∧ t.calleeSaveSpace ≤ a ∧ a < g1.m_nextMachineLocal))
      ∧ ((node.op = NodeType.PutStack ∨ node.op = NodeType.GetStack) →
        ∃ d d1, g.m_stackAccessData[node.opInfo]? = some d
          ∧ g1.m_stackAccessData[node.opInfo]? = some d1
          ∧ (d.operand.isArgument = false →
              ∃ a : Nat, d1.machineLocal = virtualRegisterForLocal a
                ∧ d1.machineLocal.isLocal = true ∧ d1.machineLocal.isValid = true
                ∧ d1.machineLocal.toLocal = a
                ∧ t.calleeSaveSpace ≤ a ∧ a < g1.m_nextMachineLocal)
          ∧ (d.operand.isArgument = true → d1.machineLocal = d.operand.virtualRegister)) := by
  obtain ⟨marked, hm⟩ := run_ok_marked t g g1 hr
  obtain ⟨hmark, hshape, hj⟩ := markPhase_ok_spec t g marked hm
  obtain ⟨hvars, hnext0⟩ := run_variables t g g1 marked hm hr
  have hw : t.calleeSaveSpace + marked.1.values.length ≤ UINT_MAX := by
    rw [hshape.2.2]
    unfold UINT_MAX
    omega
  have hnext : g1.m_nextMachineLocal = t.calleeSaveSpace + usedCount marked.1.values := by
    rw [hnext0]
    exact nextMachineLocal_eq t.calleeSaveSpace marked.1.values hw
  have hcount : usedCount marked.1.values ≤ g.m_localVars + g.m_tmps := by
    rw [← hshape.2.2]
    exact List.count_le_length _ _
  have hnm := hmark.1 nodes node hb hn
  -- what a used slot resolves to
  have hslot : ∀ o : Operand, marked.1.values[marked.1.operandIndex t o]? = some true →
      ∃ a : Nat, a = t.calleeSaveSpace + usedBefore marked.1.values (marked.1.operandIndex t o)
        ∧ (virtualRegisterForLocal a).isLocal = true
        ∧ (virtualRegisterForLocal a).isValid = true
        ∧ (virtualRegisterForLocal a).toLocal = a
        ∧ t.calleeSaveSpace ≤ a ∧ a < g1.m_nextMachineLocal := by
    intro o ho
    have hlt := usedBefore_lt_usedCount marked.1.values _ ho
    have h31 : t.calleeSaveSpace + usedBefore marked.1.values (marked.1.operandIndex t o)
        < 2147483648 := by omega
    obtain ⟨v1, v2, v3⟩ := virtualRegisterForLocal_valid _ h31
    exact ⟨_, rfl, v1, v2, v3, by omega, by omega⟩
  refine ⟨?_, ?_⟩
  · intro hop
    obtain ⟨root, hroot⟩ := hnm.localAccess hop
    have hroot0 := hroot
    unfold variableAccessData at hroot
    split at hroot
    · simp at hroot
    · rename_i r hfind
      split at hroot
      · simp at hroot
      · rename_i v hv
        simp only [Except.ok.injEq] at hroot
        subst hroot
        refine ⟨r, v, hfind, hv, ?_⟩
        intro harg
        obtain ⟨w, hw1, hp⟩ := findFrom_isRoot _ _ _ _ hfind
        rw [hv] at hw1
        simp only [Option.some.injEq] at hw1
        subst hw1
        have hisroot : v.isRoot = true := by simp [VariableAccessData.isRoot, hp]
        have hused : marked.1.values[marked.1.operandIndex t v.m_operand]? = some true := by
          rw [hshape.operandIndex t, hj]
          exact ⟨v.m_operand, Or.inl ⟨nodes, node, hb, hn, Or.inl ⟨hop, v, hroot0, rfl, harg⟩⟩,
            rfl⟩
        obtain ⟨hus, hne⟩ := allocation_used t.calleeSaveSpace marked.1.values hw _ hused
        obtain ⟨a, ha, v1, v2, v3, hlo, hhi⟩ := hslot v.m_operand hused
        have hne1 : t.calleeSaveSpace
            + usedBefore marked.1.values (marked.1.operandIndex t v.m_operand) ≠ UINT_MAX :=
          Nat.ne_of_lt hne
        have hres : resolvedVariable t marked.1 (allocation t.calleeSaveSpace marked.1.values) v
            = { v with m_machineLocal := virtualRegisterForLocal a } := by
          simp only [resolvedVariable, hisroot, Bool.true_eq_false, if_false, harg,
            Bool.false_eq_true, hus, hne1, ha]
        have hget : g1.m_variableAccessData[r]?
            = some { v with m_machineLocal := virtualRegisterForLocal a } := by
          rw [hvars, List.getElem?_map, hv, Option.map_some', hres]
        exact ⟨{ v with m_machineLocal := virtualRegisterForLocal a }, a, hget, rfl, v1, v2, v3,
          hlo, hhi⟩
  · intro hop
    obtain ⟨d, hd⟩ := hnm.stackAccess hop
    obtain ⟨vars, stack, scope, frames, varargs, _, hstack, _, _, _, hg1⟩ :=
      run_layOut t g g1 marked hm hr
    have hstk : g1.m_stackAccessData = stack := by rw [hg1]
    obtain ⟨_, hall⟩ := resolveStackAccesses_getElem? t marked.1 _ _ _ hstack
    obtain ⟨d1, hd1, hres⟩ := hall node.opInfo d hd
    refine ⟨d, d1, hd, by rw [hstk]; exact hd1, ?_, ?_⟩
    · intro harg
      have hused : marked.1.values[marked.1.operandIndex t d.operand]? = some true := by
        rw [hshape.operandIndex t, hj]
        exact ⟨d.operand, Or.inl ⟨nodes, node, hb, hn,
          Or.inr (Or.inl ⟨hop, d, hd, rfl, harg⟩)⟩, rfl⟩
      obtain ⟨a, ha, v1, v2, v3, hlo, hhi⟩ := hslot d.operand hused
      rw [resolveStackAccess_used t marked.1 t.calleeSaveSpace d hshape.1 hw harg hused] at hres
      simp only [Except.ok.injEq] at hres
      subst hres
      subst ha
      exact ⟨_, rfl, v1, v2, v3, hlo, hhi⟩
    · intro harg
      simp only [resolveStackAccess, harg, if_true, Except.ok.injEq] at hres
      subst hres
      rfl

/-- Witness of C26 as the code has it on `exampleGraph`: the `SetLocal` of variable 2 (local 3)
ends up in the machine local 1, which lies between 0 and the final counter 5. -/
theorem C26_accessed_slots_have_locations_witness :
    run exampleTarget exampleGraph = .ok exampleResult
      ∧ ∃ r root, find exampleGraph.m_variableAccessData 2 = some r
          ∧ exampleGraph.m_variableAccessData[r]? = some root
          ∧ (root.m_operand.isArgument = false →
              ∃ (v1 : VariableAccessData) (a : Nat),
                exampleResult.m_variableAccessData[r]? = some v1
                ∧ v1.m_machineLocal = virtualRegisterForLocal a
                ∧ v1.m_machineLocal.isLocal = true ∧ v1.m_machineLocal.isValid = true
                ∧ v1.m_machineLocal.toLocal = a
                ∧ exampleTarget.calleeSaveSpace ≤ a ∧ a < exampleResult.m_nextMachineLocal) :=
  ⟨rfl,
    (C26_accessed_slots_have_locations exampleTarget exampleGraph exampleResult rfl (by decide)
      [⟨NodeType.GetLocal, 1⟩, ⟨NodeType.SetLocal, 2⟩, ⟨NodeType.Other, 0⟩]
      ⟨NodeType.SetLocal, 2⟩ (by decide) (by decide)).1 (Or.inr (Or.inl rfl))⟩

/-- Counterexample to C26 as stated: on `argumentStackGraph` the record of the `GetStack` is
registered in the graph, and after `run` its `machineLocal` is the argument register 6, which
is not a local register. -/
theorem C26_counterexample :
    run exampleTarget argumentStackGraph = .ok argumentStackResult
      ∧ argumentStackGraph.m_stackAccessData[0]?
          = some ⟨Operand.ofVirtualRegister ⟨6⟩, VirtualRegister.invalid,
              FlushFormat.FlushedJSValue⟩
      ∧ argumentStackResult.m_stackAccessData[0]?
          = some ⟨Operand.ofVirtualRegister ⟨6⟩, ⟨6⟩, FlushFormat.FlushedJSValue⟩
      ∧ (⟨6⟩ : VirtualRegister).isLocal = false :=
  ⟨rfl, rfl, rfl, rfl⟩

/-! ## Index safety of the reads of the allocation table: claim C27 -/

/-- The read `allocation[operandIndex]` of `assign` is in bounds exactly when `assign` returns:
it has no other way to stop. -/
theorem assign_ok_iff (t : Target) (used : Operands) (alloc : List Nat) (o : Operand) :
    (∃ r, assign t used alloc o = .ok r)
      ↔ (o.isArgument = true ∨ used.operandIndex t o < alloc.length) := by
  unfold assign
  cases harg : o.isArgument with
  | true => simp
  | false =>
    simp only [Bool.false_eq_true, if_false, false_or]
    constructor
    · rintro ⟨r, hr⟩
      by_contra hlt
      rw [List.getElem?_eq_none_iff.2 (Nat.le_of_not_lt hlt)] at hr
      simp at hr
    · intro hlt
      rw [List.getElem?_eq_getElem hlt]
      simp only
      split
      · exact ⟨_, rfl⟩
      · exact ⟨_, rfl⟩

/-- C27: when every non-argument operand the phase refers to (of a variable, of a stack-access
record, the scope register when it is needed, the count and start of a varargs record, the
argument-count register of a varargs inline call frame) has an operand index below
`usedOperands.size()`, every read `allocation[operandIndex]` of `assign` and of the resolve
loops is within the bounds of the allocation table: `assign` returns for each such operand,
and the loops over the variables and the stack-access records, the scope-register step and
the fix-up of every varargs record return without reaching the out-of-bounds branch. -/
theorem C27_index_safety (t : Target) (g : Graph) (used : Operands)
    (hpre : ∀ o, o ∈ referencedOperands t g → o.isArgument = false →
      used.operandIndex t o < used.size) :
    (allocation t.calleeSaveSpace used.values).length = used.size
      ∧ (∀ o, o ∈ referencedOperands t g →
          ∃ (r : VirtualRegister) , assign t used (allocation t.calleeSaveSpace used.values) o
            = .ok r)
      ∧ (∀ o, o ∈ referencedOperands t g → o.isArgument = false →
          ∃ a : Nat, (allocation t.calleeSaveSpace used.values)[used.operandIndex t o]?
            = some a)
      ∧ (∃ vars, resolveVariables t used (allocation t.calleeSaveSpace used.values)
          g.m_variableAccessData = .ok vars)
      ∧ (∃ stack, resolveStackAccesses t used (allocation t.calleeSaveSpace used.values)
          g.m_stackAccessData = .ok stack)
      ∧ (∃ scope, resolveScopeRegister t used (allocation t.calleeSaveSpace used.values) g
          = .ok scope)
      ∧ (∀ data, data ∈ g.m_loadVarargsData →
          ∃ data1, fixupLoadVarargs t used (allocation t.calleeSaveSpace used.values) data
            = .ok data1)
      ∧ ∀ frame, frame ∈ g.inlineCallFrames → frame.isVarargs = true →
          ∃ (r : VirtualRegister), assign t used (allocation t.calleeSaveSpace used.values)
            (Operand.ofVirtualRegister
              ⟨toInt32 (frame.stackOffset + t.argumentCountIncludingThis)⟩) = .ok r := by
  have hlen : (allocation t.calleeSaveSpace used.values).length = used.size :=
    allocation_length _ _
  have hassign : ∀ o, o ∈ referencedOperands t g →
      ∃ (r : VirtualRegister), assign t used (allocation t.calleeSaveSpace used.values) o
        = .ok r := by
    intro o ho
    rw [assign_ok_iff]
    cases harg : o.isArgument with
    | true => exact Or.inl rfl
    | false =>
      right
      rw [hlen]
      exact hpre o ho harg
  have hmem : ∀ o, o ∈ referencedOperands t g ↔
      (o ∈ g.m_variableAccessData.map VariableAccessData.m_operand
        ∨ o ∈ g.m_stackAccessData.map StackAccessData.operand
        ∨ o ∈ (if g.needsScopeRegister then [Operand.ofVirtualRegister g.scopeRegister] else [])
        ∨ o ∈ g.m_loadVarargsData.map (fun data => Operand.ofVirtualRegister data.count)
        ∨ o ∈ g.m_loadVarargsData.map (fun data => Operand.ofVirtualRegister data.start)
        ∨ o ∈ (g.inlineCallFrames.filter InlineCallFrame.isVarargs).map (fun frame =>
            Operand.ofVirtualRegister
              ⟨toInt32 (frame.stackOffset + t.argumentCountIncludingThis)⟩)) := by
    intro o
    simp only [referencedOperands, List.mem_append, or_assoc]
  refine ⟨hlen, hassign, ?_, ⟨_, resolveVariables_eq t used _ _⟩, ?_, ?_, ?_, ?_⟩
  · intro o ho harg
    have hlt : used.operandIndex t o < (allocation t.calleeSaveSpace used.values).length := by
      rw [hlen]
      exact hpre o ho harg
    exact ⟨_, List.getElem?_eq_getElem hlt⟩
  · have hone : ∀ d, d ∈ g.m_stackAccessData →
        ∃ d1, resolveStackAccess t used (allocation t.calleeSaveSpace used.values) d
          = .ok d1 := by
      intro d hd
      obtain ⟨r, hr⟩ := hassign d.operand ((hmem _).2 (Or.inr (Or.inl (List.mem_map.2
        ⟨d, hd, rfl⟩))))
      unfold resolveStackAccess
      split
      · exact ⟨_, rfl⟩
      · split
        · exact ⟨_, rfl⟩
        · split
          · exact ⟨_, rfl⟩
          · rw [hr]
            exact ⟨_, rfl⟩
    have hall : ∀ l : List StackAccessData, (∀ d, d ∈ l → d ∈ g.m_stackAccessData) →
        ∃ stack, resolveStackAccesses t used (allocation t.calleeSaveSpace used.values) l
          = .ok stack := by
      intro l
      induction l with
      | nil => exact fun _ => ⟨[], rfl⟩
      | cons d rest ih =>
        intro hsub
        obtain ⟨d1, hd1⟩ := hone d (hsub d (List.mem_cons_self _ _))
        obtain ⟨rest1, hrest1⟩ := ih (fun x hx => hsub x (List.mem_cons_of_mem _ hx))
        exact ⟨d1 :: rest1, by simp only [resolveStackAccesses, hd1, hrest1]⟩
    exact hall _ (fun _ hd => hd)
  · unfold resolveScopeRegister
    cases hneed : g.needsScopeRegister with
    | false => exact ⟨VirtualRegister.invalid, by simp⟩
    | true =>
      simp only [Bool.not_true, Bool.false_eq_true, if_false]
      exact hassign _ ((hmem _).2 (Or.inr (Or.inr (Or.inl (by simp [hneed])))))
  · intro data hdata
    obtain ⟨mc, hmc⟩ := hassign (Operand.ofVirtualRegister data.count)
      ((hmem _).2 (Or.inr (Or.inr (Or.inr (Or.inl (List.mem_map.2 ⟨data, hdata, rfl⟩))))))
    obtain ⟨ms, hms⟩ := hassign (Operand.ofVirtualRegister data.start)
      ((hmem _).2 (Or.inr (Or.inr (Or.inr (Or.inr (Or.inl
        (List.mem_map.2 ⟨data, hdata, rfl⟩)))))))
    exact ⟨{ data with machineCount := mc, machineStart := ms },
      by simp only [fixupLoadVarargs, hmc, hms]⟩
  · intro frame hframe hvar
    exact hassign _ ((hmem _).2 (Or.inr (Or.inr (Or.inr (Or.inr (Or.inr
      (List.mem_map.2 ⟨frame, List.mem_filter.2 ⟨hframe, hvar⟩, rfl⟩)))))))

/-- Witness of C27 on `inlineGraph` with the table the mark phase builds for it: every operand
the phase refers to has an index below eight, and the scope register is read in bounds. -/
theorem C27_index_safety_witness :
    (∀ o, o ∈ referencedOperands exampleTarget inlineGraph → o.isArgument = false →
        inlineUsedOperands.operandIndex exampleTarget o < inlineUsedOperands.size)
      ∧ ∃ scope, resolveScopeRegister exampleTarget inlineUsedOperands
          (allocation exampleTarget.calleeSaveSpace inlineUsedOperands.values) inlineGraph
          = .ok scope :=
  ⟨by decide,
    (C27_index_safety exampleTarget inlineGraph inlineUsedOperands (by decide)).2.2.2.2.2.1⟩

namespace DFG

/-! ## The two kind helpers compose: claim C28 -/

/-- The kinds `indexedPropertyLocToOutOfBoundsSaneChain` accepts and what it returns. -/
theorem indexedPropertyLocToOutOfBoundsSaneChain_ok (a k : LocationKind)
    (h : indexedPropertyLocToOutOfBoundsSaneChain a = .ok k) :
    (a = LocationKind.IndexedPropertyInt32Loc
        ∧ k = LocationKind.IndexedPropertyInt32OutOfBoundsSaneChainLoc)
      ∨ (a = LocationKind.IndexedPropertyInt52Loc
        ∧ k = LocationKind.IndexedPropertyInt52OutOfBoundsSaneChainLoc)
      ∨ (a = LocationKind.IndexedPropertyDoubleLoc
        ∧ k = LocationKind.IndexedPropertyDoubleOutOfBoundsSaneChainLoc)
      ∨ (a = LocationKind.IndexedPropertyJSLoc
        ∧ k = LocationKind.IndexedPropertyJSOutOfBoundsSaneChainLoc) := by
  cases a <;> simp [indexedPropertyLocToOutOfBoundsSaneChain] at h <;> simp [← h]

/-- The kinds `indexedPropertyLocForResultType` returns. -/
theorem indexedPropertyLocForResultType_ok (assertionsEnabled : Bool) (rep : Nat)
    (kind : LocationKind)
    (h : indexedPropertyLocForResultType assertionsEnabled rep = .ok kind) :
    kind = LocationKind.IndexedPropertyDoubleLoc ∨ kind = LocationKind.IndexedPropertyInt52Loc
      ∨ kind = LocationKind.IndexedPropertyInt32Loc ∨ kind = LocationKind.IndexedPropertyJSLoc := by
  unfold indexedPropertyLocForResultType at h
  repeat' split at h
  all_goals first
    | (simp only [Except.ok.injEq] at h; subst h; simp)
    | simp at h

/-- C28: the two kind helpers compose. For every result representation on which
`indexedPropertyLocForResultType` returns, `indexedPropertyLocToOutOfBoundsSaneChain` returns
on its result; `indexedPropertyLocToOutOfBoundsSaneChain` is injective on the inputs it
accepts, and none of its outputs is an accepted input: applying it twice always stops on the
`RELEASE_ASSERT`. -/
theorem C28_kind_helpers_compose (assertionsEnabled : Bool) (rep : Nat) :
    (∀ kind, indexedPropertyLocForResultType assertionsEnabled rep = .ok kind →
        ∃ chain, indexedPropertyLocToOutOfBoundsSaneChain kind = .ok chain)
      ∧ (∀ a b k, indexedPropertyLocToOutOfBoundsSaneChain a = .ok k →
          indexedPropertyLocToOutOfBoundsSaneChain b = .ok k → a = b)
      ∧ (∀ a k, indexedPropertyLocToOutOfBoundsSaneChain a = .ok k →
          indexedPropertyLocToOutOfBoundsSaneChain k = .error Fault.releaseAssert) := by
  refine ⟨?_, ?_, ?_⟩
  · intro kind h
    rcases indexedPropertyLocForResultType_ok assertionsEnabled rep kind h with h1 | h1 | h1 | h1
      <;> subst h1 <;> exact ⟨_, rfl⟩
  · intro a b k ha hb
    rcases indexedPropertyLocToOutOfBoundsSaneChain_ok a k ha with
      ⟨h1, h2⟩ | ⟨h1, h2⟩ | ⟨h1, h2⟩ | ⟨h1, h2⟩ <;>
    rcases indexedPropertyLocToOutOfBoundsSaneChain_ok b k hb with
      ⟨h3, h4⟩ | ⟨h3, h4⟩ | ⟨h3, h4⟩ | ⟨h3, h4⟩ <;>
    subst h1 h3 <;> first | rfl | (rw [h2] at h4; cases h4)
  · intro a k ha
    rcases indexedPropertyLocToOutOfBoundsSaneChain_ok a k ha with
      ⟨_, h2⟩ | ⟨_, h2⟩ | ⟨_, h2⟩ | ⟨_, h2⟩ <;> subst h2 <;> rfl

/-- Witness of C28: the representation `NodeResultInt32` gives `IndexedPropertyInt32Loc`, whose
out-of-bounds sane-chain variant exists and is itself refused. -/
theorem C28_kind_helpers_compose_witness :
    indexedPropertyLocForResultType false NodeResultInt32
        = .ok LocationKind.IndexedPropertyInt32Loc
      ∧ (∃ chain, indexedPropertyLocToOutOfBoundsSaneChain LocationKind.IndexedPropertyInt32Loc
          = .ok chain)
      ∧ indexedPropertyLocToOutOfBoundsSaneChain
          LocationKind.IndexedPropertyInt32OutOfBoundsSaneChainLoc
        = .error Fault.releaseAssert :=
  ⟨rfl,
    (C28_kind_helpers_compose false NodeResultInt32).1 LocationKind.IndexedPropertyInt32Loc rfl,
    (C28_kind_helpers_compose false NodeResultInt32).2.2 LocationKind.IndexedPropertyInt32Loc
      LocationKind.IndexedPropertyInt32OutOfBoundsSaneChainLoc rfl⟩

end DFG

/-! ## `ICEvent`: hashing and equality, claim C29 -/

/-- The hash of an event is the hash of its name-free part plus a term for the name. -/
theorem ICEvent.hash_eq (x : HashFunctions) (e : ICEvent) :
    e.hash x = (e.m_kind.toUnsigned + e.m_propertyLocation.toUnsigned + x.ptrHash e.m_classInfo
      + (match e.m_propertyName with
        | none => 0
        | some name => x.stringHash name)) % 4294967296 := by
  unfold ICEvent.hash
  cases e.m_propertyName <;> rfl

/-- C29 fails on the code: `operator==` leaves `m_propertyLocation` out and `hash()` adds it.
Two events built by `ICEvent(vm, kind, classInfo, propertyName, isBaseProperty)` from the same
kind, class and name, one with `isBaseProperty` and one without, compare equal under
`ICEventHash::equal` and have hashes that differ by one, whatever the pointer and string hash
functions are; events that compare equal and have the same `m_propertyLocation` hash alike. -/
theorem C29_equal_events_hash_apart (x : HashFunctions) (kind : ICEvent.Kind)
    (classInfo : Nat) (propertyName : Option String) :
    ICEventHash.equal (ICEvent.createWithLocation kind classInfo propertyName true)
        (ICEvent.createWithLocation kind classInfo propertyName false) = true
      ∧ ICEventHash.hash x (ICEvent.createWithLocation kind classInfo propertyName true)
        ≠ ICEventHash.hash x (ICEvent.createWithLocation kind classInfo propertyName false)
      ∧ ∀ a b : ICEvent, ICEventHash.equal a b = true →
          a.m_propertyLocation = b.m_propertyLocation →
          ICEventHash.hash x a = ICEventHash.hash x b := by
  refine ⟨by simp [ICEventHash.equal, ICEvent.equal, ICEvent.createWithLocation], ?_, ?_⟩
  · simp only [ICEventHash.hash, ICEvent.hash_eq, ICEvent.createWithLocation, if_true,
      Bool.false_eq_true, if_false, ICEvent.PropertyLocation.toUnsigned]
    omega
  · intro a b hab hloc
    simp only [ICEventHash.equal, ICEvent.equal, Bool.and_eq_true, decide_eq_true_eq] at hab
    obtain ⟨⟨h1, h2⟩, h3⟩ := hab
    simp only [ICEventHash.hash, ICEvent.hash_eq, h1, h2, h3, hloc]

/-- Witness of C29 on the code: a `GetById` event for the name `length` on the class at
address 4096, found on the base object and found on the prototype chain. -/
theorem C29_equal_events_hash_apart_witness :
    ICEventHash.equal
        (ICEvent.createWithLocation ICEvent.Kind.OperationGetById 4096 (some "length") true)
        (ICEvent.createWithLocation ICEvent.Kind.OperationGetById 4096 (some "length") false)
      = true
      ∧ ICEventHash.hash HashFunctions.plain
          (ICEvent.createWithLocation ICEvent.Kind.OperationGetById 4096 (some "length") true)
        = 4112
      ∧ ICEventHash.hash HashFunctions.plain
          (ICEvent.createWithLocation ICEvent.Kind.OperationGetById 4096 (some "length") false)
        = 4113 :=
  ⟨(C29_equal_events_hash_apart HashFunctions.plain ICEvent.Kind.OperationGetById 4096
      (some "length")).1, by decide, by decide⟩

end JSC

namespace WebCore

/-! ## The response to the deflate-frame extension: claim C30 -/

/-- In a list without the key, `find?` finds nothing. -/
theorem find?_key_eq_none (l : List (String × Option String)) (k : String)
    (h : k ∉ l.map Prod.fst) : l.find? (fun e => e.1 == k) = none := by
  rw [List.find?_eq_none]
  intro e he hk
  apply h
  have : e.1 = k := by simpa using hk
  exact List.mem_map.2 ⟨e, he, this⟩

/-- The entries of a map are those of the key `a`, those of the key `b` and the others. -/
theorem length_eq_found (l : List (String × Option String)) (a b : String) (hab : a ≠ b)
    (hnodup : (l.map Prod.fst).Nodup) :
    l.length = (if (l.find? (fun e => e.1 == a)).isSome then 1 else 0)
      + (if (l.find? (fun e => e.1 == b)).isSome then 1 else 0)
      + (l.filter (fun e => !(e.1 == a) && !(e.1 == b))).length := by
  induction l with
  | nil => rfl
  | cons e rest ih =>
    simp only [List.map_cons, List.nodup_cons] at hnodup
    obtain ⟨hnot, hrest⟩ := hnodup
    have ih1 := ih hrest
    by_cases ha : e.1 = a
    · have hb : ¬ e.1 = b := fun hb => hab (ha.symm.trans hb)
      have hnone := find?_key_eq_none rest a (ha ▸ hnot)
      rw [hnone] at ih1
      simp only [List.find?_cons, ha, beq_self_eq_true, Option.isSome_some, if_true,
        List.filter_cons, Bool.not_true, Bool.false_and, Bool.false_eq_true, if_false,
        List.length_cons]
      have hba : (a == b) = false := by simpa using hab
      simp only [hba, Bool.false_eq_true]
      simp only [Option.isSome_none, Bool.false_eq_true, if_false] at ih1
      omega
    · by_cases hb : e.1 = b
      · have hnone := find?_key_eq_none rest b (hb ▸ hnot)
        rw [hnone] at ih1
        have hba : (b == a) = false := by simpa using fun h : b = a => hab h.symm
        simp only [List.find?_cons, hb, hba, beq_self_eq_true, Option.isSome_some, if_true,
          List.filter_cons, Bool.not_true, Bool.and_false, Bool.false_eq_true, if_false,
          List.length_cons]
        simp only [Option.isSome_none, Bool.false_eq_true, if_false] at ih1
        omega
      · have ha1 : (e.1 == a) = false := by simpa using ha
        have hb1 : (e.1 == b) = false := by simpa using hb
        simp only [List.find?_cons, ha1, hb1, List.filter_cons, Bool.not_false, Bool.and_self,
          if_true, List.length_cons]
        omega

/-- The number of entries equals the number of the two keys found exactly when the map has no
other key. -/
theorem HashMap.size_eq_found_iff (m : HashMap) (a b : String) (hab : a ≠ b) :
    (if (m.find a).isSome then 1 else 0) + (if (m.find b).isSome then 1 else 0) = m.size
      ↔ ∀ e, e ∈ m.entries → e.1 = a ∨ e.1 = b := by
  have hlen := length_eq_found m.entries a b hab m.nodup
  have hfa : (m.find a).isSome = (m.entries.find? (fun e => e.1 == a)).isSome := by
    simp [HashMap.find]
  have hfb : (m.find b).isSome = (m.entries.find? (fun e => e.1 == b)).isSome := by
    simp [HashMap.find]
  rw [hfa, hfb]
  unfold HashMap.size
  have hother : (m.entries.filter (fun e => !(e.1 == a) && !(e.1 == b))).length = 0
      ↔ ∀ e, e ∈ m.entries → e.1 = a ∨ e.1 = b := by
    rw [List.length_eq_zero, List.filter_eq_nil_iff]
    constructor
    · intro h e he
      have := h e he
      by_cases ha : e.1 = a
      · exact Or.inl ha
      · by_cases hb : e.1 = b
        · exact Or.inr hb
        · simp [ha, hb] at this
    · intro h e he
      rcases h e he with h1 | h1 <;> simp [h1]
  rw [← hother]
  omega

/-- C30: in the branch `#if !PLATFORM(JAVA)`, `processResponse` returns true if and only if it
is the first response processed, `max_window_bits` is absent or parses to an integer in 8..15,
`no_context_takeover` is absent or present with a null value, and the map has no other entry;
it then calls `enableDeflate` with the negotiated window bits and take-over mode, which enables
deflate when the deflater and the inflater initialise. In every other case it returns false,
leaves a non-empty failure reason and does not touch the framer. -/
theorem C30_process_response (x : External) (self : WebSocketExtensionDeflateFrame)
    (serverParameters : HashMap) :
    ((self.processResponse x serverParameters).1 = true ↔ Accepted x self serverParameters)
      ∧ ((self.processResponse x serverParameters).1 = true →
          (self.processResponse x serverParameters).2
              = { self with
                  m_responseProcessed := true
                  m_framer := self.m_framer.enableDeflate x
                    (negotiatedWindowBits x serverParameters) (negotiatedMode serverParameters) }
            ∧ 8 ≤ negotiatedWindowBits x serverParameters
            ∧ negotiatedWindowBits x serverParameters ≤ 15
            ∧ (x.deflaterInitializes (negotiatedWindowBits x serverParameters)
                  (negotiatedMode serverParameters) = true → x.inflaterInitializes = true →
                (self.processResponse x serverParameters).2.m_framer
                  = ⟨some (negotiatedWindowBits x serverParameters,
                      negotiatedMode serverParameters), true, true⟩))
      ∧ ((self.processResponse x serverParameters).1 = false →
          (self.processResponse x serverParameters).2.m_failureReason ≠ ""
            ∧ (self.processResponse x serverParameters).2.m_framer = self.m_framer) := by
  have hkeys : ("max_window_bits" : String) ≠ "no_context_takeover" := by decide
  have hsize := serverParameters.size_eq_found_iff "max_window_bits" "no_context_takeover" hkeys
  have henable : ∀ (bits : Int) (mode : ContextTakeOverMode),
      x.deflaterInitializes bits mode = true → x.inflaterInitializes = true →
      self.m_framer.enableDeflate x bits mode = ⟨some (bits, mode), true, true⟩ := by
    intro bits mode h1 h2
    simp [WebSocketDeflateFramer.enableDeflate, h1, h2]
  cases hproc : self.m_responseProcessed with
  | true =>
    have hres : self.processResponse x serverParameters
        = (false, { self with m_failureReason := "Received duplicate deflate-frame response" }) := by
      simp [WebSocketExtensionDeflateFrame.processResponse, hproc]
    rw [hres]
    refine ⟨?_, ?_, ?_⟩
    · simp [Accepted, hproc]
    · intro h
      simp at h
    · intro _
      exact ⟨by simp, rfl⟩
  | false =>
    cases ha : serverParameters.find "max_window_bits" with
    | none =>
      cases hb : serverParameters.find "no_context_takeover" with
      | none =>
        simp only [ha, hb, Option.isSome_none, Bool.false_eq_true, if_false, Nat.add_zero]
          at hsize
        by_cases hsz : 0 = serverParameters.size
        · have hres : self.processResponse x serverParameters
              = (true, { self with
                         m_responseProcessed := true
                         m_framer := self.m_framer.enableDeflate x 15
                           ContextTakeOverMode.TakeOverContext }) := by
            simp [WebSocketExtensionDeflateFrame.processResponse, hproc, ha, hb, hsz.symm]
          rw [hres]
          refine ⟨?_, ?_, ?_⟩
          · simp only [true_iff]
            exact ⟨hproc, by simp [ha], by simp [hb], hsize.1 hsz⟩
          · intro _
            unfold negotiatedWindowBits negotiatedMode
            rw [ha, hb]
            exact ⟨rfl, by show (8 : Int) ≤ 15; decide, by show (15 : Int) ≤ 15; decide, henable _ _⟩
          · intro h
            simp at h
        · have hres : self.processResponse x serverParameters
              = (false, { self with
                          m_responseProcessed := true
                          m_failureReason := "Received unexpected deflate-frame parameter" }) := by
            simp [WebSocketExtensionDeflateFrame.processResponse, hproc, ha, hb, hsz]
          rw [hres]
          refine ⟨?_, ?_, ?_⟩
          · simp only [Bool.false_eq_true, false_iff]
            rintro ⟨_, _, _, hall⟩
            exact hsz (hsize.2 hall)
          · intro h
            simp at h
          · intro _
            exact ⟨by simp, rfl⟩
      | some takeover =>
        simp only [ha, hb, Option.isSome_none, Option.isSome_some, Bool.false_eq_true, if_false,
          if_true, Nat.zero_add] at hsize
        cases htake : takeover with
        | some text =>
          have hres : self.processResponse x serverParameters
              = (false, { self with
                          m_responseProcessed := true
                          m_failureReason :=
                            "Received invalid no_context_takeover parameter" }) := by
            simp [WebSocketExtensionDeflateFrame.processResponse, hproc, ha, hb, htake]
          rw [hres]
          refine ⟨?_, ?_, ?_⟩
          · simp only [Bool.false_eq_true, false_iff]
            rintro ⟨_, _, hnull, _⟩
            have := hnull takeover hb
            rw [htake] at this
            simp at this
          · intro h
            simp at h
          · intro _
            exact ⟨by simp, rfl⟩
        | none =>
          by_cases hsz : 1 = serverParameters.size
          · have hres : self.processResponse x serverParameters
                = (true, { self with
                           m_responseProcessed := true
                           m_framer := self.m_framer.enableDeflate x 15
                             ContextTakeOverMode.DoNotTakeOverContext }) := by
              simp [WebSocketExtensionDeflateFrame.processResponse, hproc, ha, hb, htake,
                hsz.symm]
            rw [hres]
            refine ⟨?_, ?_, ?_⟩
            · simp only [true_iff]
              refine ⟨hproc, by simp [ha], ?_, hsize.1 hsz⟩
              intro value hv
              rw [hb] at hv
              simp only [Option.some.injEq] at hv
              rw [← hv, htake]
            · intro _
              unfold negotiatedWindowBits negotiatedMode
              rw [ha, hb]
              exact ⟨rfl, by show (8 : Int) ≤ 15; decide, by show (15 : Int) ≤ 15; decide, henable _ _⟩
            · intro h
              simp at h
          · have hres : self.processResponse x serverParameters
                = (false, { self with
                            m_responseProcessed := true
                            m_failureReason :=
                              "Received unexpected deflate-frame parameter" }) := by
              simp [WebSocketExtensionDeflateFrame.processResponse, hproc, ha, hb, htake, hsz]
            rw [hres]
            refine ⟨?_, ?_, ?_⟩
            · simp only [Bool.false_eq_true, false_iff]
              rintro ⟨_, _, _, hall⟩
              exact hsz (hsize.2 hall)
            · intro h
              simp at h
            · intro _
              exact ⟨by simp, rfl⟩
    | some value =>
      by_cases hbits : (x.parseIntegerAllowingTrailingJunk value).getD 0 < 8
          ∨ (x.parseIntegerAllowingTrailingJunk value).getD 0 > 15
      · have hres : self.processResponse x serverParameters
            = (false, { self with
                        m_responseProcessed := true
                        m_failureReason := "Received invalid max_window_bits parameter" }) := by
          simp [WebSocketExtensionDeflateFrame.processResponse, hproc, ha, hbits]
        rw [hres]
        refine ⟨?_, ?_, ?_⟩
        · simp only [Bool.false_eq_true, false_iff]
          rintro ⟨_, hparse, _, _⟩
          obtain ⟨n, hn, h8, h15⟩ := hparse value ha
          rw [hn] at hbits
          simp only [Option.getD_some] at hbits
          omega
        · intro h
          simp at h
        · intro _
          exact ⟨by simp, rfl⟩
      · have hparse : ∃ n, x.parseIntegerAllowingTrailingJunk value = some n ∧ 8 ≤ n
            ∧ n ≤ 15 := by
          cases hp : x.parseIntegerAllowingTrailingJunk value with
          | none =>
            rw [hp] at hbits
            simp at hbits
          | some n =>
            rw [hp] at hbits
            simp only [Option.getD_some] at hbits
            exact ⟨n, rfl, by omega, by omega⟩
        have hrange : 8 ≤ (x.parseIntegerAllowingTrailingJunk value).getD 0
            ∧ (x.parseIntegerAllowingTrailingJunk value).getD 0 ≤ 15 := by omega
        cases hb : serverParameters.find "no_context_takeover" with
        | none =>
          simp only [ha, hb, Option.isSome_none, Option.isSome_some, Bool.false_eq_true,
            if_false, if_true, Nat.add_zero] at hsize
          by_cases hsz : 1 = serverParameters.size
          · have hres : self.processResponse x serverParameters
                = (true, { self with
                           m_responseProcessed := true
                           m_framer := self.m_framer.enableDeflate x
                             ((x.parseIntegerAllowingTrailingJunk value).getD 0)
                             ContextTakeOverMode.TakeOverContext }) := by
              simp [WebSocketExtensionDeflateFrame.processResponse, hproc, ha, hb, hbits,
                hsz.symm]
            rw [hres]
            refine ⟨?_, ?_, ?_⟩
            · simp only [true_iff]
              refine ⟨hproc, ?_, by simp [hb], hsize.1 hsz⟩
              intro v hv
              rw [ha] at hv
              cases hv
              exact hparse
            · intro _
              unfold negotiatedWindowBits negotiatedMode
              rw [ha, hb]
              exact ⟨rfl, hrange.1, hrange.2, henable _ _⟩
            · intro h
              simp at h
          · have hres : self.processResponse x serverParameters
                = (false, { self with
                            m_responseProcessed := true
                            m_failureReason :=
                              "Received unexpected deflate-frame parameter" }) := by
              simp [WebSocketExtensionDeflateFrame.processResponse, hproc, ha, hb, hbits, hsz]
            rw [hres]
            refine ⟨?_, ?_, ?_⟩
            · simp only [Bool.false_eq_true, false_iff]
              rintro ⟨_, _, _, hall⟩
              exact hsz (hsize.2 hall)
            · intro h
              simp at h
            · intro _
              exact ⟨by simp, rfl⟩
        | some takeover =>
          simp only [ha, hb, Option.isSome_some, if_true] at hsize
          cases htake : takeover with
          | some text =>
            have hres : self.processResponse x serverParameters
                = (false, { self with
                            m_responseProcessed := true
                            m_failureReason :=
                              "Received invalid no_context_takeover parameter" }) := by
              simp [WebSocketExtensionDeflateFrame.processResponse, hproc, ha, hb, hbits, htake]
            rw [hres]
            refine ⟨?_, ?_, ?_⟩
            · simp only [Bool.false_eq_true, false_iff]
              rintro ⟨_, _, hnull, _⟩
              have := hnull takeover hb
              rw [htake] at this
              simp at this
            · intro h
              simp at h
            · intro _
              exact ⟨by simp, rfl⟩
          | none =>
            by_cases hsz : 1 + 1 = serverParameters.size
            · have hres : self.processResponse x serverParameters
                  = (true, { self with
                             m_responseProcessed := true
                             m_framer := self.m_framer.enableDeflate x
                               ((x.parseIntegerAllowingTrailingJunk value).getD 0)
                               ContextTakeOverMode.DoNotTakeOverContext }) := by
                simp [WebSocketExtensionDeflateFrame.processResponse, hproc, ha, hb, hbits,
                  htake, hsz.symm]
              rw [hres]
              refine ⟨?_, ?_, ?_⟩
              · simp only [true_iff]
                refine ⟨hproc, ?_, ?_, hsize.1 hsz⟩
                · intro v hv
                  rw [ha] at hv
                  cases hv
                  exact hparse
                · intro v hv
                  rw [hb] at hv
                  cases hv
                  exact htake
              · intro _
                unfold negotiatedWindowBits negotiatedMode
                rw [ha, hb]
                exact ⟨rfl, hrange.1, hrange.2, henable _ _⟩
              · intro h
                simp at h
            · have hres : self.processResponse x serverParameters
                  = (false, { self with
                              m_responseProcessed := true
                              m_failureReason :=
                                "Received unexpected deflate-frame parameter" }) := by
                simp [WebSocketExtensionDeflateFrame.processResponse, hproc, ha, hb, hbits,
                  htake, hsz]
              rw [hres]
              refine ⟨?_, ?_, ?_⟩
              · simp only [Bool.false_eq_true, false_iff]
                rintro ⟨_, _, _, hall⟩
                exact hsz (hsize.2 hall)
              · intro h
                simp at h
              · intro _
                exact ⟨by simp, rfl⟩

/-- Witness of C30: the first response `max_window_bits=10; no_context_takeover` is accepted,
and deflate is enabled with ten window bits and without context take-over. -/
theorem C30_process_response_witness :
    Accepted External.plain ⟨⟨none, false, false⟩, false, ""⟩ exampleResponse
      ∧ (WebSocketExtensionDeflateFrame.processResponse External.plain
          ⟨⟨none, false, false⟩, false, ""⟩ exampleResponse).2.m_framer
        = ⟨some (10, ContextTakeOverMode.DoNotTakeOverContext), true, true⟩ :=
  ⟨(C30_process_response External.plain ⟨⟨none, false, false⟩, false, ""⟩ exampleResponse).1.1
      (by decide),
    by decide⟩

end WebCore
